import Mathlib

/-!
Verification development for the fog-gt repository (coalition-formation game
among fog providers).  Each C++ component relevant to the checked claims is
shallowly embedded as an executable Lean definition translated from the source:

* `dcs/algorithm/subset.hpp`      — class `lexicographic_subset`
* `dcs/algorithm/partition.hpp`   — classes `lexicographic_partition`,
  `lexicographic_k_partition`
* `dcs/math/detail/float.hpp`     — tolerance-aware comparisons
* `dcs/fgt/coalition_formation/nash_stable.hpp` — Nash-stable selector
* `dcs/fgt/experiment.hpp`        — `analyze_coalitions`, `check_stats`,
  `do_check_end_of_simulation`, `make_scenario` shape handling
* `dcs/fgt/simulator.hpp`         — event queue (std::priority_queue over
  libstdc++ push_heap/pop_heap) and the firing loop

Machine doubles are modelled as extended rationals with NaN; machine-level
rounding is not modelled.  Exceptions are modelled with `Except`.
-/

namespace FogGT

/-! ### dcs/algorithm/subset.hpp : class lexicographic_subset

State: ground-set size `n`, flag `empty_set`, the bitmask `bits`
(boost::dynamic_bitset of width n, always < 2^n), and the two flags.
The constructor is `init` (the DCS_ASSERT for `n == 0` is a precondition:
all theorems use `n ≥ 1`). -/

structure lexicographic_subset where
  n : ℕ
  empty_set : Bool
  bits : ℕ
  has_prev : Bool
  has_next : Bool
deriving Repr, DecidableEq

/-- The smallest admissible bitmask: 0 with the empty set enabled, else 1. -/
def subsetMin (emptySet : Bool) : ℕ := if emptySet then 0 else 1

def lexicographic_subset.init (n : ℕ) (emptySet : Bool) : lexicographic_subset :=
  { n := n, empty_set := emptySet, bits := subsetMin emptySet
    , has_prev := false, has_next := decide (0 < n) }

/-- `boost::dynamic_bitset::count()` for a width-`n` bitset holding `bits`. -/
def bitCount (n bits : ℕ) : ℕ := ((List.range n).filter (fun i => bits.testBit i)).length

/-- `lexicographic_subset::operator++` body (after the `has_next_` assert):
`has_next_ = bits_.count() < n_; if (has_next_) bits_ = bits_+1;
has_prev_ = bits_ > (empty_set_ ? 0 : 1);`. -/
def lexicographic_subset.incCore (s : lexicographic_subset) : lexicographic_subset :=
  let hn := decide (bitCount s.n s.bits < s.n)
  let b' := if hn then s.bits + 1 else s.bits
  { s with
    bits := b'
    , has_next := hn
    , has_prev := decide (subsetMin s.empty_set < b') }

/-- `lexicographic_subset::operator--` body (after the `has_prev_` assert):
`has_prev_ = bits_ > (empty_set_ ? 0 : 1); if (has_prev_) bits_ = bits_-1;
has_next_ = bits_ < n_;`  (note: the source compares the bitmask VALUE with
`n_` here, not the popcount). -/
def lexicographic_subset.decCore (s : lexicographic_subset) : lexicographic_subset :=
  let hp := decide (subsetMin s.empty_set < s.bits)
  let b' := if hp then s.bits - 1 else s.bits
  { s with
    bits := b'
    , has_prev := hp
    , has_next := decide (b' < s.n) }

/-! ### dcs/algorithm/partition.hpp : class lexicographic_partition

Restricted-growth string `kappa` with running-maximum string `M`, both of
length `n`.  Only the `first = true` constructor is embedded (the repository
never passes `first = false`). -/

structure lexicographic_partition where
  n : ℕ
  kappa : List ℕ
  M : List ℕ
  has_prev : Bool
  has_next : Bool
deriving Repr, DecidableEq

def lexicographic_partition.init (n : ℕ) : lexicographic_partition :=
  { n := n, kappa := List.replicate n 0, M := List.replicate n 0
    , has_prev := false, has_next := true }

/-- The downward scan `for (i = hi; i > 0; --i) if (p i) break;` returning the
largest index `i ∈ [1, hi]` satisfying `p`, if any. -/
def findDownFrom (p : ℕ → Bool) : ℕ → Option ℕ
  | 0 => none
  | i+1 => if p (i+1) then some (i+1) else findDownFrom p i

/-- `lexicographic_partition::operator++` body: records
`has_next_ = (M_[n-1]+1) < n` (pre-state), then looks for the rightmost
`i ≥ 1` with `kappa[i] <= M[i-1]`; if found, increments `kappa[i]`, zero-fills
`kappa` to the right, sets `M[j] = max(M[i], kappa[i])` for `j ≥ i`, and sets
`has_prev_ = true`. -/
def lexicographic_partition.incCore (s : lexicographic_partition) : lexicographic_partition :=
  let n := s.n
  let preNext := decide (s.M.getD (n-1) 0 + 1 < n)
  match findDownFrom (fun i => s.kappa.getD i 0 ≤ s.M.getD (i-1) 0) (n-1) with
  | none => { s with has_next := preNext }
  | some i =>
    let kv := s.kappa.getD i 0 + 1
    let nm := max (s.M.getD i 0) kv
    { s with
      kappa := s.kappa.take i ++ kv :: List.replicate (n - i - 1) 0
    , M := s.M.take i ++ List.replicate (n - i) nm
    , has_next := preNext
    , has_prev := true }

/-- `lexicographic_partition::operator--` body: records
`has_prev_ = (M_[n-1]+1) > 1` (pre-state), then looks for the rightmost
`i ≥ 1` with `kappa[i] > 0`; if found, decrements `kappa[i]`, sets
`M[i] = M[i-1]` and fills `kappa[j] = M[j] = M[i-1] + j - i` for `j > i`,
and sets `has_next_ = true`. -/
def lexicographic_partition.decCore (s : lexicographic_partition) : lexicographic_partition :=
  let n := s.n
  let prePrev := decide (1 < s.M.getD (n-1) 0 + 1)
  match findDownFrom (fun i => 0 < s.kappa.getD i 0) (n-1) with
  | none => { s with has_prev := prePrev }
  | some i =>
    let m := s.M.getD (i-1) 0
    { s with
      kappa := s.kappa.take i ++ (s.kappa.getD i 0 - 1) :: (List.range' (i+1) (n-i-1)).map (fun j => m + j - i)
    , M := s.M.take i ++ m :: (List.range' (i+1) (n-i-1)).map (fun j => m + j - i)
    , has_prev := prePrev
    , has_next := true }

/-! ### dcs/algorithm/partition.hpp : class lexicographic_k_partition -/

structure lexicographic_k_partition where
  n : ℕ
  k : ℕ
  kappa : List ℕ
  M : List ℕ
  has_prev : Bool
  has_next : Bool
deriving Repr, DecidableEq

/-- Constructor with `first = true`: `kappa[i] = M[i] = i - (n-k)` for
`i > n-k`, zero elsewhere. -/
def lexicographic_k_partition.init (n k : ℕ) : lexicographic_k_partition :=
  { n := n, k := k
    , kappa := (List.range n).map (fun i => if n - k + 1 ≤ i then i - (n - k) else 0)
    , M := (List.range n).map (fun i => if n - k + 1 ≤ i then i - (n - k) else 0)
    , has_prev := false, has_next := true }

/-- `lexicographic_k_partition::operator++` body: `has_next_ = false`, then the
rightmost `i ≥ 1` with `kappa[i] < k-1 && kappa[i] <= M[i-1]` is incremented;
positions `i+1 .. n-(k-new_max)` are zero-filled with `M = new_max`; positions
`n-(k-new_max)+1 .. n-1` get `kappa[j] = M[j] = k-(n-j)`; both flags become
true on success. -/
def lexicographic_k_partition.incCore (s : lexicographic_k_partition) : lexicographic_k_partition :=
  let n := s.n
  let k := s.k
  match findDownFrom (fun i => s.kappa.getD i 0 < k - 1 ∧ s.kappa.getD i 0 ≤ s.M.getD (i-1) 0) (n-1) with
  | none => { s with has_next := false }
  | some i =>
    let kv := s.kappa.getD i 0 + 1
    let nm := max (s.M.getD i 0) kv
    { s with
      kappa := s.kappa.take i ++ kv :: (List.range' (i+1) (n-i-1)).map (fun j =>
        if j ≤ n - (k - nm) then 0 else k - (n - j))
    , M := s.M.take i ++ nm :: (List.range' (i+1) (n-i-1)).map (fun j =>
        if j ≤ n - (k - nm) then nm else k - (n - j))
    , has_next := true
    , has_prev := true }

/-- `lexicographic_k_partition::operator--` body: `has_prev_ = false`, then the
rightmost `i ≥ 1` with `kappa[i] > 0 && (k - M[i-1]) <= (n - i)` is
decremented; positions `i+1 .. i+(k-m)-1` get `kappa[j] = M[j] = m + j - i`;
positions `i+(k-m) .. n-1` get `kappa[j] = M[j] = k-1`; both flags become
true on success (`m = M[i-1]`). -/
def lexicographic_k_partition.decCore (s : lexicographic_k_partition) : lexicographic_k_partition :=
  let n := s.n
  let k := s.k
  match findDownFrom (fun i => 0 < s.kappa.getD i 0 ∧ k - s.M.getD (i-1) 0 ≤ n - i) (n-1) with
  | none => { s with has_prev := false }
  | some i =>
    let m := s.M.getD (i-1) 0
    { s with
      kappa := s.kappa.take i ++ (s.kappa.getD i 0 - 1) :: (List.range' (i+1) (n-i-1)).map (fun j =>
        if j < i + (k - m) then m + j - i else k - 1)
    , M := s.M.take i ++ m :: (List.range' (i+1) (n-i-1)).map (fun j =>
        if j < i + (k - m) then m + j - i else k - 1)
    , has_prev := true
    , has_next := true }

/-- Base-`b` encoding of a digit string, used to witness that the enumerated
restricted-growth strings are pairwise distinct (they are strictly increasing
in this encoding). -/
def encodeDigits (b : ℕ) (l : List ℕ) : ℕ := l.foldl (fun a d => a * b + d) 0

/-! #### Generic enumeration accumulator

`visitList` is the generic form of the `while (has_next) { use; ++ }` driver
protocol above; `enumIter` runs the same loop keeping only a counter and a
strict-monotonicity flag for the base-9 encodings of the visited strings, so
that the n = 8 runs can be evaluated by the kernel in bounded chunks. -/

def visitList {σ : Type} (alive : σ → Bool) (next : σ → σ) (key : σ → List ℕ) :
    ℕ → σ → List (List ℕ)
  | 0, _ => []
  | f+1, s => if alive s then key s :: visitList alive next key f (next s) else []

structure EnumAcc (σ : Type) where
  st : σ
  count : ℕ
  lastEnc : ℕ
  sorted : Bool
deriving Repr, DecidableEq

def enumIter {σ : Type} (alive : σ → Bool) (next : σ → σ) (enc : σ → ℕ) :
    ℕ → EnumAcc σ → EnumAcc σ
  | 0, a => a
  | f+1, a =>
    if alive a.st then
      enumIter alive next enc f
        { st := next a.st, count := a.count + 1, lastEnc := enc a.st
        , sorted := a.sorted && (decide (a.count = 0) || decide (a.lastEnc < enc a.st)) }
    else a

theorem enumIter_stall {σ : Type} (alive : σ → Bool) (next : σ → σ) (enc : σ → ℕ)
    (f : ℕ) (a : EnumAcc σ) (h : alive a.st = false) :
    enumIter alive next enc f a = a := by
  cases f with
  | zero => rfl
  | succ f => simp [enumIter, h]

theorem enumIter_add {σ : Type} (alive : σ → Bool) (next : σ → σ) (enc : σ → ℕ)
    (f g : ℕ) (a : EnumAcc σ) :
    enumIter alive next enc (f + g) a = enumIter alive next enc g (enumIter alive next enc f a) := by
  induction f generalizing a with
  | zero => simp [enumIter]
  | succ f ih =>
    by_cases h : alive a.st
    · have : f + 1 + g = (f + g) + 1 := by omega
      rw [this]
      simp only [enumIter, h, if_true]
      exact ih _
    · have hb : alive a.st = false := by simpa using h
      simp only [enumIter_stall alive next enc _ a hb]

/-- Splitting lemma used to run `enumIter` in kernel-sized chunks. -/
theorem enumIter_chunk {σ : Type} (alive : σ → Bool) (next : σ → σ) (enc : σ → ℕ)
    (c r : ℕ) (a b : EnumAcc σ) (h : enumIter alive next enc c a = b) :
    enumIter alive next enc (c + r) a = enumIter alive next enc r b := by
  rw [enumIter_add, h]

theorem enumIter_count {σ : Type} (alive : σ → Bool) (next : σ → σ) (enc : σ → ℕ)
    (key : σ → List ℕ) :
    ∀ (f : ℕ) (a : EnumAcc σ),
      (enumIter alive next enc f a).count = a.count + (visitList alive next key f a.st).length := by
  intro f
  induction f with
  | zero => intro a; simp [enumIter, visitList]
  | succ f ih =>
    intro a
    by_cases h : alive a.st
    · simp only [enumIter, visitList, h, if_true]
      rw [ih]
      simp [Nat.add_comm, Nat.add_assoc, Nat.add_left_comm]
    · have hb : alive a.st = false := by simpa using h
      simp [enumIter, visitList, hb]

theorem enumIter_sorted_mono {σ : Type} (alive : σ → Bool) (next : σ → σ) (enc : σ → ℕ) :
    ∀ (f : ℕ) (a : EnumAcc σ), (enumIter alive next enc f a).sorted = true → a.sorted = true := by
  intro f
  induction f with
  | zero => intro a h; simpa [enumIter] using h
  | succ f ih =>
    intro a h
    by_cases hl : alive a.st
    · simp only [enumIter, hl, if_true] at h
      have h2 := ih _ h
      simp only [Bool.and_eq_true] at h2
      exact h2.1
    · have hb : alive a.st = false := by simpa using hl
      simpa [enumIter, hb] using h

theorem enumIter_sorted_chain {σ : Type} (alive : σ → Bool) (next : σ → σ)
    (key : σ → List ℕ) (b : ℕ) :
    ∀ (f : ℕ) (a : EnumAcc σ),
      (enumIter alive next (fun s => encodeDigits b (key s)) f a).sorted = true →
      a.sorted = true →
      (a.count = 0 → List.Chain' (· < ·) ((visitList alive next key f a.st).map (encodeDigits b))) ∧
      (a.count ≠ 0 → List.Chain' (· < ·) (a.lastEnc :: (visitList alive next key f a.st).map (encodeDigits b))) := by
  intro f
  induction f with
  | zero =>
    intro a _ _
    exact ⟨fun _ => by simp [visitList], fun _ => by simp [visitList]⟩
  | succ f ih =>
    intro a hfin hstart
    by_cases hl : alive a.st
    · simp only [enumIter, hl, if_true] at hfin
      have hstep : (a.sorted && (decide (a.count = 0) || decide (a.lastEnc < encodeDigits b (key a.st)))) = true :=
        enumIter_sorted_mono _ _ _ f _ hfin
      have hchk : (decide (a.count = 0) || decide (a.lastEnc < encodeDigits b (key a.st))) = true := by
        simp only [Bool.and_eq_true] at hstep
        exact hstep.2
      have hnext := ih _ hfin hstep
      have htail : List.Chain' (· < ·)
          (encodeDigits b (key a.st) :: (visitList alive next key f (next a.st)).map (encodeDigits b)) := by
        have := hnext.2 (by simp)
        simpa using this
      constructor
      · intro _
        simpa [visitList, hl]
      · intro hc
        have hlt : a.lastEnc < encodeDigits b (key a.st) := by
          simp only [Bool.or_eq_true, decide_eq_true_eq] at hchk
          rcases hchk with h | h
          · exact absurd h hc
          · exact h
        simp only [visitList, hl, if_true, List.map_cons]
        exact List.Chain'.cons hlt htail
    · have hb : alive a.st = false := by simpa using hl
      exact ⟨fun _ => by simp [visitList, hb], fun _ => by simp [visitList, hb]⟩

/-- Main workhorse: a fully evaluated accumulator run with `sorted = true`
certifies both the length and the distinctness of the visited strings. -/
theorem enumFacts {σ : Type} (alive : σ → Bool) (next : σ → σ) (key : σ → List ℕ)
    (b fuel : ℕ) (s0 : σ) (fin : EnumAcc σ) (target : ℕ)
    (hrun : enumIter alive next (fun s => encodeDigits b (key s)) fuel ⟨s0, 0, 0, true⟩ = fin)
    (hsort : fin.sorted = true) (hcount : fin.count = target) :
    (visitList alive next key fuel s0).length = target ∧
      (visitList alive next key fuel s0).Nodup := by
  constructor
  · have h := enumIter_count alive next (fun s => encodeDigits b (key s)) key fuel ⟨s0, 0, 0, true⟩
    rw [hrun, hcount] at h
    simpa using h.symm
  · have hs : (enumIter alive next (fun s => encodeDigits b (key s)) fuel ⟨s0, 0, 0, true⟩).sorted = true := by
      rw [hrun]; exact hsort
    have h := (enumIter_sorted_chain alive next key b fuel ⟨s0, 0, 0, true⟩ hs rfl).1 rfl
    have hpw : List.Pairwise (· < ·) ((visitList alive next key fuel s0).map (encodeDigits b)) :=
      List.chain'_iff_pairwise.mp h
    have hnd : ((visitList alive next key fuel s0).map (encodeDigits b)).Nodup :=
      hpw.imp (fun hlt => Nat.ne_of_lt hlt)
    exact hnd.of_map


/-! ### Enumeration protocol

The repository drives both iterators with
`while (it.has_next()) { use(current); ++it; }` (`next_partition` /
`next_subset` apply the current state first and advance afterwards).  The
visited states are collected below; the fuel argument only bounds the loop
and is chosen large enough for every terminating run. -/

def pAlive : lexicographic_partition → Bool := fun s => s.has_next
def pNext : lexicographic_partition → lexicographic_partition := fun s => s.incCore
def pKey : lexicographic_partition → List ℕ := fun s => s.kappa
def pEnc : lexicographic_partition → ℕ := fun s => encodeDigits 9 (pKey s)

def visitPartitions : ℕ → lexicographic_partition → List (List ℕ) :=
  visitList pAlive pNext pKey

def enumPartitions (n : ℕ) : List (List ℕ) :=
  visitPartitions ((n+2)^(n+1)) (lexicographic_partition.init n)

def kqAlive : lexicographic_k_partition → Bool := fun s => s.has_next
def kqNext : lexicographic_k_partition → lexicographic_k_partition := fun s => s.incCore
def kqKey : lexicographic_k_partition → List ℕ := fun s => s.kappa
def kqEnc : lexicographic_k_partition → ℕ := fun s => encodeDigits 9 (kqKey s)

def visitKPartitions : ℕ → lexicographic_k_partition → List (List ℕ) :=
  visitList kqAlive kqNext kqKey

def enumKPartitions (n k : ℕ) : List (List ℕ) :=
  visitKPartitions ((n+2)^(n+1)) (lexicographic_k_partition.init n k)

/-! ### Bell and Stirling numbers (the mathematical reference values) -/

def stirling2 : ℕ → ℕ → ℕ
  | 0, 0 => 1
  | 0, _+1 => 0
  | _+1, 0 => 0
  | n+1, k+1 => (k+1) * stirling2 n (k+1) + stirling2 n k

def bellNumber (n : ℕ) : ℕ := ((List.range (n+1)).map (stirling2 n)).sum


/-! #### Kernel-evaluated enumeration runs (claim C8)

Each chunk lemma advances the accumulator by 400 protocol steps between
explicitly listed states; the run lemmas splice the chunks together to
cover the full fuel of `enumPartitions` / `enumKPartitions`. -/

set_option maxRecDepth 10000 in
theorem enumRun_part_1 : enumIter pAlive pNext pEnc ((1+2)^(1+1)) ⟨lexicographic_partition.init 1, 0, 0, true⟩ =
    ⟨⟨1, [0], [0], false, false⟩, 1, 0, true⟩ := rfl
theorem enumFacts_part_1 : (enumPartitions 1).length = bellNumber 1 ∧ (enumPartitions 1).Nodup :=
  enumFacts pAlive pNext pKey 9 ((1+2)^(1+1)) (lexicographic_partition.init 1)
    _ (bellNumber 1) enumRun_part_1 rfl rfl

set_option maxRecDepth 10000 in
theorem enumRun_part_2 : enumIter pAlive pNext pEnc ((2+2)^(2+1)) ⟨lexicographic_partition.init 2, 0, 0, true⟩ =
    ⟨⟨2, [0, 1], [0, 1], true, false⟩, 2, 1, true⟩ := rfl
theorem enumFacts_part_2 : (enumPartitions 2).length = bellNumber 2 ∧ (enumPartitions 2).Nodup :=
  enumFacts pAlive pNext pKey 9 ((2+2)^(2+1)) (lexicographic_partition.init 2)
    _ (bellNumber 2) enumRun_part_2 rfl rfl

set_option maxRecDepth 20000 in
set_option maxHeartbeats 3200000 in
theorem enumChunk_part_3_c1 : enumIter pAlive pNext pEnc 400 ⟨lexicographic_partition.init 3, 0, 0, true⟩ =
    ⟨⟨3, [0, 1, 2], [0, 1, 2], true, false⟩, 5, 11, true⟩ := rfl
theorem enumRun_part_3 : enumIter pAlive pNext pEnc ((3+2)^(3+1)) ⟨lexicographic_partition.init 3, 0, 0, true⟩ =
    ⟨⟨3, [0, 1, 2], [0, 1, 2], true, false⟩, 5, 11, true⟩ := by
  have e : ((3+2:ℕ))^(3+1) = 400 + 225 := by norm_num
  rw [e]
  refine (enumIter_chunk _ _ _ 400 _ _ _ enumChunk_part_3_c1).trans ?_
  exact enumIter_stall _ _ _ _ _ rfl
theorem enumFacts_part_3 : (enumPartitions 3).length = bellNumber 3 ∧ (enumPartitions 3).Nodup :=
  enumFacts pAlive pNext pKey 9 ((3+2)^(3+1)) (lexicographic_partition.init 3)
    _ (bellNumber 3) enumRun_part_3 rfl rfl

set_option maxRecDepth 20000 in
set_option maxHeartbeats 3200000 in
theorem enumChunk_part_4_c1 : enumIter pAlive pNext pEnc 400 ⟨lexicographic_partition.init 4, 0, 0, true⟩ =
    ⟨⟨4, [0, 1, 2, 3], [0, 1, 2, 3], true, false⟩, 15, 102, true⟩ := rfl
theorem enumRun_part_4 : enumIter pAlive pNext pEnc ((4+2)^(4+1)) ⟨lexicographic_partition.init 4, 0, 0, true⟩ =
    ⟨⟨4, [0, 1, 2, 3], [0, 1, 2, 3], true, false⟩, 15, 102, true⟩ := by
  have e : ((4+2:ℕ))^(4+1) = 400 + 7376 := by norm_num
  rw [e]
  refine (enumIter_chunk _ _ _ 400 _ _ _ enumChunk_part_4_c1).trans ?_
  exact enumIter_stall _ _ _ _ _ rfl
theorem enumFacts_part_4 : (enumPartitions 4).length = bellNumber 4 ∧ (enumPartitions 4).Nodup :=
  enumFacts pAlive pNext pKey 9 ((4+2)^(4+1)) (lexicographic_partition.init 4)
    _ (bellNumber 4) enumRun_part_4 rfl rfl

set_option maxRecDepth 20000 in
set_option maxHeartbeats 3200000 in
theorem enumChunk_part_5_c1 : enumIter pAlive pNext pEnc 400 ⟨lexicographic_partition.init 5, 0, 0, true⟩ =
    ⟨⟨5, [0, 1, 2, 3, 4], [0, 1, 2, 3, 4], true, false⟩, 52, 922, true⟩ := rfl
theorem enumRun_part_5 : enumIter pAlive pNext pEnc ((5+2)^(5+1)) ⟨lexicographic_partition.init 5, 0, 0, true⟩ =
    ⟨⟨5, [0, 1, 2, 3, 4], [0, 1, 2, 3, 4], true, false⟩, 52, 922, true⟩ := by
  have e : ((5+2:ℕ))^(5+1) = 400 + 117249 := by norm_num
  rw [e]
  refine (enumIter_chunk _ _ _ 400 _ _ _ enumChunk_part_5_c1).trans ?_
  exact enumIter_stall _ _ _ _ _ rfl
theorem enumFacts_part_5 : (enumPartitions 5).length = bellNumber 5 ∧ (enumPartitions 5).Nodup :=
  enumFacts pAlive pNext pKey 9 ((5+2)^(5+1)) (lexicographic_partition.init 5)
    _ (bellNumber 5) enumRun_part_5 rfl rfl

set_option maxRecDepth 20000 in
set_option maxHeartbeats 3200000 in
theorem enumChunk_part_6_c1 : enumIter pAlive pNext pEnc 400 ⟨lexicographic_partition.init 6, 0, 0, true⟩ =
    ⟨⟨6, [0, 1, 2, 3, 4, 5], [0, 1, 2, 3, 4, 5], true, false⟩, 203, 8303, true⟩ := rfl
theorem enumRun_part_6 : enumIter pAlive pNext pEnc ((6+2)^(6+1)) ⟨lexicographic_partition.init 6, 0, 0, true⟩ =
    ⟨⟨6, [0, 1, 2, 3, 4, 5], [0, 1, 2, 3, 4, 5], true, false⟩, 203, 8303, true⟩ := by
  have e : ((6+2:ℕ))^(6+1) = 400 + 2096752 := by norm_num
  rw [e]
  refine (enumIter_chunk _ _ _ 400 _ _ _ enumChunk_part_6_c1).trans ?_
  exact enumIter_stall _ _ _ _ _ rfl
theorem enumFacts_part_6 : (enumPartitions 6).length = bellNumber 6 ∧ (enumPartitions 6).Nodup :=
  enumFacts pAlive pNext pKey 9 ((6+2)^(6+1)) (lexicographic_partition.init 6)
    _ (bellNumber 6) enumRun_part_6 rfl rfl

set_option maxRecDepth 20000 in
set_option maxHeartbeats 3200000 in
theorem enumChunk_part_7_c1 : enumIter pAlive pNext pEnc 400 ⟨lexicographic_partition.init 7, 0, 0, true⟩ =
    ⟨⟨7, [0, 1, 1, 1, 0, 2, 3], [0, 1, 1, 1, 1, 2, 3], true, true⟩, 400, 66359, true⟩ := rfl
set_option maxRecDepth 20000 in
set_option maxHeartbeats 3200000 in
theorem enumChunk_part_7_c2 : enumIter pAlive pNext pEnc 400 ⟨⟨7, [0, 1, 1, 1, 0, 2, 3], [0, 1, 1, 1, 1, 2, 3], true, true⟩, 400, 66359, true⟩ =
    ⟨⟨7, [0, 1, 2, 3, 2, 2, 2], [0, 1, 2, 3, 3, 3, 3], true, true⟩, 800, 74539, true⟩ := rfl
set_option maxRecDepth 20000 in
set_option maxHeartbeats 3200000 in
theorem enumChunk_part_7_c3 : enumIter pAlive pNext pEnc 400 ⟨⟨7, [0, 1, 2, 3, 2, 2, 2], [0, 1, 2, 3, 3, 3, 3], true, true⟩, 800, 74539, true⟩ =
    ⟨⟨7, [0, 1, 2, 3, 4, 5, 6], [0, 1, 2, 3, 4, 5, 6], true, false⟩, 877, 74733, true⟩ := rfl
theorem enumRun_part_7 : enumIter pAlive pNext pEnc ((7+2)^(7+1)) ⟨lexicographic_partition.init 7, 0, 0, true⟩ =
    ⟨⟨7, [0, 1, 2, 3, 4, 5, 6], [0, 1, 2, 3, 4, 5, 6], true, false⟩, 877, 74733, true⟩ := by
  have e : ((7+2:ℕ))^(7+1) = 400 + (400 + (400 + 43045521)) := by norm_num
  rw [e]
  refine (enumIter_chunk _ _ _ 400 _ _ _ enumChunk_part_7_c1).trans ?_
  refine (enumIter_chunk _ _ _ 400 _ _ _ enumChunk_part_7_c2).trans ?_
  refine (enumIter_chunk _ _ _ 400 _ _ _ enumChunk_part_7_c3).trans ?_
  exact enumIter_stall _ _ _ _ _ rfl
theorem enumFacts_part_7 : (enumPartitions 7).length = bellNumber 7 ∧ (enumPartitions 7).Nodup :=
  enumFacts pAlive pNext pKey 9 ((7+2)^(7+1)) (lexicographic_partition.init 7)
    _ (bellNumber 7) enumRun_part_7 rfl rfl

set_option maxRecDepth 20000 in
set_option maxHeartbeats 3200000 in
theorem enumChunk_part_8_c1 : enumIter pAlive pNext pEnc 400 ⟨lexicographic_partition.init 8, 0, 0, true⟩ =
    ⟨⟨8, [0, 0, 1, 1, 1, 0, 2, 3], [0, 0, 1, 1, 1, 1, 2, 3], true, true⟩, 400, 66359, true⟩ := rfl
set_option maxRecDepth 20000 in
set_option maxHeartbeats 3200000 in
theorem enumChunk_part_8_c2 : enumIter pAlive pNext pEnc 400 ⟨⟨8, [0, 0, 1, 1, 1, 0, 2, 3], [0, 0, 1, 1, 1, 1, 2, 3], true, true⟩, 400, 66359, true⟩ =
    ⟨⟨8, [0, 0, 1, 2, 3, 2, 2, 2], [0, 0, 1, 2, 3, 3, 3, 3], true, true⟩, 800, 74539, true⟩ := rfl
set_option maxRecDepth 20000 in
set_option maxHeartbeats 3200000 in
theorem enumChunk_part_8_c3 : enumIter pAlive pNext pEnc 400 ⟨⟨8, [0, 0, 1, 2, 3, 2, 2, 2], [0, 0, 1, 2, 3, 3, 3, 3], true, true⟩, 800, 74539, true⟩ =
    ⟨⟨8, [0, 1, 0, 2, 0, 1, 1, 0], [0, 1, 1, 2, 2, 2, 2, 2], true, true⟩, 1200, 544647, true⟩ := rfl
set_option maxRecDepth 20000 in
set_option maxHeartbeats 3200000 in
theorem enumChunk_part_8_c4 : enumIter pAlive pNext pEnc 400 ⟨⟨8, [0, 1, 0, 2, 0, 1, 1, 0], [0, 1, 1, 2, 2, 2, 2, 2], true, true⟩, 1200, 544647, true⟩ =
    ⟨⟨8, [0, 1, 1, 0, 1, 1, 0, 2], [0, 1, 1, 1, 1, 1, 1, 2], true, true⟩, 1600, 591301, true⟩ := rfl
set_option maxRecDepth 20000 in
set_option maxHeartbeats 3200000 in
theorem enumChunk_part_8_c5 : enumIter pAlive pNext pEnc 400 ⟨⟨8, [0, 1, 1, 0, 1, 1, 0, 2], [0, 1, 1, 1, 1, 1, 1, 2], true, true⟩, 1600, 591301, true⟩ =
    ⟨⟨8, [0, 1, 1, 2, 1, 3, 3, 4], [0, 1, 1, 2, 2, 3, 3, 4], true, true⟩, 2000, 604614, true⟩ := rfl
set_option maxRecDepth 20000 in
set_option maxHeartbeats 3200000 in
theorem enumChunk_part_8_c6 : enumIter pAlive pNext pEnc 400 ⟨⟨8, [0, 1, 1, 2, 1, 3, 3, 4], [0, 1, 1, 2, 2, 3, 3, 4], true, true⟩, 2000, 604614, true⟩ =
    ⟨⟨8, [0, 1, 2, 0, 2, 1, 1, 0], [0, 1, 2, 2, 2, 2, 2, 2], true, true⟩, 2400, 651081, true⟩ := rfl
set_option maxRecDepth 20000 in
set_option maxHeartbeats 3200000 in
theorem enumChunk_part_8_c7 : enumIter pAlive pNext pEnc 400 ⟨⟨8, [0, 1, 2, 0, 2, 1, 1, 0], [0, 1, 2, 2, 2, 2, 2, 2], true, true⟩, 2400, 651081, true⟩ =
    ⟨⟨8, [0, 1, 2, 1, 2, 2, 3, 3], [0, 1, 2, 2, 2, 2, 3, 3], true, true⟩, 2800, 657749, true⟩ := rfl
set_option maxRecDepth 20000 in
set_option maxHeartbeats 3200000 in
theorem enumChunk_part_8_c8 : enumIter pAlive pNext pEnc 400 ⟨⟨8, [0, 1, 2, 1, 2, 2, 3, 3], [0, 1, 2, 2, 2, 2, 3, 3], true, true⟩, 2800, 657749, true⟩ =
    ⟨⟨8, [0, 1, 2, 2, 3, 0, 0, 0], [0, 1, 2, 2, 3, 3, 3, 3], true, true⟩, 3200, 664403, true⟩ := rfl
set_option maxRecDepth 20000 in
set_option maxHeartbeats 3200000 in
theorem enumChunk_part_8_c9 : enumIter pAlive pNext pEnc 400 ⟨⟨8, [0, 1, 2, 2, 3, 0, 0, 0], [0, 1, 2, 2, 3, 3, 3, 3], true, true⟩, 3200, 664403, true⟩ =
    ⟨⟨8, [0, 1, 2, 3, 1, 4, 2, 2], [0, 1, 2, 3, 3, 4, 4, 4], true, true⟩, 3600, 670294, true⟩ := rfl
set_option maxRecDepth 20000 in
set_option maxHeartbeats 3200000 in
theorem enumChunk_part_8_c10 : enumIter pAlive pNext pEnc 400 ⟨⟨8, [0, 1, 2, 3, 1, 4, 2, 2], [0, 1, 2, 3, 3, 4, 4, 4], true, true⟩, 3600, 670294, true⟩ =
    ⟨⟨8, [0, 1, 2, 3, 4, 2, 3, 3], [0, 1, 2, 3, 4, 4, 4, 4], true, true⟩, 4000, 672329, true⟩ := rfl
set_option maxRecDepth 20000 in
set_option maxHeartbeats 3200000 in
theorem enumChunk_part_8_c11 : enumIter pAlive pNext pEnc 400 ⟨⟨8, [0, 1, 2, 3, 4, 2, 3, 3], [0, 1, 2, 3, 4, 4, 4, 4], true, true⟩, 4000, 672329, true⟩ =
    ⟨⟨8, [0, 1, 2, 3, 4, 5, 6, 7], [0, 1, 2, 3, 4, 5, 6, 7], true, false⟩, 4140, 672604, true⟩ := rfl
theorem enumRun_part_8 : enumIter pAlive pNext pEnc ((8+2)^(8+1)) ⟨lexicographic_partition.init 8, 0, 0, true⟩ =
    ⟨⟨8, [0, 1, 2, 3, 4, 5, 6, 7], [0, 1, 2, 3, 4, 5, 6, 7], true, false⟩, 4140, 672604, true⟩ := by
  have e : ((8+2:ℕ))^(8+1) = 400 + (400 + (400 + (400 + (400 + (400 + (400 + (400 + (400 + (400 + (400 + 999995600)))))))))) := by norm_num
  rw [e]
  refine (enumIter_chunk _ _ _ 400 _ _ _ enumChunk_part_8_c1).trans ?_
  refine (enumIter_chunk _ _ _ 400 _ _ _ enumChunk_part_8_c2).trans ?_
  refine (enumIter_chunk _ _ _ 400 _ _ _ enumChunk_part_8_c3).trans ?_
  refine (enumIter_chunk _ _ _ 400 _ _ _ enumChunk_part_8_c4).trans ?_
  refine (enumIter_chunk _ _ _ 400 _ _ _ enumChunk_part_8_c5).trans ?_
  refine (enumIter_chunk _ _ _ 400 _ _ _ enumChunk_part_8_c6).trans ?_
  refine (enumIter_chunk _ _ _ 400 _ _ _ enumChunk_part_8_c7).trans ?_
  refine (enumIter_chunk _ _ _ 400 _ _ _ enumChunk_part_8_c8).trans ?_
  refine (enumIter_chunk _ _ _ 400 _ _ _ enumChunk_part_8_c9).trans ?_
  refine (enumIter_chunk _ _ _ 400 _ _ _ enumChunk_part_8_c10).trans ?_
  refine (enumIter_chunk _ _ _ 400 _ _ _ enumChunk_part_8_c11).trans ?_
  exact enumIter_stall _ _ _ _ _ rfl
theorem enumFacts_part_8 : (enumPartitions 8).length = bellNumber 8 ∧ (enumPartitions 8).Nodup :=
  enumFacts pAlive pNext pKey 9 ((8+2)^(8+1)) (lexicographic_partition.init 8)
    _ (bellNumber 8) enumRun_part_8 rfl rfl

set_option maxRecDepth 10000 in
theorem enumRun_kpart_1_1 : enumIter kqAlive kqNext kqEnc ((1+2)^(1+1)) ⟨lexicographic_k_partition.init 1 1, 0, 0, true⟩ =
    ⟨⟨1, 1, [0], [0], false, false⟩, 1, 0, true⟩ := rfl
theorem enumFacts_kpart_1_1 : (enumKPartitions 1 1).length = stirling2 1 1 ∧ (enumKPartitions 1 1).Nodup :=
  enumFacts kqAlive kqNext kqKey 9 ((1+2)^(1+1)) (lexicographic_k_partition.init 1 1)
    _ (stirling2 1 1) enumRun_kpart_1_1 rfl rfl

set_option maxRecDepth 10000 in
theorem enumRun_kpart_2_1 : enumIter kqAlive kqNext kqEnc ((2+2)^(2+1)) ⟨lexicographic_k_partition.init 2 1, 0, 0, true⟩ =
    ⟨⟨2, 1, [0, 0], [0, 0], false, false⟩, 1, 0, true⟩ := rfl
theorem enumFacts_kpart_2_1 : (enumKPartitions 2 1).length = stirling2 2 1 ∧ (enumKPartitions 2 1).Nodup :=
  enumFacts kqAlive kqNext kqKey 9 ((2+2)^(2+1)) (lexicographic_k_partition.init 2 1)
    _ (stirling2 2 1) enumRun_kpart_2_1 rfl rfl

set_option maxRecDepth 10000 in
theorem enumRun_kpart_2_2 : enumIter kqAlive kqNext kqEnc ((2+2)^(2+1)) ⟨lexicographic_k_partition.init 2 2, 0, 0, true⟩ =
    ⟨⟨2, 2, [0, 1], [0, 1], false, false⟩, 1, 1, true⟩ := rfl
theorem enumFacts_kpart_2_2 : (enumKPartitions 2 2).length = stirling2 2 2 ∧ (enumKPartitions 2 2).Nodup :=
  enumFacts kqAlive kqNext kqKey 9 ((2+2)^(2+1)) (lexicographic_k_partition.init 2 2)
    _ (stirling2 2 2) enumRun_kpart_2_2 rfl rfl

set_option maxRecDepth 20000 in
set_option maxHeartbeats 3200000 in
theorem enumChunk_kpart_3_1_c1 : enumIter kqAlive kqNext kqEnc 400 ⟨lexicographic_k_partition.init 3 1, 0, 0, true⟩ =
    ⟨⟨3, 1, [0, 0, 0], [0, 0, 0], false, false⟩, 1, 0, true⟩ := rfl
theorem enumRun_kpart_3_1 : enumIter kqAlive kqNext kqEnc ((3+2)^(3+1)) ⟨lexicographic_k_partition.init 3 1, 0, 0, true⟩ =
    ⟨⟨3, 1, [0, 0, 0], [0, 0, 0], false, false⟩, 1, 0, true⟩ := by
  have e : ((3+2:ℕ))^(3+1) = 400 + 225 := by norm_num
  rw [e]
  refine (enumIter_chunk _ _ _ 400 _ _ _ enumChunk_kpart_3_1_c1).trans ?_
  exact enumIter_stall _ _ _ _ _ rfl
theorem enumFacts_kpart_3_1 : (enumKPartitions 3 1).length = stirling2 3 1 ∧ (enumKPartitions 3 1).Nodup :=
  enumFacts kqAlive kqNext kqKey 9 ((3+2)^(3+1)) (lexicographic_k_partition.init 3 1)
    _ (stirling2 3 1) enumRun_kpart_3_1 rfl rfl

set_option maxRecDepth 20000 in
set_option maxHeartbeats 3200000 in
theorem enumChunk_kpart_3_2_c1 : enumIter kqAlive kqNext kqEnc 400 ⟨lexicographic_k_partition.init 3 2, 0, 0, true⟩ =
    ⟨⟨3, 2, [0, 1, 1], [0, 1, 1], true, false⟩, 3, 10, true⟩ := rfl
theorem enumRun_kpart_3_2 : enumIter kqAlive kqNext kqEnc ((3+2)^(3+1)) ⟨lexicographic_k_partition.init 3 2, 0, 0, true⟩ =
    ⟨⟨3, 2, [0, 1, 1], [0, 1, 1], true, false⟩, 3, 10, true⟩ := by
  have e : ((3+2:ℕ))^(3+1) = 400 + 225 := by norm_num
  rw [e]
  refine (enumIter_chunk _ _ _ 400 _ _ _ enumChunk_kpart_3_2_c1).trans ?_
  exact enumIter_stall _ _ _ _ _ rfl
theorem enumFacts_kpart_3_2 : (enumKPartitions 3 2).length = stirling2 3 2 ∧ (enumKPartitions 3 2).Nodup :=
  enumFacts kqAlive kqNext kqKey 9 ((3+2)^(3+1)) (lexicographic_k_partition.init 3 2)
    _ (stirling2 3 2) enumRun_kpart_3_2 rfl rfl

set_option maxRecDepth 20000 in
set_option maxHeartbeats 3200000 in
theorem enumChunk_kpart_3_3_c1 : enumIter kqAlive kqNext kqEnc 400 ⟨lexicographic_k_partition.init 3 3, 0, 0, true⟩ =
    ⟨⟨3, 3, [0, 1, 2], [0, 1, 2], false, false⟩, 1, 11, true⟩ := rfl
theorem enumRun_kpart_3_3 : enumIter kqAlive kqNext kqEnc ((3+2)^(3+1)) ⟨lexicographic_k_partition.init 3 3, 0, 0, true⟩ =
    ⟨⟨3, 3, [0, 1, 2], [0, 1, 2], false, false⟩, 1, 11, true⟩ := by
  have e : ((3+2:ℕ))^(3+1) = 400 + 225 := by norm_num
  rw [e]
  refine (enumIter_chunk _ _ _ 400 _ _ _ enumChunk_kpart_3_3_c1).trans ?_
  exact enumIter_stall _ _ _ _ _ rfl
theorem enumFacts_kpart_3_3 : (enumKPartitions 3 3).length = stirling2 3 3 ∧ (enumKPartitions 3 3).Nodup :=
  enumFacts kqAlive kqNext kqKey 9 ((3+2)^(3+1)) (lexicographic_k_partition.init 3 3)
    _ (stirling2 3 3) enumRun_kpart_3_3 rfl rfl

set_option maxRecDepth 20000 in
set_option maxHeartbeats 3200000 in
theorem enumChunk_kpart_4_1_c1 : enumIter kqAlive kqNext kqEnc 400 ⟨lexicographic_k_partition.init 4 1, 0, 0, true⟩ =
    ⟨⟨4, 1, [0, 0, 0, 0], [0, 0, 0, 0], false, false⟩, 1, 0, true⟩ := rfl
theorem enumRun_kpart_4_1 : enumIter kqAlive kqNext kqEnc ((4+2)^(4+1)) ⟨lexicographic_k_partition.init 4 1, 0, 0, true⟩ =
    ⟨⟨4, 1, [0, 0, 0, 0], [0, 0, 0, 0], false, false⟩, 1, 0, true⟩ := by
  have e : ((4+2:ℕ))^(4+1) = 400 + 7376 := by norm_num
  rw [e]
  refine (enumIter_chunk _ _ _ 400 _ _ _ enumChunk_kpart_4_1_c1).trans ?_
  exact enumIter_stall _ _ _ _ _ rfl
theorem enumFacts_kpart_4_1 : (enumKPartitions 4 1).length = stirling2 4 1 ∧ (enumKPartitions 4 1).Nodup :=
  enumFacts kqAlive kqNext kqKey 9 ((4+2)^(4+1)) (lexicographic_k_partition.init 4 1)
    _ (stirling2 4 1) enumRun_kpart_4_1 rfl rfl

set_option maxRecDepth 20000 in
set_option maxHeartbeats 3200000 in
theorem enumChunk_kpart_4_2_c1 : enumIter kqAlive kqNext kqEnc 400 ⟨lexicographic_k_partition.init 4 2, 0, 0, true⟩ =
    ⟨⟨4, 2, [0, 1, 1, 1], [0, 1, 1, 1], true, false⟩, 7, 91, true⟩ := rfl
theorem enumRun_kpart_4_2 : enumIter kqAlive kqNext kqEnc ((4+2)^(4+1)) ⟨lexicographic_k_partition.init 4 2, 0, 0, true⟩ =
    ⟨⟨4, 2, [0, 1, 1, 1], [0, 1, 1, 1], true, false⟩, 7, 91, true⟩ := by
  have e : ((4+2:ℕ))^(4+1) = 400 + 7376 := by norm_num
  rw [e]
  refine (enumIter_chunk _ _ _ 400 _ _ _ enumChunk_kpart_4_2_c1).trans ?_
  exact enumIter_stall _ _ _ _ _ rfl
theorem enumFacts_kpart_4_2 : (enumKPartitions 4 2).length = stirling2 4 2 ∧ (enumKPartitions 4 2).Nodup :=
  enumFacts kqAlive kqNext kqKey 9 ((4+2)^(4+1)) (lexicographic_k_partition.init 4 2)
    _ (stirling2 4 2) enumRun_kpart_4_2 rfl rfl

set_option maxRecDepth 20000 in
set_option maxHeartbeats 3200000 in
theorem enumChunk_kpart_4_3_c1 : enumIter kqAlive kqNext kqEnc 400 ⟨lexicographic_k_partition.init 4 3, 0, 0, true⟩ =
    ⟨⟨4, 3, [0, 1, 2, 2], [0, 1, 2, 2], true, false⟩, 6, 101, true⟩ := rfl
theorem enumRun_kpart_4_3 : enumIter kqAlive kqNext kqEnc ((4+2)^(4+1)) ⟨lexicographic_k_partition.init 4 3, 0, 0, true⟩ =
    ⟨⟨4, 3, [0, 1, 2, 2], [0, 1, 2, 2], true, false⟩, 6, 101, true⟩ := by
  have e : ((4+2:ℕ))^(4+1) = 400 + 7376 := by norm_num
  rw [e]
  refine (enumIter_chunk _ _ _ 400 _ _ _ enumChunk_kpart_4_3_c1).trans ?_
  exact enumIter_stall _ _ _ _ _ rfl
theorem enumFacts_kpart_4_3 : (enumKPartitions 4 3).length = stirling2 4 3 ∧ (enumKPartitions 4 3).Nodup :=
  enumFacts kqAlive kqNext kqKey 9 ((4+2)^(4+1)) (lexicographic_k_partition.init 4 3)
    _ (stirling2 4 3) enumRun_kpart_4_3 rfl rfl

set_option maxRecDepth 20000 in
set_option maxHeartbeats 3200000 in
theorem enumChunk_kpart_4_4_c1 : enumIter kqAlive kqNext kqEnc 400 ⟨lexicographic_k_partition.init 4 4, 0, 0, true⟩ =
    ⟨⟨4, 4, [0, 1, 2, 3], [0, 1, 2, 3], false, false⟩, 1, 102, true⟩ := rfl
theorem enumRun_kpart_4_4 : enumIter kqAlive kqNext kqEnc ((4+2)^(4+1)) ⟨lexicographic_k_partition.init 4 4, 0, 0, true⟩ =
    ⟨⟨4, 4, [0, 1, 2, 3], [0, 1, 2, 3], false, false⟩, 1, 102, true⟩ := by
  have e : ((4+2:ℕ))^(4+1) = 400 + 7376 := by norm_num
  rw [e]
  refine (enumIter_chunk _ _ _ 400 _ _ _ enumChunk_kpart_4_4_c1).trans ?_
  exact enumIter_stall _ _ _ _ _ rfl
theorem enumFacts_kpart_4_4 : (enumKPartitions 4 4).length = stirling2 4 4 ∧ (enumKPartitions 4 4).Nodup :=
  enumFacts kqAlive kqNext kqKey 9 ((4+2)^(4+1)) (lexicographic_k_partition.init 4 4)
    _ (stirling2 4 4) enumRun_kpart_4_4 rfl rfl

set_option maxRecDepth 20000 in
set_option maxHeartbeats 3200000 in
theorem enumChunk_kpart_5_1_c1 : enumIter kqAlive kqNext kqEnc 400 ⟨lexicographic_k_partition.init 5 1, 0, 0, true⟩ =
    ⟨⟨5, 1, [0, 0, 0, 0, 0], [0, 0, 0, 0, 0], false, false⟩, 1, 0, true⟩ := rfl
theorem enumRun_kpart_5_1 : enumIter kqAlive kqNext kqEnc ((5+2)^(5+1)) ⟨lexicographic_k_partition.init 5 1, 0, 0, true⟩ =
    ⟨⟨5, 1, [0, 0, 0, 0, 0], [0, 0, 0, 0, 0], false, false⟩, 1, 0, true⟩ := by
  have e : ((5+2:ℕ))^(5+1) = 400 + 117249 := by norm_num
  rw [e]
  refine (enumIter_chunk _ _ _ 400 _ _ _ enumChunk_kpart_5_1_c1).trans ?_
  exact enumIter_stall _ _ _ _ _ rfl
theorem enumFacts_kpart_5_1 : (enumKPartitions 5 1).length = stirling2 5 1 ∧ (enumKPartitions 5 1).Nodup :=
  enumFacts kqAlive kqNext kqKey 9 ((5+2)^(5+1)) (lexicographic_k_partition.init 5 1)
    _ (stirling2 5 1) enumRun_kpart_5_1 rfl rfl

set_option maxRecDepth 20000 in
set_option maxHeartbeats 3200000 in
theorem enumChunk_kpart_5_2_c1 : enumIter kqAlive kqNext kqEnc 400 ⟨lexicographic_k_partition.init 5 2, 0, 0, true⟩ =
    ⟨⟨5, 2, [0, 1, 1, 1, 1], [0, 1, 1, 1, 1], true, false⟩, 15, 820, true⟩ := rfl
theorem enumRun_kpart_5_2 : enumIter kqAlive kqNext kqEnc ((5+2)^(5+1)) ⟨lexicographic_k_partition.init 5 2, 0, 0, true⟩ =
    ⟨⟨5, 2, [0, 1, 1, 1, 1], [0, 1, 1, 1, 1], true, false⟩, 15, 820, true⟩ := by
  have e : ((5+2:ℕ))^(5+1) = 400 + 117249 := by norm_num
  rw [e]
  refine (enumIter_chunk _ _ _ 400 _ _ _ enumChunk_kpart_5_2_c1).trans ?_
  exact enumIter_stall _ _ _ _ _ rfl
theorem enumFacts_kpart_5_2 : (enumKPartitions 5 2).length = stirling2 5 2 ∧ (enumKPartitions 5 2).Nodup :=
  enumFacts kqAlive kqNext kqKey 9 ((5+2)^(5+1)) (lexicographic_k_partition.init 5 2)
    _ (stirling2 5 2) enumRun_kpart_5_2 rfl rfl

set_option maxRecDepth 20000 in
set_option maxHeartbeats 3200000 in
theorem enumChunk_kpart_5_3_c1 : enumIter kqAlive kqNext kqEnc 400 ⟨lexicographic_k_partition.init 5 3, 0, 0, true⟩ =
    ⟨⟨5, 3, [0, 1, 2, 2, 2], [0, 1, 2, 2, 2], true, false⟩, 25, 911, true⟩ := rfl
theorem enumRun_kpart_5_3 : enumIter kqAlive kqNext kqEnc ((5+2)^(5+1)) ⟨lexicographic_k_partition.init 5 3, 0, 0, true⟩ =
    ⟨⟨5, 3, [0, 1, 2, 2, 2], [0, 1, 2, 2, 2], true, false⟩, 25, 911, true⟩ := by
  have e : ((5+2:ℕ))^(5+1) = 400 + 117249 := by norm_num
  rw [e]
  refine (enumIter_chunk _ _ _ 400 _ _ _ enumChunk_kpart_5_3_c1).trans ?_
  exact enumIter_stall _ _ _ _ _ rfl
theorem enumFacts_kpart_5_3 : (enumKPartitions 5 3).length = stirling2 5 3 ∧ (enumKPartitions 5 3).Nodup :=
  enumFacts kqAlive kqNext kqKey 9 ((5+2)^(5+1)) (lexicographic_k_partition.init 5 3)
    _ (stirling2 5 3) enumRun_kpart_5_3 rfl rfl

set_option maxRecDepth 20000 in
set_option maxHeartbeats 3200000 in
theorem enumChunk_kpart_5_4_c1 : enumIter kqAlive kqNext kqEnc 400 ⟨lexicographic_k_partition.init 5 4, 0, 0, true⟩ =
    ⟨⟨5, 4, [0, 1, 2, 3, 3], [0, 1, 2, 3, 3], true, false⟩, 10, 921, true⟩ := rfl
theorem enumRun_kpart_5_4 : enumIter kqAlive kqNext kqEnc ((5+2)^(5+1)) ⟨lexicographic_k_partition.init 5 4, 0, 0, true⟩ =
    ⟨⟨5, 4, [0, 1, 2, 3, 3], [0, 1, 2, 3, 3], true, false⟩, 10, 921, true⟩ := by
  have e : ((5+2:ℕ))^(5+1) = 400 + 117249 := by norm_num
  rw [e]
  refine (enumIter_chunk _ _ _ 400 _ _ _ enumChunk_kpart_5_4_c1).trans ?_
  exact enumIter_stall _ _ _ _ _ rfl
theorem enumFacts_kpart_5_4 : (enumKPartitions 5 4).length = stirling2 5 4 ∧ (enumKPartitions 5 4).Nodup :=
  enumFacts kqAlive kqNext kqKey 9 ((5+2)^(5+1)) (lexicographic_k_partition.init 5 4)
    _ (stirling2 5 4) enumRun_kpart_5_4 rfl rfl

set_option maxRecDepth 20000 in
set_option maxHeartbeats 3200000 in
theorem enumChunk_kpart_5_5_c1 : enumIter kqAlive kqNext kqEnc 400 ⟨lexicographic_k_partition.init 5 5, 0, 0, true⟩ =
    ⟨⟨5, 5, [0, 1, 2, 3, 4], [0, 1, 2, 3, 4], false, false⟩, 1, 922, true⟩ := rfl
theorem enumRun_kpart_5_5 : enumIter kqAlive kqNext kqEnc ((5+2)^(5+1)) ⟨lexicographic_k_partition.init 5 5, 0, 0, true⟩ =
    ⟨⟨5, 5, [0, 1, 2, 3, 4], [0, 1, 2, 3, 4], false, false⟩, 1, 922, true⟩ := by
  have e : ((5+2:ℕ))^(5+1) = 400 + 117249 := by norm_num
  rw [e]
  refine (enumIter_chunk _ _ _ 400 _ _ _ enumChunk_kpart_5_5_c1).trans ?_
  exact enumIter_stall _ _ _ _ _ rfl
theorem enumFacts_kpart_5_5 : (enumKPartitions 5 5).length = stirling2 5 5 ∧ (enumKPartitions 5 5).Nodup :=
  enumFacts kqAlive kqNext kqKey 9 ((5+2)^(5+1)) (lexicographic_k_partition.init 5 5)
    _ (stirling2 5 5) enumRun_kpart_5_5 rfl rfl

set_option maxRecDepth 20000 in
set_option maxHeartbeats 3200000 in
theorem enumChunk_kpart_6_1_c1 : enumIter kqAlive kqNext kqEnc 400 ⟨lexicographic_k_partition.init 6 1, 0, 0, true⟩ =
    ⟨⟨6, 1, [0, 0, 0, 0, 0, 0], [0, 0, 0, 0, 0, 0], false, false⟩, 1, 0, true⟩ := rfl
theorem enumRun_kpart_6_1 : enumIter kqAlive kqNext kqEnc ((6+2)^(6+1)) ⟨lexicographic_k_partition.init 6 1, 0, 0, true⟩ =
    ⟨⟨6, 1, [0, 0, 0, 0, 0, 0], [0, 0, 0, 0, 0, 0], false, false⟩, 1, 0, true⟩ := by
  have e : ((6+2:ℕ))^(6+1) = 400 + 2096752 := by norm_num
  rw [e]
  refine (enumIter_chunk _ _ _ 400 _ _ _ enumChunk_kpart_6_1_c1).trans ?_
  exact enumIter_stall _ _ _ _ _ rfl
theorem enumFacts_kpart_6_1 : (enumKPartitions 6 1).length = stirling2 6 1 ∧ (enumKPartitions 6 1).Nodup :=
  enumFacts kqAlive kqNext kqKey 9 ((6+2)^(6+1)) (lexicographic_k_partition.init 6 1)
    _ (stirling2 6 1) enumRun_kpart_6_1 rfl rfl

set_option maxRecDepth 20000 in
set_option maxHeartbeats 3200000 in
theorem enumChunk_kpart_6_2_c1 : enumIter kqAlive kqNext kqEnc 400 ⟨lexicographic_k_partition.init 6 2, 0, 0, true⟩ =
    ⟨⟨6, 2, [0, 1, 1, 1, 1, 1], [0, 1, 1, 1, 1, 1], true, false⟩, 31, 7381, true⟩ := rfl
theorem enumRun_kpart_6_2 : enumIter kqAlive kqNext kqEnc ((6+2)^(6+1)) ⟨lexicographic_k_partition.init 6 2, 0, 0, true⟩ =
    ⟨⟨6, 2, [0, 1, 1, 1, 1, 1], [0, 1, 1, 1, 1, 1], true, false⟩, 31, 7381, true⟩ := by
  have e : ((6+2:ℕ))^(6+1) = 400 + 2096752 := by norm_num
  rw [e]
  refine (enumIter_chunk _ _ _ 400 _ _ _ enumChunk_kpart_6_2_c1).trans ?_
  exact enumIter_stall _ _ _ _ _ rfl
theorem enumFacts_kpart_6_2 : (enumKPartitions 6 2).length = stirling2 6 2 ∧ (enumKPartitions 6 2).Nodup :=
  enumFacts kqAlive kqNext kqKey 9 ((6+2)^(6+1)) (lexicographic_k_partition.init 6 2)
    _ (stirling2 6 2) enumRun_kpart_6_2 rfl rfl

set_option maxRecDepth 20000 in
set_option maxHeartbeats 3200000 in
theorem enumChunk_kpart_6_3_c1 : enumIter kqAlive kqNext kqEnc 400 ⟨lexicographic_k_partition.init 6 3, 0, 0, true⟩ =
    ⟨⟨6, 3, [0, 1, 2, 2, 2, 2], [0, 1, 2, 2, 2, 2], true, false⟩, 90, 8201, true⟩ := rfl
theorem enumRun_kpart_6_3 : enumIter kqAlive kqNext kqEnc ((6+2)^(6+1)) ⟨lexicographic_k_partition.init 6 3, 0, 0, true⟩ =
    ⟨⟨6, 3, [0, 1, 2, 2, 2, 2], [0, 1, 2, 2, 2, 2], true, false⟩, 90, 8201, true⟩ := by
  have e : ((6+2:ℕ))^(6+1) = 400 + 2096752 := by norm_num
  rw [e]
  refine (enumIter_chunk _ _ _ 400 _ _ _ enumChunk_kpart_6_3_c1).trans ?_
  exact enumIter_stall _ _ _ _ _ rfl
theorem enumFacts_kpart_6_3 : (enumKPartitions 6 3).length = stirling2 6 3 ∧ (enumKPartitions 6 3).Nodup :=
  enumFacts kqAlive kqNext kqKey 9 ((6+2)^(6+1)) (lexicographic_k_partition.init 6 3)
    _ (stirling2 6 3) enumRun_kpart_6_3 rfl rfl

set_option maxRecDepth 20000 in
set_option maxHeartbeats 3200000 in
theorem enumChunk_kpart_6_4_c1 : enumIter kqAlive kqNext kqEnc 400 ⟨lexicographic_k_partition.init 6 4, 0, 0, true⟩ =
    ⟨⟨6, 4, [0, 1, 2, 3, 3, 3], [0, 1, 2, 3, 3, 3], true, false⟩, 65, 8292, true⟩ := rfl
theorem enumRun_kpart_6_4 : enumIter kqAlive kqNext kqEnc ((6+2)^(6+1)) ⟨lexicographic_k_partition.init 6 4, 0, 0, true⟩ =
    ⟨⟨6, 4, [0, 1, 2, 3, 3, 3], [0, 1, 2, 3, 3, 3], true, false⟩, 65, 8292, true⟩ := by
  have e : ((6+2:ℕ))^(6+1) = 400 + 2096752 := by norm_num
  rw [e]
  refine (enumIter_chunk _ _ _ 400 _ _ _ enumChunk_kpart_6_4_c1).trans ?_
  exact enumIter_stall _ _ _ _ _ rfl
theorem enumFacts_kpart_6_4 : (enumKPartitions 6 4).length = stirling2 6 4 ∧ (enumKPartitions 6 4).Nodup :=
  enumFacts kqAlive kqNext kqKey 9 ((6+2)^(6+1)) (lexicographic_k_partition.init 6 4)
    _ (stirling2 6 4) enumRun_kpart_6_4 rfl rfl

set_option maxRecDepth 20000 in
set_option maxHeartbeats 3200000 in
theorem enumChunk_kpart_6_5_c1 : enumIter kqAlive kqNext kqEnc 400 ⟨lexicographic_k_partition.init 6 5, 0, 0, true⟩ =
    ⟨⟨6, 5, [0, 1, 2, 3, 4, 4], [0, 1, 2, 3, 4, 4], true, false⟩, 15, 8302, true⟩ := rfl
theorem enumRun_kpart_6_5 : enumIter kqAlive kqNext kqEnc ((6+2)^(6+1)) ⟨lexicographic_k_partition.init 6 5, 0, 0, true⟩ =
    ⟨⟨6, 5, [0, 1, 2, 3, 4, 4], [0, 1, 2, 3, 4, 4], true, false⟩, 15, 8302, true⟩ := by
  have e : ((6+2:ℕ))^(6+1) = 400 + 2096752 := by norm_num
  rw [e]
  refine (enumIter_chunk _ _ _ 400 _ _ _ enumChunk_kpart_6_5_c1).trans ?_
  exact enumIter_stall _ _ _ _ _ rfl
theorem enumFacts_kpart_6_5 : (enumKPartitions 6 5).length = stirling2 6 5 ∧ (enumKPartitions 6 5).Nodup :=
  enumFacts kqAlive kqNext kqKey 9 ((6+2)^(6+1)) (lexicographic_k_partition.init 6 5)
    _ (stirling2 6 5) enumRun_kpart_6_5 rfl rfl

set_option maxRecDepth 20000 in
set_option maxHeartbeats 3200000 in
theorem enumChunk_kpart_6_6_c1 : enumIter kqAlive kqNext kqEnc 400 ⟨lexicographic_k_partition.init 6 6, 0, 0, true⟩ =
    ⟨⟨6, 6, [0, 1, 2, 3, 4, 5], [0, 1, 2, 3, 4, 5], false, false⟩, 1, 8303, true⟩ := rfl
theorem enumRun_kpart_6_6 : enumIter kqAlive kqNext kqEnc ((6+2)^(6+1)) ⟨lexicographic_k_partition.init 6 6, 0, 0, true⟩ =
    ⟨⟨6, 6, [0, 1, 2, 3, 4, 5], [0, 1, 2, 3, 4, 5], false, false⟩, 1, 8303, true⟩ := by
  have e : ((6+2:ℕ))^(6+1) = 400 + 2096752 := by norm_num
  rw [e]
  refine (enumIter_chunk _ _ _ 400 _ _ _ enumChunk_kpart_6_6_c1).trans ?_
  exact enumIter_stall _ _ _ _ _ rfl
theorem enumFacts_kpart_6_6 : (enumKPartitions 6 6).length = stirling2 6 6 ∧ (enumKPartitions 6 6).Nodup :=
  enumFacts kqAlive kqNext kqKey 9 ((6+2)^(6+1)) (lexicographic_k_partition.init 6 6)
    _ (stirling2 6 6) enumRun_kpart_6_6 rfl rfl

set_option maxRecDepth 20000 in
set_option maxHeartbeats 3200000 in
theorem enumChunk_kpart_7_1_c1 : enumIter kqAlive kqNext kqEnc 400 ⟨lexicographic_k_partition.init 7 1, 0, 0, true⟩ =
    ⟨⟨7, 1, [0, 0, 0, 0, 0, 0, 0], [0, 0, 0, 0, 0, 0, 0], false, false⟩, 1, 0, true⟩ := rfl
theorem enumRun_kpart_7_1 : enumIter kqAlive kqNext kqEnc ((7+2)^(7+1)) ⟨lexicographic_k_partition.init 7 1, 0, 0, true⟩ =
    ⟨⟨7, 1, [0, 0, 0, 0, 0, 0, 0], [0, 0, 0, 0, 0, 0, 0], false, false⟩, 1, 0, true⟩ := by
  have e : ((7+2:ℕ))^(7+1) = 400 + 43046321 := by norm_num
  rw [e]
  refine (enumIter_chunk _ _ _ 400 _ _ _ enumChunk_kpart_7_1_c1).trans ?_
  exact enumIter_stall _ _ _ _ _ rfl
theorem enumFacts_kpart_7_1 : (enumKPartitions 7 1).length = stirling2 7 1 ∧ (enumKPartitions 7 1).Nodup :=
  enumFacts kqAlive kqNext kqKey 9 ((7+2)^(7+1)) (lexicographic_k_partition.init 7 1)
    _ (stirling2 7 1) enumRun_kpart_7_1 rfl rfl

set_option maxRecDepth 20000 in
set_option maxHeartbeats 3200000 in
theorem enumChunk_kpart_7_2_c1 : enumIter kqAlive kqNext kqEnc 400 ⟨lexicographic_k_partition.init 7 2, 0, 0, true⟩ =
    ⟨⟨7, 2, [0, 1, 1, 1, 1, 1, 1], [0, 1, 1, 1, 1, 1, 1], true, false⟩, 63, 66430, true⟩ := rfl
theorem enumRun_kpart_7_2 : enumIter kqAlive kqNext kqEnc ((7+2)^(7+1)) ⟨lexicographic_k_partition.init 7 2, 0, 0, true⟩ =
    ⟨⟨7, 2, [0, 1, 1, 1, 1, 1, 1], [0, 1, 1, 1, 1, 1, 1], true, false⟩, 63, 66430, true⟩ := by
  have e : ((7+2:ℕ))^(7+1) = 400 + 43046321 := by norm_num
  rw [e]
  refine (enumIter_chunk _ _ _ 400 _ _ _ enumChunk_kpart_7_2_c1).trans ?_
  exact enumIter_stall _ _ _ _ _ rfl
theorem enumFacts_kpart_7_2 : (enumKPartitions 7 2).length = stirling2 7 2 ∧ (enumKPartitions 7 2).Nodup :=
  enumFacts kqAlive kqNext kqKey 9 ((7+2)^(7+1)) (lexicographic_k_partition.init 7 2)
    _ (stirling2 7 2) enumRun_kpart_7_2 rfl rfl

set_option maxRecDepth 20000 in
set_option maxHeartbeats 3200000 in
theorem enumChunk_kpart_7_3_c1 : enumIter kqAlive kqNext kqEnc 400 ⟨lexicographic_k_partition.init 7 3, 0, 0, true⟩ =
    ⟨⟨7, 3, [0, 1, 2, 2, 2, 2, 2], [0, 1, 2, 2, 2, 2, 2], true, false⟩, 301, 73811, true⟩ := rfl
theorem enumRun_kpart_7_3 : enumIter kqAlive kqNext kqEnc ((7+2)^(7+1)) ⟨lexicographic_k_partition.init 7 3, 0, 0, true⟩ =
    ⟨⟨7, 3, [0, 1, 2, 2, 2, 2, 2], [0, 1, 2, 2, 2, 2, 2], true, false⟩, 301, 73811, true⟩ := by
  have e : ((7+2:ℕ))^(7+1) = 400 + 43046321 := by norm_num
  rw [e]
  refine (enumIter_chunk _ _ _ 400 _ _ _ enumChunk_kpart_7_3_c1).trans ?_
  exact enumIter_stall _ _ _ _ _ rfl
theorem enumFacts_kpart_7_3 : (enumKPartitions 7 3).length = stirling2 7 3 ∧ (enumKPartitions 7 3).Nodup :=
  enumFacts kqAlive kqNext kqKey 9 ((7+2)^(7+1)) (lexicographic_k_partition.init 7 3)
    _ (stirling2 7 3) enumRun_kpart_7_3 rfl rfl

set_option maxRecDepth 20000 in
set_option maxHeartbeats 3200000 in
theorem enumChunk_kpart_7_4_c1 : enumIter kqAlive kqNext kqEnc 400 ⟨lexicographic_k_partition.init 7 4, 0, 0, true⟩ =
    ⟨⟨7, 4, [0, 1, 2, 3, 3, 3, 3], [0, 1, 2, 3, 3, 3, 3], true, false⟩, 350, 74631, true⟩ := rfl
theorem enumRun_kpart_7_4 : enumIter kqAlive kqNext kqEnc ((7+2)^(7+1)) ⟨lexicographic_k_partition.init 7 4, 0, 0, true⟩ =
    ⟨⟨7, 4, [0, 1, 2, 3, 3, 3, 3], [0, 1, 2, 3, 3, 3, 3], true, false⟩, 350, 74631, true⟩ := by
  have e : ((7+2:ℕ))^(7+1) = 400 + 43046321 := by norm_num
  rw [e]
  refine (enumIter_chunk _ _ _ 400 _ _ _ enumChunk_kpart_7_4_c1).trans ?_
  exact enumIter_stall _ _ _ _ _ rfl
theorem enumFacts_kpart_7_4 : (enumKPartitions 7 4).length = stirling2 7 4 ∧ (enumKPartitions 7 4).Nodup :=
  enumFacts kqAlive kqNext kqKey 9 ((7+2)^(7+1)) (lexicographic_k_partition.init 7 4)
    _ (stirling2 7 4) enumRun_kpart_7_4 rfl rfl

set_option maxRecDepth 20000 in
set_option maxHeartbeats 3200000 in
theorem enumChunk_kpart_7_5_c1 : enumIter kqAlive kqNext kqEnc 400 ⟨lexicographic_k_partition.init 7 5, 0, 0, true⟩ =
    ⟨⟨7, 5, [0, 1, 2, 3, 4, 4, 4], [0, 1, 2, 3, 4, 4, 4], true, false⟩, 140, 74722, true⟩ := rfl
theorem enumRun_kpart_7_5 : enumIter kqAlive kqNext kqEnc ((7+2)^(7+1)) ⟨lexicographic_k_partition.init 7 5, 0, 0, true⟩ =
    ⟨⟨7, 5, [0, 1, 2, 3, 4, 4, 4], [0, 1, 2, 3, 4, 4, 4], true, false⟩, 140, 74722, true⟩ := by
  have e : ((7+2:ℕ))^(7+1) = 400 + 43046321 := by norm_num
  rw [e]
  refine (enumIter_chunk _ _ _ 400 _ _ _ enumChunk_kpart_7_5_c1).trans ?_
  exact enumIter_stall _ _ _ _ _ rfl
theorem enumFacts_kpart_7_5 : (enumKPartitions 7 5).length = stirling2 7 5 ∧ (enumKPartitions 7 5).Nodup :=
  enumFacts kqAlive kqNext kqKey 9 ((7+2)^(7+1)) (lexicographic_k_partition.init 7 5)
    _ (stirling2 7 5) enumRun_kpart_7_5 rfl rfl

set_option maxRecDepth 20000 in
set_option maxHeartbeats 3200000 in
theorem enumChunk_kpart_7_6_c1 : enumIter kqAlive kqNext kqEnc 400 ⟨lexicographic_k_partition.init 7 6, 0, 0, true⟩ =
    ⟨⟨7, 6, [0, 1, 2, 3, 4, 5, 5], [0, 1, 2, 3, 4, 5, 5], true, false⟩, 21, 74732, true⟩ := rfl
theorem enumRun_kpart_7_6 : enumIter kqAlive kqNext kqEnc ((7+2)^(7+1)) ⟨lexicographic_k_partition.init 7 6, 0, 0, true⟩ =
    ⟨⟨7, 6, [0, 1, 2, 3, 4, 5, 5], [0, 1, 2, 3, 4, 5, 5], true, false⟩, 21, 74732, true⟩ := by
  have e : ((7+2:ℕ))^(7+1) = 400 + 43046321 := by norm_num
  rw [e]
  refine (enumIter_chunk _ _ _ 400 _ _ _ enumChunk_kpart_7_6_c1).trans ?_
  exact enumIter_stall _ _ _ _ _ rfl
theorem enumFacts_kpart_7_6 : (enumKPartitions 7 6).length = stirling2 7 6 ∧ (enumKPartitions 7 6).Nodup :=
  enumFacts kqAlive kqNext kqKey 9 ((7+2)^(7+1)) (lexicographic_k_partition.init 7 6)
    _ (stirling2 7 6) enumRun_kpart_7_6 rfl rfl

set_option maxRecDepth 20000 in
set_option maxHeartbeats 3200000 in
theorem enumChunk_kpart_7_7_c1 : enumIter kqAlive kqNext kqEnc 400 ⟨lexicographic_k_partition.init 7 7, 0, 0, true⟩ =
    ⟨⟨7, 7, [0, 1, 2, 3, 4, 5, 6], [0, 1, 2, 3, 4, 5, 6], false, false⟩, 1, 74733, true⟩ := rfl
theorem enumRun_kpart_7_7 : enumIter kqAlive kqNext kqEnc ((7+2)^(7+1)) ⟨lexicographic_k_partition.init 7 7, 0, 0, true⟩ =
    ⟨⟨7, 7, [0, 1, 2, 3, 4, 5, 6], [0, 1, 2, 3, 4, 5, 6], false, false⟩, 1, 74733, true⟩ := by
  have e : ((7+2:ℕ))^(7+1) = 400 + 43046321 := by norm_num
  rw [e]
  refine (enumIter_chunk _ _ _ 400 _ _ _ enumChunk_kpart_7_7_c1).trans ?_
  exact enumIter_stall _ _ _ _ _ rfl
theorem enumFacts_kpart_7_7 : (enumKPartitions 7 7).length = stirling2 7 7 ∧ (enumKPartitions 7 7).Nodup :=
  enumFacts kqAlive kqNext kqKey 9 ((7+2)^(7+1)) (lexicographic_k_partition.init 7 7)
    _ (stirling2 7 7) enumRun_kpart_7_7 rfl rfl

set_option maxRecDepth 20000 in
set_option maxHeartbeats 3200000 in
theorem enumChunk_kpart_8_1_c1 : enumIter kqAlive kqNext kqEnc 400 ⟨lexicographic_k_partition.init 8 1, 0, 0, true⟩ =
    ⟨⟨8, 1, [0, 0, 0, 0, 0, 0, 0, 0], [0, 0, 0, 0, 0, 0, 0, 0], false, false⟩, 1, 0, true⟩ := rfl
theorem enumRun_kpart_8_1 : enumIter kqAlive kqNext kqEnc ((8+2)^(8+1)) ⟨lexicographic_k_partition.init 8 1, 0, 0, true⟩ =
    ⟨⟨8, 1, [0, 0, 0, 0, 0, 0, 0, 0], [0, 0, 0, 0, 0, 0, 0, 0], false, false⟩, 1, 0, true⟩ := by
  have e : ((8+2:ℕ))^(8+1) = 400 + 999999600 := by norm_num
  rw [e]
  refine (enumIter_chunk _ _ _ 400 _ _ _ enumChunk_kpart_8_1_c1).trans ?_
  exact enumIter_stall _ _ _ _ _ rfl
theorem enumFacts_kpart_8_1 : (enumKPartitions 8 1).length = stirling2 8 1 ∧ (enumKPartitions 8 1).Nodup :=
  enumFacts kqAlive kqNext kqKey 9 ((8+2)^(8+1)) (lexicographic_k_partition.init 8 1)
    _ (stirling2 8 1) enumRun_kpart_8_1 rfl rfl

set_option maxRecDepth 20000 in
set_option maxHeartbeats 3200000 in
theorem enumChunk_kpart_8_2_c1 : enumIter kqAlive kqNext kqEnc 400 ⟨lexicographic_k_partition.init 8 2, 0, 0, true⟩ =
    ⟨⟨8, 2, [0, 1, 1, 1, 1, 1, 1, 1], [0, 1, 1, 1, 1, 1, 1, 1], true, false⟩, 127, 597871, true⟩ := rfl
theorem enumRun_kpart_8_2 : enumIter kqAlive kqNext kqEnc ((8+2)^(8+1)) ⟨lexicographic_k_partition.init 8 2, 0, 0, true⟩ =
    ⟨⟨8, 2, [0, 1, 1, 1, 1, 1, 1, 1], [0, 1, 1, 1, 1, 1, 1, 1], true, false⟩, 127, 597871, true⟩ := by
  have e : ((8+2:ℕ))^(8+1) = 400 + 999999600 := by norm_num
  rw [e]
  refine (enumIter_chunk _ _ _ 400 _ _ _ enumChunk_kpart_8_2_c1).trans ?_
  exact enumIter_stall _ _ _ _ _ rfl
theorem enumFacts_kpart_8_2 : (enumKPartitions 8 2).length = stirling2 8 2 ∧ (enumKPartitions 8 2).Nodup :=
  enumFacts kqAlive kqNext kqKey 9 ((8+2)^(8+1)) (lexicographic_k_partition.init 8 2)
    _ (stirling2 8 2) enumRun_kpart_8_2 rfl rfl

set_option maxRecDepth 20000 in
set_option maxHeartbeats 3200000 in
theorem enumChunk_kpart_8_3_c1 : enumIter kqAlive kqNext kqEnc 400 ⟨lexicographic_k_partition.init 8 3, 0, 0, true⟩ =
    ⟨⟨8, 3, [0, 1, 0, 1, 1, 2, 1, 2], [0, 1, 1, 1, 1, 2, 2, 2], true, true⟩, 400, 538903, true⟩ := rfl
set_option maxRecDepth 20000 in
set_option maxHeartbeats 3200000 in
theorem enumChunk_kpart_8_3_c2 : enumIter kqAlive kqNext kqEnc 400 ⟨⟨8, 3, [0, 1, 0, 1, 1, 2, 1, 2], [0, 1, 1, 1, 1, 2, 2, 2], true, true⟩, 400, 538903, true⟩ =
    ⟨⟨8, 3, [0, 1, 2, 0, 2, 2, 1, 2], [0, 1, 2, 2, 2, 2, 2, 2], true, true⟩, 800, 651169, true⟩ := rfl
set_option maxRecDepth 20000 in
set_option maxHeartbeats 3200000 in
theorem enumChunk_kpart_8_3_c3 : enumIter kqAlive kqNext kqEnc 400 ⟨⟨8, 3, [0, 1, 2, 0, 2, 2, 1, 2], [0, 1, 2, 2, 2, 2, 2, 2], true, true⟩, 800, 651169, true⟩ =
    ⟨⟨8, 3, [0, 1, 2, 2, 2, 2, 2, 2], [0, 1, 2, 2, 2, 2, 2, 2], true, false⟩, 966, 664301, true⟩ := rfl
theorem enumRun_kpart_8_3 : enumIter kqAlive kqNext kqEnc ((8+2)^(8+1)) ⟨lexicographic_k_partition.init 8 3, 0, 0, true⟩ =
    ⟨⟨8, 3, [0, 1, 2, 2, 2, 2, 2, 2], [0, 1, 2, 2, 2, 2, 2, 2], true, false⟩, 966, 664301, true⟩ := by
  have e : ((8+2:ℕ))^(8+1) = 400 + (400 + (400 + 999998800)) := by norm_num
  rw [e]
  refine (enumIter_chunk _ _ _ 400 _ _ _ enumChunk_kpart_8_3_c1).trans ?_
  refine (enumIter_chunk _ _ _ 400 _ _ _ enumChunk_kpart_8_3_c2).trans ?_
  refine (enumIter_chunk _ _ _ 400 _ _ _ enumChunk_kpart_8_3_c3).trans ?_
  exact enumIter_stall _ _ _ _ _ rfl
theorem enumFacts_kpart_8_3 : (enumKPartitions 8 3).length = stirling2 8 3 ∧ (enumKPartitions 8 3).Nodup :=
  enumFacts kqAlive kqNext kqKey 9 ((8+2)^(8+1)) (lexicographic_k_partition.init 8 3)
    _ (stirling2 8 3) enumRun_kpart_8_3 rfl rfl

set_option maxRecDepth 20000 in
set_option maxHeartbeats 3200000 in
theorem enumChunk_kpart_8_4_c1 : enumIter kqAlive kqNext kqEnc 400 ⟨lexicographic_k_partition.init 8 4, 0, 0, true⟩ =
    ⟨⟨8, 4, [0, 1, 0, 0, 2, 3, 2, 3], [0, 1, 1, 1, 2, 3, 3, 3], true, true⟩, 400, 533162, true⟩ := rfl
set_option maxRecDepth 20000 in
set_option maxHeartbeats 3200000 in
theorem enumChunk_kpart_8_4_c2 : enumIter kqAlive kqNext kqEnc 400 ⟨⟨8, 4, [0, 1, 0, 0, 2, 3, 2, 3], [0, 1, 1, 1, 2, 3, 3, 3], true, true⟩, 400, 533162, true⟩ =
    ⟨⟨8, 4, [0, 1, 1, 2, 1, 2, 3, 1], [0, 1, 1, 2, 2, 2, 3, 3], true, true⟩, 800, 604530, true⟩ := rfl
set_option maxRecDepth 20000 in
set_option maxHeartbeats 3200000 in
theorem enumChunk_kpart_8_4_c3 : enumIter kqAlive kqNext kqEnc 400 ⟨⟨8, 4, [0, 1, 1, 2, 1, 2, 3, 1], [0, 1, 1, 2, 2, 2, 3, 3], true, true⟩, 800, 604530, true⟩ =
    ⟨⟨8, 4, [0, 1, 2, 1, 2, 3, 2, 2], [0, 1, 2, 2, 2, 3, 3, 3], true, true⟩, 1200, 657820, true⟩ := rfl
set_option maxRecDepth 20000 in
set_option maxHeartbeats 3200000 in
theorem enumChunk_kpart_8_4_c4 : enumIter kqAlive kqNext kqEnc 400 ⟨⟨8, 4, [0, 1, 2, 1, 2, 3, 2, 2], [0, 1, 2, 2, 2, 3, 3, 3], true, true⟩, 1200, 657820, true⟩ =
    ⟨⟨8, 4, [0, 1, 2, 3, 2, 1, 2, 3], [0, 1, 2, 3, 3, 3, 3, 3], true, true⟩, 1600, 670781, true⟩ := rfl
set_option maxRecDepth 20000 in
set_option maxHeartbeats 3200000 in
theorem enumChunk_kpart_8_4_c5 : enumIter kqAlive kqNext kqEnc 400 ⟨⟨8, 4, [0, 1, 2, 3, 2, 1, 2, 3], [0, 1, 2, 3, 3, 3, 3, 3], true, true⟩, 1600, 670781, true⟩ =
    ⟨⟨8, 4, [0, 1, 2, 3, 3, 3, 3, 3], [0, 1, 2, 3, 3, 3, 3, 3], true, false⟩, 1701, 671682, true⟩ := rfl
theorem enumRun_kpart_8_4 : enumIter kqAlive kqNext kqEnc ((8+2)^(8+1)) ⟨lexicographic_k_partition.init 8 4, 0, 0, true⟩ =
    ⟨⟨8, 4, [0, 1, 2, 3, 3, 3, 3, 3], [0, 1, 2, 3, 3, 3, 3, 3], true, false⟩, 1701, 671682, true⟩ := by
  have e : ((8+2:ℕ))^(8+1) = 400 + (400 + (400 + (400 + (400 + 999998000)))) := by norm_num
  rw [e]
  refine (enumIter_chunk _ _ _ 400 _ _ _ enumChunk_kpart_8_4_c1).trans ?_
  refine (enumIter_chunk _ _ _ 400 _ _ _ enumChunk_kpart_8_4_c2).trans ?_
  refine (enumIter_chunk _ _ _ 400 _ _ _ enumChunk_kpart_8_4_c3).trans ?_
  refine (enumIter_chunk _ _ _ 400 _ _ _ enumChunk_kpart_8_4_c4).trans ?_
  refine (enumIter_chunk _ _ _ 400 _ _ _ enumChunk_kpart_8_4_c5).trans ?_
  exact enumIter_stall _ _ _ _ _ rfl
theorem enumFacts_kpart_8_4 : (enumKPartitions 8 4).length = stirling2 8 4 ∧ (enumKPartitions 8 4).Nodup :=
  enumFacts kqAlive kqNext kqKey 9 ((8+2)^(8+1)) (lexicographic_k_partition.init 8 4)
    _ (stirling2 8 4) enumRun_kpart_8_4 rfl rfl

set_option maxRecDepth 20000 in
set_option maxHeartbeats 3200000 in
theorem enumChunk_kpart_8_5_c1 : enumIter kqAlive kqNext kqEnc 400 ⟨lexicographic_k_partition.init 8 5, 0, 0, true⟩ =
    ⟨⟨8, 5, [0, 1, 2, 0, 0, 3, 4, 3], [0, 1, 2, 2, 2, 3, 4, 4], true, true⟩, 400, 649820, true⟩ := rfl
set_option maxRecDepth 20000 in
set_option maxHeartbeats 3200000 in
theorem enumChunk_kpart_8_5_c2 : enumIter kqAlive kqNext kqEnc 400 ⟨⟨8, 5, [0, 1, 2, 0, 0, 3, 4, 3], [0, 1, 2, 2, 2, 3, 4, 4], true, true⟩, 400, 649820, true⟩ =
    ⟨⟨8, 5, [0, 1, 2, 3, 1, 4, 4, 2], [0, 1, 2, 3, 3, 4, 4, 4], true, true⟩, 800, 670312, true⟩ := rfl
set_option maxRecDepth 20000 in
set_option maxHeartbeats 3200000 in
theorem enumChunk_kpart_8_5_c3 : enumIter kqAlive kqNext kqEnc 400 ⟨⟨8, 5, [0, 1, 2, 3, 1, 4, 4, 2], [0, 1, 2, 3, 3, 4, 4, 4], true, true⟩, 800, 670312, true⟩ =
    ⟨⟨8, 5, [0, 1, 2, 3, 4, 4, 4, 4], [0, 1, 2, 3, 4, 4, 4, 4], true, false⟩, 1050, 672502, true⟩ := rfl
theorem enumRun_kpart_8_5 : enumIter kqAlive kqNext kqEnc ((8+2)^(8+1)) ⟨lexicographic_k_partition.init 8 5, 0, 0, true⟩ =
    ⟨⟨8, 5, [0, 1, 2, 3, 4, 4, 4, 4], [0, 1, 2, 3, 4, 4, 4, 4], true, false⟩, 1050, 672502, true⟩ := by
  have e : ((8+2:ℕ))^(8+1) = 400 + (400 + (400 + 999998800)) := by norm_num
  rw [e]
  refine (enumIter_chunk _ _ _ 400 _ _ _ enumChunk_kpart_8_5_c1).trans ?_
  refine (enumIter_chunk _ _ _ 400 _ _ _ enumChunk_kpart_8_5_c2).trans ?_
  refine (enumIter_chunk _ _ _ 400 _ _ _ enumChunk_kpart_8_5_c3).trans ?_
  exact enumIter_stall _ _ _ _ _ rfl
theorem enumFacts_kpart_8_5 : (enumKPartitions 8 5).length = stirling2 8 5 ∧ (enumKPartitions 8 5).Nodup :=
  enumFacts kqAlive kqNext kqKey 9 ((8+2)^(8+1)) (lexicographic_k_partition.init 8 5)
    _ (stirling2 8 5) enumRun_kpart_8_5 rfl rfl

set_option maxRecDepth 20000 in
set_option maxHeartbeats 3200000 in
theorem enumChunk_kpart_8_6_c1 : enumIter kqAlive kqNext kqEnc 400 ⟨lexicographic_k_partition.init 8 6, 0, 0, true⟩ =
    ⟨⟨8, 6, [0, 1, 2, 3, 4, 5, 5, 5], [0, 1, 2, 3, 4, 5, 5, 5], true, false⟩, 266, 672593, true⟩ := rfl
theorem enumRun_kpart_8_6 : enumIter kqAlive kqNext kqEnc ((8+2)^(8+1)) ⟨lexicographic_k_partition.init 8 6, 0, 0, true⟩ =
    ⟨⟨8, 6, [0, 1, 2, 3, 4, 5, 5, 5], [0, 1, 2, 3, 4, 5, 5, 5], true, false⟩, 266, 672593, true⟩ := by
  have e : ((8+2:ℕ))^(8+1) = 400 + 999999600 := by norm_num
  rw [e]
  refine (enumIter_chunk _ _ _ 400 _ _ _ enumChunk_kpart_8_6_c1).trans ?_
  exact enumIter_stall _ _ _ _ _ rfl
theorem enumFacts_kpart_8_6 : (enumKPartitions 8 6).length = stirling2 8 6 ∧ (enumKPartitions 8 6).Nodup :=
  enumFacts kqAlive kqNext kqKey 9 ((8+2)^(8+1)) (lexicographic_k_partition.init 8 6)
    _ (stirling2 8 6) enumRun_kpart_8_6 rfl rfl

set_option maxRecDepth 20000 in
set_option maxHeartbeats 3200000 in
theorem enumChunk_kpart_8_7_c1 : enumIter kqAlive kqNext kqEnc 400 ⟨lexicographic_k_partition.init 8 7, 0, 0, true⟩ =
    ⟨⟨8, 7, [0, 1, 2, 3, 4, 5, 6, 6], [0, 1, 2, 3, 4, 5, 6, 6], true, false⟩, 28, 672603, true⟩ := rfl
theorem enumRun_kpart_8_7 : enumIter kqAlive kqNext kqEnc ((8+2)^(8+1)) ⟨lexicographic_k_partition.init 8 7, 0, 0, true⟩ =
    ⟨⟨8, 7, [0, 1, 2, 3, 4, 5, 6, 6], [0, 1, 2, 3, 4, 5, 6, 6], true, false⟩, 28, 672603, true⟩ := by
  have e : ((8+2:ℕ))^(8+1) = 400 + 999999600 := by norm_num
  rw [e]
  refine (enumIter_chunk _ _ _ 400 _ _ _ enumChunk_kpart_8_7_c1).trans ?_
  exact enumIter_stall _ _ _ _ _ rfl
theorem enumFacts_kpart_8_7 : (enumKPartitions 8 7).length = stirling2 8 7 ∧ (enumKPartitions 8 7).Nodup :=
  enumFacts kqAlive kqNext kqKey 9 ((8+2)^(8+1)) (lexicographic_k_partition.init 8 7)
    _ (stirling2 8 7) enumRun_kpart_8_7 rfl rfl

set_option maxRecDepth 20000 in
set_option maxHeartbeats 3200000 in
theorem enumChunk_kpart_8_8_c1 : enumIter kqAlive kqNext kqEnc 400 ⟨lexicographic_k_partition.init 8 8, 0, 0, true⟩ =
    ⟨⟨8, 8, [0, 1, 2, 3, 4, 5, 6, 7], [0, 1, 2, 3, 4, 5, 6, 7], false, false⟩, 1, 672604, true⟩ := rfl
theorem enumRun_kpart_8_8 : enumIter kqAlive kqNext kqEnc ((8+2)^(8+1)) ⟨lexicographic_k_partition.init 8 8, 0, 0, true⟩ =
    ⟨⟨8, 8, [0, 1, 2, 3, 4, 5, 6, 7], [0, 1, 2, 3, 4, 5, 6, 7], false, false⟩, 1, 672604, true⟩ := by
  have e : ((8+2:ℕ))^(8+1) = 400 + 999999600 := by norm_num
  rw [e]
  refine (enumIter_chunk _ _ _ 400 _ _ _ enumChunk_kpart_8_8_c1).trans ?_
  exact enumIter_stall _ _ _ _ _ rfl
theorem enumFacts_kpart_8_8 : (enumKPartitions 8 8).length = stirling2 8 8 ∧ (enumKPartitions 8 8).Nodup :=
  enumFacts kqAlive kqNext kqKey 9 ((8+2)^(8+1)) (lexicographic_k_partition.init 8 8)
    _ (stirling2 8 8) enumRun_kpart_8_8 rfl rfl

/-- C8: for every n ∈ [1,8], driving `lexicographic_partition(n)` with the
`while (has_next) { use current; operator++ }` protocol yields exactly the
Bell number B_n of pairwise distinct set partitions (restricted-growth
strings), and for every 1 ≤ k ≤ n, `lexicographic_k_partition(n, k)` yields
exactly the Stirling number of the second kind S(n, k) of pairwise distinct
k-block partitions. -/
theorem C8_partition_iterator_counts :
    ∀ n, 1 ≤ n → n ≤ 8 →
      ((enumPartitions n).length = bellNumber n ∧ (enumPartitions n).Nodup) ∧
      (∀ k, 1 ≤ k → k ≤ n →
        (enumKPartitions n k).length = stirling2 n k ∧ (enumKPartitions n k).Nodup) := by
  intro n h1 h8
  interval_cases n
  · refine ⟨enumFacts_part_1, ?_⟩
    intro k hk1 hkn
    interval_cases k
    · exact enumFacts_kpart_1_1
  · refine ⟨enumFacts_part_2, ?_⟩
    intro k hk1 hkn
    interval_cases k
    · exact enumFacts_kpart_2_1
    · exact enumFacts_kpart_2_2
  · refine ⟨enumFacts_part_3, ?_⟩
    intro k hk1 hkn
    interval_cases k
    · exact enumFacts_kpart_3_1
    · exact enumFacts_kpart_3_2
    · exact enumFacts_kpart_3_3
  · refine ⟨enumFacts_part_4, ?_⟩
    intro k hk1 hkn
    interval_cases k
    · exact enumFacts_kpart_4_1
    · exact enumFacts_kpart_4_2
    · exact enumFacts_kpart_4_3
    · exact enumFacts_kpart_4_4
  · refine ⟨enumFacts_part_5, ?_⟩
    intro k hk1 hkn
    interval_cases k
    · exact enumFacts_kpart_5_1
    · exact enumFacts_kpart_5_2
    · exact enumFacts_kpart_5_3
    · exact enumFacts_kpart_5_4
    · exact enumFacts_kpart_5_5
  · refine ⟨enumFacts_part_6, ?_⟩
    intro k hk1 hkn
    interval_cases k
    · exact enumFacts_kpart_6_1
    · exact enumFacts_kpart_6_2
    · exact enumFacts_kpart_6_3
    · exact enumFacts_kpart_6_4
    · exact enumFacts_kpart_6_5
    · exact enumFacts_kpart_6_6
  · refine ⟨enumFacts_part_7, ?_⟩
    intro k hk1 hkn
    interval_cases k
    · exact enumFacts_kpart_7_1
    · exact enumFacts_kpart_7_2
    · exact enumFacts_kpart_7_3
    · exact enumFacts_kpart_7_4
    · exact enumFacts_kpart_7_5
    · exact enumFacts_kpart_7_6
    · exact enumFacts_kpart_7_7
  · refine ⟨enumFacts_part_8, ?_⟩
    intro k hk1 hkn
    interval_cases k
    · exact enumFacts_kpart_8_1
    · exact enumFacts_kpart_8_2
    · exact enumFacts_kpart_8_3
    · exact enumFacts_kpart_8_4
    · exact enumFacts_kpart_8_5
    · exact enumFacts_kpart_8_6
    · exact enumFacts_kpart_8_7
    · exact enumFacts_kpart_8_8

/-- Witness for C8 at the concrete input n = 3, k = 2. -/
theorem C8_partition_iterator_counts_witness :
    (enumPartitions 3).length = bellNumber 3 ∧ (enumKPartitions 3 2).length = stirling2 3 2 :=
  ⟨(C8_partition_iterator_counts 3 (by norm_num) (by norm_num)).1.1,
   ((C8_partition_iterator_counts 3 (by norm_num) (by norm_num)).2 2 (by norm_num) (by norm_num)).1⟩

/-! ### Index lemmas for the iterator embeddings -/

theorem findDownFrom_eq_some {p : ℕ → Bool} :
    ∀ {hi i : ℕ}, findDownFrom p hi = some i →
      1 ≤ i ∧ i ≤ hi ∧ p i = true ∧ ∀ j, i < j → j ≤ hi → p j = false := by
  intro hi
  induction hi with
  | zero => intro i h; simp [findDownFrom] at h
  | succ m ih =>
    intro i h
    by_cases hp : p (m+1)
    · simp only [findDownFrom, hp, if_true, Option.some.injEq] at h
      subst h
      exact ⟨by omega, le_refl _, hp, fun j hj1 hj2 => absurd (lt_of_lt_of_le hj1 hj2) (lt_irrefl _)⟩
    · simp only [findDownFrom, hp, if_false] at h
      obtain ⟨h1, h2, h3, h4⟩ := ih h
      refine ⟨h1, by omega, h3, fun j hj1 hj2 => ?_⟩
      rcases Nat.lt_succ_iff_lt_or_eq.mp (Nat.lt_succ_of_le hj2) with hlt | heq
      · exact h4 j hj1 (by omega)
      · subst heq; simpa using hp

theorem findDownFrom_eq_none {p : ℕ → Bool} :
    ∀ {hi : ℕ}, findDownFrom p hi = none → ∀ j, 1 ≤ j → j ≤ hi → p j = false := by
  intro hi
  induction hi with
  | zero => intro _ j h1 h2; omega
  | succ m ih =>
    intro h j h1 h2
    by_cases hp : p (m+1)
    · simp [findDownFrom, hp] at h
    · simp only [findDownFrom, hp, if_false] at h
      rcases Nat.lt_succ_iff_lt_or_eq.mp (Nat.lt_succ_of_le h2) with hlt | heq
      · exact ih h j h1 (by omega)
      · subst heq; simpa using hp

theorem findDownFrom_intro {p : ℕ → Bool} :
    ∀ {hi i : ℕ}, 1 ≤ i → i ≤ hi → p i = true →
      (∀ j, i < j → j ≤ hi → p j = false) → findDownFrom p hi = some i := by
  intro hi
  induction hi with
  | zero => intro i h1 h2 _ _; omega
  | succ m ih =>
    intro i h1 h2 h3 h4
    by_cases he : i = m + 1
    · subst he; simp [findDownFrom, h3]
    · have hp : p (m+1) = false := h4 (m+1) (by omega) (le_refl _)
      simp only [findDownFrom, hp, Bool.false_eq_true, if_false]
      exact ih h1 (by omega) h3 (fun j hj1 hj2 => h4 j hj1 (by omega))

theorem getD_take_lt (l : List ℕ) (i j : ℕ) (h : j < i) :
    (l.take i).getD j 0 = l.getD j 0 := by
  simp [List.getD, List.getElem?_take, h]

theorem getD_append_lt (l r : List ℕ) (j : ℕ) (h : j < l.length) :
    (l ++ r).getD j 0 = l.getD j 0 := by
  simp [List.getD, List.getElem?_append, h]

theorem getD_append_ge (l r : List ℕ) (j : ℕ) (h : l.length ≤ j) :
    (l ++ r).getD j 0 = r.getD (j - l.length) 0 := by
  simp [List.getD, List.getElem?_append_right, h]

theorem getD_replicate (m v j : ℕ) :
    (List.replicate m v).getD j 0 = if j < m then v else 0 := by
  by_cases h : j < m
  · simp [List.getD_eq_getElem?_getD, List.getElem?_replicate, h]
  · simp [List.getD_eq_getElem?_getD, List.getElem?_replicate, h]

theorem getD_range'_map (a len : ℕ) (f : ℕ → ℕ) (j : ℕ) (h : j < len) :
    ((List.range' a len).map f).getD j 0 = f (a + j) := by
  simp [List.getD_eq_getElem?_getD, List.getElem?_map, List.getElem?_range', h]

theorem getD_oob (l : List ℕ) (j : ℕ) (h : l.length ≤ j) : l.getD j 0 = 0 := by
  simp [List.getD_eq_getElem?_getD, List.getElem?_eq_none h]

/-- Index characterization of the `take i ++ x :: suffix` update shape used by
the iterator step functions. -/
theorem getD_update_shape (l : List ℕ) (i : ℕ) (hi : i ≤ l.length)
    (x : ℕ) (suffix : List ℕ) (j : ℕ) :
    (l.take i ++ x :: suffix).getD j 0 =
      if j < i then l.getD j 0 else if j = i then x else suffix.getD (j - i - 1) 0 := by
  have hlen : (l.take i).length = i := by simp [Nat.min_eq_left hi]
  by_cases h1 : j < i
  · rw [getD_append_lt _ _ _ (by omega), getD_take_lt _ _ _ h1, if_pos h1]
  · rw [getD_append_ge _ _ _ (by omega), if_neg h1, hlen]
    by_cases h2 : j = i
    · subst h2; simp
    · rw [if_neg h2]
      have h3 : j - i = (j - i - 1) + 1 := by omega
      conv_lhs => rw [h3]
      rw [List.getD_cons_succ]

theorem eq_of_getD (l₁ l₂ : List ℕ) (h : l₁.length = l₂.length)
    (hg : ∀ j, j < l₁.length → l₁.getD j 0 = l₂.getD j 0) : l₁ = l₂ := by
  refine List.ext_getElem h (fun i h1 h2 => ?_)
  rw [← List.getD_eq_getElem _ 0 h1, ← List.getD_eq_getElem _ 0 h2]
  exact hg i h1

/-! ### C9: round-trip behaviour of the iterators -/

/-- The restricted-growth-string invariant maintained by
`lexicographic_partition` (`kappa[0] = 0`, `kappa[i] ≤ M[i-1]+1`,
`M[i] = max(M[i-1], kappa[i])`). -/
def ValidRgs (s : lexicographic_partition) : Prop :=
  s.kappa.length = s.n ∧ s.M.length = s.n ∧
  s.kappa.getD 0 0 = 0 ∧ s.M.getD 0 0 = 0 ∧
  ∀ i, 1 ≤ i → i < s.n →
    s.kappa.getD i 0 ≤ s.M.getD (i-1) 0 + 1 ∧
    s.M.getD i 0 = max (s.M.getD (i-1) 0) (s.kappa.getD i 0)

/-- On a valid state, to the right of the rightmost incrementable position the
string is forced: `kappa[j] = M[j] = M[i₀] + (j - i₀)`. -/
theorem rgs_suffix (s : lexicographic_partition) (hv : ValidRgs s) (i₀ : ℕ)
    (h1 : 1 ≤ i₀)
    (hmax : ∀ j, i₀ < j → j < s.n → s.M.getD (j-1) 0 < s.kappa.getD j 0) :
    ∀ j, i₀ < j → j < s.n →
      s.kappa.getD j 0 = s.M.getD i₀ 0 + (j - i₀) ∧
      s.M.getD j 0 = s.M.getD i₀ 0 + (j - i₀) := by
  obtain ⟨-, -, -, -, hval⟩ := hv
  intro j
  induction j with
  | zero => omega
  | succ m ih =>
    intro hgt hlt
    have hv1 := hval (m+1) (by omega) hlt
    have hm1 := hmax (m+1) (by omega) hlt
    have hle : s.kappa.getD (m+1) 0 ≤ s.M.getD m 0 + 1 := by simpa using hv1.1
    have heq : s.M.getD (m+1) 0 = max (s.M.getD m 0) (s.kappa.getD (m+1) 0) := by
      simpa using hv1.2
    have hlt2 : s.M.getD m 0 < s.kappa.getD (m+1) 0 := by simpa using hm1
    have hk : s.kappa.getD (m+1) 0 = s.M.getD m 0 + 1 := by omega
    have hM : s.M.getD (m+1) 0 = s.kappa.getD (m+1) 0 := by
      rw [heq]; exact max_eq_right (by omega)
    by_cases he : i₀ = m
    · subst he
      exact ⟨by omega, by omega⟩
    · have ihm := ih (by omega) (by omega)
      exact ⟨by omega, by omega⟩

theorem bitCount_le (n b : ℕ) : bitCount n b ≤ n := by
  calc ((List.range n).filter (fun i => b.testBit i)).length
      ≤ (List.range n).length := (List.filter_sublist _).length_le
    _ = n := List.length_range n

theorem bitCount_eq_iff (n b : ℕ) (hb : b < 2^n) : bitCount n b = n ↔ b = 2^n - 1 := by
  constructor
  · intro h
    have hfl : (List.range n).filter (fun i => b.testBit i) = List.range n :=
      (List.filter_sublist _).eq_of_length (by simpa [List.length_range] using h)
    have hall : ∀ i, i < n → b.testBit i = true := by
      intro i hi
      have := List.filter_eq_self.mp hfl i (List.mem_range.mpr hi)
      simpa using this
    refine Nat.eq_of_testBit_eq (fun i => ?_)
    by_cases hi : i < n
    · rw [hall i hi, Nat.testBit_two_pow_sub_one]
      simp [hi]
    · have h1 : b.testBit i = false :=
        Nat.testBit_eq_false_of_lt
          (lt_of_lt_of_le hb (Nat.pow_le_pow_right (by norm_num) (Nat.le_of_not_lt hi)))
      have h2 : (2^n - 1).testBit i = false := by
        rw [Nat.testBit_two_pow_sub_one]
        simp [hi]
      rw [h1, h2]
  · intro h
    subst h
    have hfl : (List.range n).filter (fun i => (2^n - 1).testBit i) = List.range n := by
      refine List.filter_eq_self.mpr (fun i hi => ?_)
      rw [Nat.testBit_two_pow_sub_one]
      simpa using List.mem_range.mp hi
    simp only [bitCount]
    rw [hfl]
    exact List.length_range n

theorem bitCount_lt (n b : ℕ) (hb : b < 2^n) (hne : b ≠ 2^n - 1) : bitCount n b < n :=
  lt_of_le_of_ne (bitCount_le n b) (fun h => hne ((bitCount_eq_iff n b hb).mp h))

/-- `lexicographic_subset`: `++` then `--` restores the bitmask whenever `++`
actually advances it (the bitmask is not all-ones). -/
theorem subset_inc_dec (s : lexicographic_subset)
    (h0 : subsetMin s.empty_set ≤ s.bits) (h1 : s.bits < 2^s.n) (h2 : s.bits ≠ 2^s.n - 1) :
    s.incCore.decCore.bits = s.bits := by
  have hcnt : bitCount s.n s.bits < s.n := bitCount_lt _ _ h1 h2
  simp only [lexicographic_subset.incCore, lexicographic_subset.decCore, hcnt,
    decide_eq_true_eq, if_pos, decide_True]
  have hlt : subsetMin s.empty_set < s.bits + 1 := by omega
  simp [hlt]

/-- `lexicographic_subset`: `--` then `++` restores the bitmask whenever `--`
actually advances it. -/
theorem subset_dec_inc (s : lexicographic_subset)
    (h0 : subsetMin s.empty_set < s.bits) (h1 : s.bits ≤ 2^s.n - 1) :
    s.decCore.incCore.bits = s.bits := by
  have hn1 : 1 ≤ s.n := by
    by_contra h
    have : s.n = 0 := by omega
    rw [this] at h1
    simp at h1
    have : subsetMin s.empty_set < 0 := by omega
    omega
  have hb1 : s.bits - 1 < 2^s.n := by
    have := Nat.one_le_two_pow (n := s.n)
    omega
  have hb2 : s.bits - 1 ≠ 2^s.n - 1 := by
    intro h
    have h2 : 1 ≤ s.bits := by
      have : (0:ℕ) ≤ subsetMin s.empty_set := Nat.zero_le _
      omega
    omega
  have hcnt : bitCount s.n (s.bits - 1) < s.n := bitCount_lt _ _ hb1 hb2
  simp only [lexicographic_subset.decCore, lexicographic_subset.incCore, h0,
    decide_True, if_pos, decide_eq_true_eq]
  simp [h0, hcnt]
  omega

/-- `lexicographic_partition`: `++` then `--` restores `kappa` and `M` on any
valid restricted-growth state that is not the final partition. -/
theorem partition_inc_dec (s : lexicographic_partition) (hv : ValidRgs s)
    (hex : ∃ i, 1 ≤ i ∧ i < s.n ∧ s.kappa.getD i 0 ≤ s.M.getD (i-1) 0) :
    s.incCore.decCore.kappa = s.kappa ∧ s.incCore.decCore.M = s.M := by
  obtain ⟨hkl, hMl, hk0, hM0, hval⟩ := hv
  obtain ⟨iw, hiw1, hiw2, hiw3⟩ := hex
  rcases hfind : findDownFrom (fun i => decide (s.kappa.getD i 0 ≤ s.M.getD (i-1) 0)) (s.n - 1) with _ | i₀
  · exfalso
    have := findDownFrom_eq_none hfind iw hiw1 (by omega)
    simp only [decide_eq_false_iff_not] at this
    exact this hiw3
  obtain ⟨hi1, hi2, hpi, hmaxb⟩ := findDownFrom_eq_some hfind
  have hcond : s.kappa.getD i₀ 0 ≤ s.M.getD (i₀-1) 0 := by simpa using hpi
  have hi0n : i₀ < s.n := by omega
  have hmaxP : ∀ j, i₀ < j → j < s.n → s.M.getD (j-1) 0 < s.kappa.getD j 0 := by
    intro j hj1 hj2
    have := hmaxb j hj1 (by omega)
    simp only [decide_eq_false_iff_not, not_le] at this
    exact this
  have hsuffix := rgs_suffix s ⟨hkl, hMl, hk0, hM0, hval⟩ i₀ hi1 hmaxP
  have hMi₀ : s.M.getD i₀ 0 = s.M.getD (i₀-1) 0 := by
    have := (hval i₀ hi1 hi0n).2
    omega
  -- the stepped state
  set kv := s.kappa.getD i₀ 0 + 1 with hkv
  set nm := max (s.M.getD i₀ 0) kv with hnm
  have hs1 : s.incCore = { s with
      kappa := s.kappa.take i₀ ++ kv :: List.replicate (s.n - i₀ - 1) 0
    , M := s.M.take i₀ ++ List.replicate (s.n - i₀) nm
    , has_next := decide (s.M.getD (s.n-1) 0 + 1 < s.n)
    , has_prev := true } := by
    simp only [lexicographic_partition.incCore, hfind]
  have hk1len : (s.kappa.take i₀ ++ kv :: List.replicate (s.n - i₀ - 1) 0).length = s.n := by
    simp [List.length_take, hkl]
    omega
  have hM1len : (s.M.take i₀ ++ List.replicate (s.n - i₀) nm).length = s.n := by
    simp [List.length_take, hMl]
    omega
  have hk1 : ∀ j, (s.incCore.kappa).getD j 0 =
      if j < i₀ then s.kappa.getD j 0 else if j = i₀ then kv else 0 := by
    intro j
    rw [hs1]
    simp only
    rw [getD_update_shape s.kappa i₀ (by omega) kv _ j]
    rcases lt_trichotomy j i₀ with h | h | h
    · simp [h]
    · simp [h]
    · rw [if_neg (by omega), if_neg (by omega), getD_replicate, ite_self,
        if_neg (by omega), if_neg (by omega)]
  have hM1 : ∀ j, (s.incCore.M).getD j 0 =
      if j < i₀ then s.M.getD j 0 else if j < s.n then nm else 0 := by
    intro j
    rw [hs1]
    simp only
    by_cases h : j < i₀
    · rw [getD_append_lt _ _ _ (by simp [List.length_take, hMl]; omega),
        getD_take_lt _ _ _ h, if_pos h]
    · rw [getD_append_ge _ _ _ (by simp [List.length_take, hMl]; omega), if_neg h]
      have hlen : (s.M.take i₀).length = i₀ := by simp [List.length_take, hMl]; omega
      rw [hlen, getD_replicate]
      by_cases h2 : j < s.n
      · rw [if_pos (by omega), if_pos h2]
      · rw [if_neg (by omega), if_neg h2]
  have hn1 : s.incCore.n = s.n := by rw [hs1]
  -- the decrement find lands on the same index
  have hfind2 : findDownFrom (fun j => decide (0 < s.incCore.kappa.getD j 0)) (s.incCore.n - 1)
      = some i₀ := by
    rw [hn1]
    refine findDownFrom_intro hi1 hi2 ?_ ?_
    · rw [hk1 i₀]
      simp
    · intro j hj1 hj2
      rw [hk1 j]
      rw [if_neg (by omega), if_neg (by omega)]
      simp
  have hm2 : s.incCore.M.getD (i₀-1) 0 = s.M.getD (i₀-1) 0 := by
    rw [hM1]
    rw [if_pos (by omega)]
  have hs2 : s.incCore.decCore = { s.incCore with
      kappa := s.incCore.kappa.take i₀ ++ (s.incCore.kappa.getD i₀ 0 - 1) ::
        (List.range' (i₀+1) (s.incCore.n-i₀-1)).map (fun j => s.incCore.M.getD (i₀-1) 0 + j - i₀)
    , M := s.incCore.M.take i₀ ++ s.incCore.M.getD (i₀-1) 0 ::
        (List.range' (i₀+1) (s.incCore.n-i₀-1)).map (fun j => s.incCore.M.getD (i₀-1) 0 + j - i₀)
    , has_prev := decide (1 < s.incCore.M.getD (s.incCore.n-1) 0 + 1)
    , has_next := true } := by
    simp only [lexicographic_partition.decCore, hfind2]
  have hk1len' : s.incCore.kappa.length = s.n := by rw [hs1]; exact hk1len
  have hM1len' : s.incCore.M.length = s.n := by rw [hs1]; exact hM1len
  constructor
  · refine eq_of_getD _ _ ?_ ?_
    · rw [hs2]
      simp only [List.length_append, List.length_cons, List.length_map, List.length_range',
        List.length_take, hk1len', hn1, hkl]
      omega
    · intro j hj
      have hjn : j < s.n := by
        rw [hs2] at hj
        simp only [List.length_append, List.length_cons, List.length_map, List.length_range',
          List.length_take, hk1len', hn1] at hj
        omega
      rw [hs2]
      simp only
      rw [getD_update_shape s.incCore.kappa i₀ (by omega) _ _ j]
      rcases lt_trichotomy j i₀ with h | h | h
      · rw [if_pos h, hk1 j, if_pos h]
      · subst h
        rw [if_neg (by omega), if_pos rfl, hk1 j, if_neg (by omega), if_pos rfl]
        omega
      · rw [if_neg (by omega), if_neg (by omega), hn1]
        rw [getD_range'_map _ _ _ _ (by omega)]
        have harg : i₀ + 1 + (j - i₀ - 1) = j := by omega
        rw [harg, hm2]
        have := (hsuffix j h hjn).1
        omega
  · refine eq_of_getD _ _ ?_ ?_
    · rw [hs2]
      simp only [List.length_append, List.length_cons, List.length_map, List.length_range',
        List.length_take, hM1len', hn1, hMl]
      omega
    · intro j hj
      have hjn : j < s.n := by
        rw [hs2] at hj
        simp only [List.length_append, List.length_cons, List.length_map, List.length_range',
          List.length_take, hM1len', hn1] at hj
        omega
      rw [hs2]
      simp only
      rw [getD_update_shape s.incCore.M i₀ (by omega) _ _ j]
      rcases lt_trichotomy j i₀ with h | h | h
      · rw [if_pos h, hM1 j, if_pos h]
      · subst h
        rw [if_neg (by omega), if_pos rfl, hm2]
        omega
      · rw [if_neg (by omega), if_neg (by omega), hn1]
        rw [getD_range'_map _ _ _ _ (by omega)]
        have harg : i₀ + 1 + (j - i₀ - 1) = j := by omega
        rw [harg, hm2]
        have := (hsuffix j h hjn).2
        omega

/-- `lexicographic_partition`: `--` then `++` restores `kappa` and `M` on any
valid restricted-growth state that is not the first partition. -/
theorem partition_dec_inc (s : lexicographic_partition) (hv : ValidRgs s)
    (hex : ∃ i, 1 ≤ i ∧ i < s.n ∧ 0 < s.kappa.getD i 0) :
    s.decCore.incCore.kappa = s.kappa ∧ s.decCore.incCore.M = s.M := by
  obtain ⟨hkl, hMl, hk0, hM0, hval⟩ := hv
  obtain ⟨iw, hiw1, hiw2, hiw3⟩ := hex
  rcases hfind : findDownFrom (fun i => decide (0 < s.kappa.getD i 0)) (s.n - 1) with _ | i₀
  · exfalso
    have := findDownFrom_eq_none hfind iw hiw1 (by omega)
    simp only [decide_eq_false_iff_not, not_lt, Nat.le_zero] at this
    omega
  obtain ⟨hi1, hi2, hpi, hmaxb⟩ := findDownFrom_eq_some hfind
  have hpos : 0 < s.kappa.getD i₀ 0 := by simpa using hpi
  have hi0n : i₀ < s.n := by omega
  have hzero : ∀ j, i₀ < j → j < s.n → s.kappa.getD j 0 = 0 := by
    intro j hj1 hj2
    have := hmaxb j hj1 (by omega)
    simp only [decide_eq_false_iff_not, not_lt, Nat.le_zero] at this
    exact this
  have hMchain : ∀ j, i₀ ≤ j → j < s.n → s.M.getD j 0 = s.M.getD i₀ 0 := by
    intro j
    induction j with
    | zero =>
      intro h1 _
      omega
    | succ m ih =>
      intro h1 h2
      by_cases he : i₀ = m + 1
      · rw [he]
      · have h3 : i₀ ≤ m := by omega
        have := (hval (m+1) (by omega) h2).2
        have hz := hzero (m+1) (by omega) h2
        rw [hz] at this
        have hm : s.M.getD (m+1) 0 = s.M.getD (m+1-1) 0 := by
          rw [this]; exact max_eq_left (Nat.zero_le _)
        simp only [Nat.add_sub_cancel] at hm
        rw [hm]
        exact ih h3 (by omega)
  have hub : s.kappa.getD i₀ 0 ≤ s.M.getD (i₀-1) 0 + 1 := (hval i₀ hi1 hi0n).1
  have hMi : s.M.getD i₀ 0 = max (s.M.getD (i₀-1) 0) (s.kappa.getD i₀ 0) :=
    (hval i₀ hi1 hi0n).2
  set m := s.M.getD (i₀-1) 0 with hm
  have hs1 : s.decCore = { s with
      kappa := s.kappa.take i₀ ++ (s.kappa.getD i₀ 0 - 1) ::
        (List.range' (i₀+1) (s.n-i₀-1)).map (fun j => m + j - i₀)
    , M := s.M.take i₀ ++ m :: (List.range' (i₀+1) (s.n-i₀-1)).map (fun j => m + j - i₀)
    , has_prev := decide (1 < s.M.getD (s.n-1) 0 + 1)
    , has_next := true } := by
    simp only [lexicographic_partition.decCore, hfind]
  have hn1 : s.decCore.n = s.n := by rw [hs1]
  have hk1 : ∀ j, j < s.n → s.decCore.kappa.getD j 0 =
      if j < i₀ then s.kappa.getD j 0 else if j = i₀ then s.kappa.getD i₀ 0 - 1
      else m + j - i₀ := by
    intro j hjn
    rw [hs1]
    simp only
    rw [getD_update_shape s.kappa i₀ (by omega) _ _ j]
    rcases lt_trichotomy j i₀ with h | h | h
    · simp [h]
    · simp [h]
    · rw [if_neg (by omega), if_neg (by omega), if_neg (by omega), if_neg (by omega),
        getD_range'_map _ _ _ _ (by omega)]
      congr 1
      omega
  have hM1 : ∀ j, j < s.n → s.decCore.M.getD j 0 =
      if j < i₀ then s.M.getD j 0 else if j = i₀ then m else m + j - i₀ := by
    intro j hjn
    rw [hs1]
    simp only
    rw [getD_update_shape s.M i₀ (by omega) _ _ j]
    rcases lt_trichotomy j i₀ with h | h | h
    · simp [h]
    · simp [h]
    · rw [if_neg (by omega), if_neg (by omega), if_neg (by omega), if_neg (by omega),
        getD_range'_map _ _ _ _ (by omega)]
      congr 1
      omega
  have hk1len' : s.decCore.kappa.length = s.n := by
    rw [hs1]
    simp [List.length_take, hkl]
    omega
  have hM1len' : s.decCore.M.length = s.n := by
    rw [hs1]
    simp [List.length_take, hMl]
    omega
  have hfind2 : findDownFrom
      (fun i => decide (s.decCore.kappa.getD i 0 ≤ s.decCore.M.getD (i-1) 0))
      (s.decCore.n - 1) = some i₀ := by
    rw [hn1]
    refine findDownFrom_intro hi1 hi2 ?_ ?_
    · rw [hk1 i₀ hi0n, hM1 (i₀-1) (by omega)]
      rw [if_neg (by omega), if_pos rfl, if_pos (by omega)]
      simp only [decide_eq_true_eq]
      omega
    · intro j hj1 hj2
      rw [hk1 j (by omega), hM1 (j-1) (by omega)]
      rw [if_neg (by omega), if_neg (by omega)]
      by_cases he : j - 1 = i₀
      · rw [if_neg (by omega), if_pos he]
        simp only [decide_eq_false_iff_not, not_le]
        omega
      · rw [if_neg (by omega), if_neg he]
        simp only [decide_eq_false_iff_not, not_le]
        omega
  have hkd : s.decCore.kappa.getD i₀ 0 = s.kappa.getD i₀ 0 - 1 := by
    rw [hk1 i₀ hi0n, if_neg (by omega), if_pos rfl]
  have hMd : s.decCore.M.getD i₀ 0 = m := by
    rw [hM1 i₀ hi0n, if_neg (by omega), if_pos rfl]
  have hs2 : s.decCore.incCore = { s.decCore with
      kappa := s.decCore.kappa.take i₀ ++ (s.decCore.kappa.getD i₀ 0 + 1) ::
        List.replicate (s.decCore.n - i₀ - 1) 0
    , M := s.decCore.M.take i₀ ++
        List.replicate (s.decCore.n - i₀) (max (s.decCore.M.getD i₀ 0) (s.decCore.kappa.getD i₀ 0 + 1))
    , has_next := decide (s.decCore.M.getD (s.decCore.n-1) 0 + 1 < s.decCore.n)
    , has_prev := true } := by
    simp only [lexicographic_partition.incCore, hfind2]
  have hkv2 : s.decCore.kappa.getD i₀ 0 + 1 = s.kappa.getD i₀ 0 := by
    rw [hkd]; omega
  have hnm2 : max (s.decCore.M.getD i₀ 0) (s.decCore.kappa.getD i₀ 0 + 1) = s.M.getD i₀ 0 := by
    rw [hMd, hkv2, hMi]
  constructor
  · refine eq_of_getD _ _ ?_ ?_
    · rw [hs2]
      simp only [List.length_append, List.length_cons, List.length_replicate,
        List.length_take, hk1len', hn1, hkl]
      omega
    · intro j hj
      have hjn : j < s.n := by
        rw [hs2] at hj
        simp only [List.length_append, List.length_cons, List.length_replicate,
          List.length_take, hk1len', hn1] at hj
        omega
      rw [hs2]
      simp only
      rw [getD_update_shape s.decCore.kappa i₀ (by omega) _ _ j]
      rcases lt_trichotomy j i₀ with h | h | h
      · rw [if_pos h, hk1 j hjn, if_pos h]
      · subst h
        rw [if_neg (by omega), if_pos rfl, hkv2]
      · rw [if_neg (by omega), if_neg (by omega), getD_replicate, ite_self]
        rw [hzero j h hjn]
  · refine eq_of_getD _ _ ?_ ?_
    · rw [hs2]
      simp only [List.length_append, List.length_replicate,
        List.length_take, hM1len', hn1, hMl]
      omega
    · intro j hj
      have hjn : j < s.n := by
        rw [hs2] at hj
        simp only [List.length_append, List.length_replicate,
          List.length_take, hM1len', hn1] at hj
        omega
      rw [hs2]
      simp only
      by_cases h : j < i₀
      · rw [getD_append_lt _ _ _ (by simp [List.length_take, hM1len']; omega),
          getD_take_lt _ _ _ h, hM1 j hjn, if_pos h]
      · have hlen : (s.decCore.M.take i₀).length = i₀ := by
          simp [List.length_take, hM1len']; omega
        rw [getD_append_ge _ _ _ (by omega), hlen, getD_replicate, hn1,
          if_pos (by omega), hnm2]
        exact (hMchain j (by omega) hjn).symm

/-- C9 counterexample: from the initial state of either iterator (which has
`has_next() = true` and `has_prev() = false`), applying `operator++` and then
`operator--` yields a state whose `has_prev()` is `true`, so the iterator does
not return to the prior state. -/
theorem C9_roundtrip_counterexample :
    (lexicographic_subset.init 2 true).has_next = true ∧
    (lexicographic_subset.init 2 true).has_prev = false ∧
    (lexicographic_subset.init 2 true).incCore.decCore.has_prev = true ∧
    (lexicographic_subset.init 2 true).incCore.decCore ≠ lexicographic_subset.init 2 true ∧
    (lexicographic_partition.init 2).has_next = true ∧
    (lexicographic_partition.init 2).has_prev = false ∧
    (lexicographic_partition.init 2).incCore.decCore.has_prev = true ∧
    (lexicographic_partition.init 2).incCore.decCore ≠ lexicographic_partition.init 2 := by
  decide

/-- C9 (amended): the `++`/`--` round trips of the subset and partition
iterators restore the underlying data (the subset bitmask, resp. the
restricted-growth string `kappa` together with `M`) whenever the first applied
operator actually advances the data — but not the `has_prev`/`has_next`
flags, which the round trip may change (see the counterexample). -/
theorem C9_roundtrip_data_restored :
    (∀ s : lexicographic_subset,
      subsetMin s.empty_set ≤ s.bits → s.bits < 2^s.n → s.bits ≠ 2^s.n - 1 →
        s.incCore.decCore.bits = s.bits) ∧
    (∀ s : lexicographic_subset,
      subsetMin s.empty_set < s.bits → s.bits ≤ 2^s.n - 1 →
        s.decCore.incCore.bits = s.bits) ∧
    (∀ s : lexicographic_partition, ValidRgs s →
      (∃ i, 1 ≤ i ∧ i < s.n ∧ s.kappa.getD i 0 ≤ s.M.getD (i-1) 0) →
        s.incCore.decCore.kappa = s.kappa ∧ s.incCore.decCore.M = s.M) ∧
    (∀ s : lexicographic_partition, ValidRgs s →
      (∃ i, 1 ≤ i ∧ i < s.n ∧ 0 < s.kappa.getD i 0) →
        s.decCore.incCore.kappa = s.kappa ∧ s.decCore.incCore.M = s.M) :=
  ⟨subset_inc_dec, subset_dec_inc, partition_inc_dec, partition_dec_inc⟩

/-- Witness for the amended C9 at concrete states: the subset `{0}` of a
2-element ground set and the partition `((0 1), (2))` of a 3-element set. -/
theorem C9_roundtrip_data_restored_witness :
    (⟨2, true, 1, true, true⟩ : lexicographic_subset).incCore.decCore.bits = 1 ∧
    (⟨3, [0, 0, 1], [0, 0, 1], true, true⟩ : lexicographic_partition).incCore.decCore.kappa
      = [0, 0, 1] := by
  constructor
  · exact C9_roundtrip_data_restored.1 ⟨2, true, 1, true, true⟩ (by decide) (by decide) (by decide)
  · exact (C9_roundtrip_data_restored.2.2.1 ⟨3, [0, 0, 1], [0, 0, 1], true, true⟩
      (by refine ⟨rfl, rfl, rfl, rfl, ?_⟩; decide)
      ⟨1, by norm_num⟩).1

/-! ### The simulator's event queue (simulator.hpp) over the libstdc++ binary heap

`simulator_t` keeps its pending events in a
`std::priority_queue<event_t, std::vector, event_comparator_t>`;
`event_comparator_t::operator()` returns `e1->fire_time > e2->fire_time`, so
the top of the queue is an event with the smallest fire time.
`priority_queue::push` and `::pop` are `std::push_heap` / `std::pop_heap` of
libstdc++ (`bits/stl_heap.h`): a binary heap in a vector, with the sift-up
loop `__push_heap` and the descend-then-sift-up loop `__adjust_heap`.
Fire times are modelled as rationals; `tag` records an event's insertion
order so that tie handling can be observed.  The loops are written with an
explicit fuel; the callers pass enough fuel that the base case is only
reached when the loop condition is already false. -/

structure Event where
  ft : ℚ
  tag : ℕ
deriving DecidableEq

instance : Inhabited Event := ⟨⟨0, 0⟩⟩

/-- `event_comparator_t::operator()(e1, e2) = e1->fire_time > e2->fire_time`. -/
def ecomp (e1 e2 : Event) : Bool := decide (e2.ft < e1.ft)

/-- `std::__push_heap(first, holeIndex, topIndex, value)`: sift the hole up
while the parent compares below `value`, then write `value` into the hole. -/
def pushHeapLoop (fuel : ℕ) (a : List Event) (hole top : ℕ) (value : Event) : List Event :=
  match fuel with
  | 0 => a.set hole value
  | fuel + 1 =>
    if top < hole ∧ ecomp (a.getD ((hole - 1) / 2) default) value = true then
      pushHeapLoop fuel (a.set hole (a.getD ((hole - 1) / 2) default)) ((hole - 1) / 2) top value
    else
      a.set hole value

/-- `priority_queue::push`: `push_back` the new event, then
`std::push_heap(first, last)`, i.e. sift up from hole `size - 1`. -/
def heapPush (arr : List Event) (e : Event) : List Event :=
  pushHeapLoop arr.length (arr ++ [e]) arr.length 0 e

/-- The descend loop of `std::__adjust_heap`: while the hole has two children
inside `[0, len)`, move the child with the smaller fire time up
(`__secondChild--` when `comp(first[second], first[second - 1])`) and descend
into it.  Returns the array together with the final hole and `__secondChild`. -/
def adjustLoop (fuel : ℕ) (a : List Event) (hole sc len : ℕ) : List Event × ℕ × ℕ :=
  match fuel with
  | 0 => (a, hole, sc)
  | fuel + 1 =>
    if sc < (len - 1) / 2 then
      let sc3 := if ecomp (a.getD (2 * (sc + 1)) default) (a.getD (2 * (sc + 1) - 1) default)
        then 2 * (sc + 1) - 1 else 2 * (sc + 1)
      adjustLoop fuel (a.set hole (a.getD sc3 default)) sc3 sc3 len
    else
      (a, hole, sc)

/-- `std::__adjust_heap(first, 0, len, value)`: descend to a leaf, move the
single child up in the even-length corner case, then sift `value` up from the
final hole with `__push_heap(first, holeIndex, 0, value)`.  The source test
`(len & 1) == 0 && secondChild == (len - 2) / 2` is on signed distances; for
`len < 2` the C++ right-hand side is negative and never equals the
non-negative `secondChild`, which the translation renders as the conjunct
`2 ≤ len`. -/
def adjustHeap (a : List Event) (len : ℕ) (value : Event) : List Event :=
  let r := adjustLoop len a 0 0 len
  if len % 2 = 0 ∧ 2 ≤ len ∧ r.2.2 = (len - 2) / 2 then
    pushHeapLoop len (r.1.set r.2.1 (r.1.getD (2 * (r.2.2 + 1) - 1) default))
      (2 * (r.2.2 + 1) - 1) 0 value
  else
    pushHeapLoop len r.1 r.2.1 0 value

/-- `priority_queue::pop` on a nonempty queue: the returned event is the top
`first[0]`; `std::pop_heap` moves the last element out as `value`, writes the
old top into the last slot, re-heapifies the prefix of length `size - 1` with
`__adjust_heap`, and `pop_back` drops the last slot.  (For `size = 1`,
`std::pop_heap` does nothing and `pop_back` empties the container.) -/
def heapPop (arr : List Event) : Event × List Event :=
  let top := arr.getD 0 default
  if arr.length ≤ 1 then (top, [])
  else
    (top, (adjustHeap (arr.set (arr.length - 1) top) (arr.length - 1)
      (arr.getD (arr.length - 1) default)).take (arr.length - 1))

/-- The binary-heap invariant of libstdc++ for `ecomp` on the prefix
`[0, len)`: no parent compares strictly above a child, i.e. every parent's
fire time is at most its children's. -/
def IsHeap (a : List Event) (len : ℕ) : Prop :=
  ∀ j, 0 < j → j < len → ecomp (a.getD ((j - 1) / 2) default) (a.getD j default) = false

/-- The firing loop of `simulator_t::run` / `fire_event`: while the queue is
nonempty, pop the top event, fire it, and push every event that its handlers
schedule in response (`schedule_event`). -/
def fireTrace (handler : Event → List Event) (fuel : ℕ) (heap : List Event) : List Event :=
  match fuel with
  | 0 => []
  | fuel + 1 =>
    if heap.isEmpty then []
    else
      (heapPop heap).1 ::
        fireTrace handler fuel ((handler (heapPop heap).1).foldl heapPush (heapPop heap).2)

/-! ### Heap lemmas -/

theorem ecomp_eq_false {x y : Event} : ecomp x y = false ↔ x.ft ≤ y.ft := by
  simp [ecomp]

theorem ecomp_eq_true {x y : Event} : ecomp x y = true ↔ y.ft < x.ft := by
  simp [ecomp]

theorem egetD_set_self (l : List Event) (i : ℕ) (x : Event) (h : i < l.length) :
    (l.set i x).getD i default = x := by
  simp [List.getD_eq_getElem?_getD, List.getElem?_set_self, h]

theorem egetD_set_ne (l : List Event) (i j : ℕ) (x : Event) (h : i ≠ j) :
    (l.set i x).getD j default = l.getD j default := by
  simp [List.getD_eq_getElem?_getD, List.getElem?_set_ne h]

theorem egetD_take_lt (l : List Event) (i j : ℕ) (h : j < i) :
    (l.take i).getD j default = l.getD j default := by
  simp [List.getD_eq_getElem?_getD, List.getElem?_take, h]

theorem egetD_append_lt (l r : List Event) (j : ℕ) (h : j < l.length) :
    (l ++ r).getD j default = l.getD j default := by
  simp [List.getD, List.getElem?_append, h]

theorem egetD_mem (l : List Event) (j : ℕ) (h : j < l.length) : l.getD j default ∈ l := by
  rw [List.getD_eq_getElem l default h]
  exact List.getElem_mem h

theorem pushHeapLoop_length (fuel : ℕ) :
    ∀ (a : List Event) (hole top : ℕ) (value : Event),
      (pushHeapLoop fuel a hole top value).length = a.length := by
  induction fuel with
  | zero => intro a hole top value; simp [pushHeapLoop]
  | succ fuel ih =>
    intro a hole top value
    rw [pushHeapLoop]
    split
    · rw [ih]; simp
    · simp

theorem pushHeapLoop_mem (fuel : ℕ) :
    ∀ (a : List Event) (hole top : ℕ) (value : Event), hole < a.length →
      ∀ y ∈ pushHeapLoop fuel a hole top value, y ∈ a ∨ y = value := by
  induction fuel with
  | zero =>
    intro a hole top value _ y hy
    exact List.mem_or_eq_of_mem_set hy
  | succ fuel ih =>
    intro a hole top value hhole y hy
    rw [pushHeapLoop] at hy
    split at hy
    · have h2 : (hole - 1) / 2 < a.length := by omega
      rcases ih _ _ _ _ (by simpa using h2) y hy with h | h
      · rcases List.mem_or_eq_of_mem_set h with h3 | h3
        · exact Or.inl h3
        · exact Or.inl (by rw [h3]; exact egetD_mem a _ h2)
      · exact Or.inr h
    · exact List.mem_or_eq_of_mem_set hy

/-- Correctness of the sift-up loop `__push_heap`: if the array is a heap on
`[0, len)` except around the hole — (i) pairs not involving the hole satisfy
the heap relation, (ii) the hole's children are at or above the hole's parent,
(iii) the hole's children are at or above `value` — then writing `value` by
sifting up yields a heap on `[0, len)`. -/
theorem pushHeapLoop_isHeap (value : Event) (len : ℕ) :
    ∀ (fuel : ℕ) (a : List Event) (hole : ℕ), hole ≤ fuel → len ≤ a.length → hole < len →
    (∀ j, 0 < j → j < len → j ≠ hole → (j - 1) / 2 ≠ hole →
      ecomp (a.getD ((j - 1) / 2) default) (a.getD j default) = false) →
    (∀ c, 0 < hole → 0 < c → c < len → (c - 1) / 2 = hole →
      ecomp (a.getD ((hole - 1) / 2) default) (a.getD c default) = false) →
    (∀ c, 0 < c → c < len → (c - 1) / 2 = hole →
      ecomp value (a.getD c default) = false) →
    IsHeap (pushHeapLoop fuel a hole 0 value) len := by
  intro fuel
  induction fuel with
  | zero =>
    intro a hole hfuel hlen hhole h1 h2 h3
    have h0 : hole = 0 := by omega
    subst h0
    simp only [pushHeapLoop]
    intro j hj0 hjl
    by_cases hp : (j - 1) / 2 = 0
    · rw [hp, egetD_set_self _ _ _ (by omega), egetD_set_ne _ _ _ _ (by omega)]
      exact h3 j hj0 hjl hp
    · rw [egetD_set_ne _ _ _ _ (by omega), egetD_set_ne _ _ _ _ (by omega)]
      exact h1 j hj0 hjl (by omega) hp
  | succ fuel ih =>
    intro a hole hfuel hlen hhole h1 h2 h3
    rw [pushHeapLoop]
    split
    · rename_i hc
      obtain ⟨hc1, hc2⟩ := hc
      refine ih (a.set hole (a.getD ((hole - 1) / 2) default)) ((hole - 1) / 2)
        (by omega) (by simpa using hlen) (by omega) ?_ ?_ ?_
      · -- pairs not involving the new hole
        intro j hj0 hjl hjp hjpp
        by_cases hjh : j = hole
        · exact absurd (by omega : (j - 1) / 2 = (hole - 1) / 2) hjpp
        · by_cases hpj : (j - 1) / 2 = hole
          · have hjgt : hole < j := by omega
            rw [hpj, egetD_set_self _ _ _ (by omega), egetD_set_ne _ _ _ _ (by omega)]
            exact h2 j hc1 hj0 hjl hpj
          · rw [egetD_set_ne _ _ _ _ (by omega), egetD_set_ne _ _ _ _ (by omega)]
            exact h1 j hj0 hjl hjh hpj
      · -- the new hole's children are at or above the grandparent
        intro c hp0 hc0 hcl hcp
        have hgp : (((hole - 1) / 2) - 1) / 2 ≠ hole := by omega
        have hpar : ecomp (a.getD ((((hole - 1) / 2) - 1) / 2) default)
            (a.getD ((hole - 1) / 2) default) = false :=
          h1 ((hole - 1) / 2) hp0 (by omega) (by omega) (by omega)
        by_cases hch : c = hole
        · subst hch
          rw [egetD_set_ne _ _ _ _ (by omega), egetD_set_self _ _ _ (by omega)]
          exact hpar
        · have hcc : ecomp (a.getD ((c - 1) / 2) default) (a.getD c default) = false :=
            h1 c hc0 hcl hch (by omega)
          rw [hcp] at hcc
          rw [egetD_set_ne _ _ _ _ (by omega), egetD_set_ne _ _ _ _ (by omega)]
          rw [ecomp_eq_false] at hpar hcc ⊢
          linarith
      · -- the new hole's children are at or above the value being sifted
        intro c hc0 hcl hcp
        have hlt : value.ft < (a.getD ((hole - 1) / 2) default).ft := ecomp_eq_true.mp hc2
        by_cases hch : c = hole
        · subst hch
          rw [egetD_set_self _ _ _ (by omega)]
          rw [ecomp_eq_false]
          linarith
        · have hcc : ecomp (a.getD ((c - 1) / 2) default) (a.getD c default) = false :=
            h1 c hc0 hcl hch (by omega)
          rw [hcp] at hcc
          rw [egetD_set_ne _ _ _ _ (by omega)]
          rw [ecomp_eq_false] at hcc ⊢
          linarith
    · rename_i hc
      intro j hj0 hjl
      by_cases hjh : j = hole
      · subst hjh
        have hstop : ecomp (a.getD ((j - 1) / 2) default) value = false := by
          rcases Bool.eq_false_or_eq_true (ecomp (a.getD ((j - 1) / 2) default) value) with
            h | h
          · exact absurd ⟨hj0, h⟩ hc
          · exact h
        rw [egetD_set_ne _ _ _ _ (by omega), egetD_set_self _ _ _ (by omega)]
        exact hstop
      · by_cases hpj : (j - 1) / 2 = hole
        · rw [hpj, egetD_set_self _ _ _ (by omega), egetD_set_ne _ _ _ _ (by omega)]
          exact h3 j hj0 hjl hpj
        · rw [egetD_set_ne _ _ _ _ (by omega), egetD_set_ne _ _ _ _ (by omega)]
          exact h1 j hj0 hjl hjh hpj

/-- The invariant of `__adjust_heap`'s descend loop: pairs not involving the
hole satisfy the heap relation, and the hole's children are at or above the
hole's parent. -/
def AdjustInv (a : List Event) (hole len : ℕ) : Prop :=
  (∀ j, 0 < j → j < len → j ≠ hole → (j - 1) / 2 ≠ hole →
    ecomp (a.getD ((j - 1) / 2) default) (a.getD j default) = false) ∧
  (∀ c, 0 < hole → 0 < c → c < len → (c - 1) / 2 = hole →
    ecomp (a.getD ((hole - 1) / 2) default) (a.getD c default) = false)

theorem adjustLoop_step (len : ℕ) (a : List Event) (hole sc3 : ℕ)
    (hlen : len ≤ a.length) (hhole : hole < len)
    (hc3a : sc3 = 2 * hole + 1 ∨ sc3 = 2 * hole + 2) (hc3l : sc3 < len)
    (hsib : ∀ j, (j = 2 * hole + 1 ∨ j = 2 * hole + 2) → j < len → j ≠ sc3 →
      ecomp (a.getD sc3 default) (a.getD j default) = false)
    (hinv : AdjustInv a hole len) :
    AdjustInv (a.set hole (a.getD sc3 default)) sc3 len := by
  constructor
  · intro j hj0 hjl hjne hjp
    by_cases hjh : j = hole
    · subst hjh
      rw [egetD_set_ne _ _ _ _ (by omega), egetD_set_self _ _ _ (by omega)]
      exact hinv.2 sc3 hj0 (by omega) hc3l (by omega)
    · by_cases hpj : (j - 1) / 2 = hole
      · have hj12 : j = 2 * hole + 1 ∨ j = 2 * hole + 2 := by omega
        rw [hpj, egetD_set_self _ _ _ (by omega), egetD_set_ne _ _ _ _ (by omega)]
        exact hsib j hj12 hjl hjne
      · rw [egetD_set_ne _ _ _ _ (by omega), egetD_set_ne _ _ _ _ (by omega)]
        exact hinv.1 j hj0 hjl hjh hpj
  · intro c _ hc0 hcl hcp
    have hp3 : (sc3 - 1) / 2 = hole := by omega
    rw [hp3, egetD_set_self _ _ _ (by omega), egetD_set_ne _ _ _ _ (by omega)]
    have := hinv.1 c hc0 hcl (by omega) (by omega)
    rwa [hcp] at this

/-- Correctness of the descend loop of `__adjust_heap`: starting from a state
satisfying `AdjustInv` with `secondChild = holeIndex`, the loop preserves the
invariant, keeps the array a permutation-submultiset of the input, and stops
with `holeIndex = secondChild` at a position failing the loop guard. -/
theorem adjustLoop_spec (len : ℕ) :
    ∀ (fuel : ℕ) (a : List Event) (hole sc : ℕ),
      (len - 1) / 2 ≤ sc + fuel → sc = hole → len ≤ a.length → hole < len →
      AdjustInv a hole len →
      ((adjustLoop fuel a hole sc len).1.length = a.length ∧
        ∀ y ∈ (adjustLoop fuel a hole sc len).1, y ∈ a) ∧
      ((adjustLoop fuel a hole sc len).2.1 = (adjustLoop fuel a hole sc len).2.2 ∧
        (adjustLoop fuel a hole sc len).2.1 < len ∧
        ¬ (adjustLoop fuel a hole sc len).2.2 < (len - 1) / 2) ∧
      AdjustInv (adjustLoop fuel a hole sc len).1 (adjustLoop fuel a hole sc len).2.1 len := by
  intro fuel
  induction fuel with
  | zero =>
    intro a hole sc hfuel hsc hlen hhole hinv
    exact ⟨⟨rfl, fun y hy => hy⟩, ⟨hsc.symm, hhole, (by omega : ¬ sc < (len - 1) / 2)⟩, hinv⟩
  | succ fuel ih =>
    intro a hole sc hfuel hsc hlen hhole hinv
    rw [adjustLoop]
    split
    · rename_i hlt
      dsimp only
      have hc2l : 2 * (sc + 1) < len := by omega
      by_cases hcomp : ecomp (a.getD (2 * (sc + 1)) default)
          (a.getD (2 * (sc + 1) - 1) default) = true
      · rw [if_pos hcomp]
        have hstep := adjustLoop_step len a hole (2 * (sc + 1) - 1) hlen hhole
          (by omega) (by omega) ?_ hinv
        · obtain ⟨⟨ihl, ihm⟩, ihb, ihinv⟩ := ih (a.set hole (a.getD (2 * (sc + 1) - 1) default))
            (2 * (sc + 1) - 1) (2 * (sc + 1) - 1) (by omega) rfl (by simpa using hlen)
            (by omega) hstep
          refine ⟨⟨by rw [ihl]; simp, fun y hy => ?_⟩, ihb, ihinv⟩
          rcases List.mem_or_eq_of_mem_set (ihm y hy) with h | h
          · exact h
          · rw [h]; exact egetD_mem a _ (by omega)
        · intro j hj12 hjl hjne
          have hj : j = 2 * (sc + 1) := by omega
          subst hj
          rw [ecomp_eq_false]
          rw [ecomp_eq_true] at hcomp
          linarith
      · rw [if_neg hcomp]
        have hstep := adjustLoop_step len a hole (2 * (sc + 1)) hlen hhole
          (by omega) (by omega) ?_ hinv
        · obtain ⟨⟨ihl, ihm⟩, ihb, ihinv⟩ := ih (a.set hole (a.getD (2 * (sc + 1)) default))
            (2 * (sc + 1)) (2 * (sc + 1)) (by omega) rfl (by simpa using hlen)
            (by omega) hstep
          refine ⟨⟨by rw [ihl]; simp, fun y hy => ?_⟩, ihb, ihinv⟩
          rcases List.mem_or_eq_of_mem_set (ihm y hy) with h | h
          · exact h
          · rw [h]; exact egetD_mem a _ (by omega)
        · intro j hj12 hjl hjne
          have hj : j = 2 * (sc + 1) - 1 := by omega
          subst hj
          exact Bool.not_eq_true _ ▸ hcomp
    · rename_i hge
      exact ⟨⟨rfl, fun y hy => hy⟩, ⟨hsc.symm, hhole, hge⟩, hinv⟩

/-- Correctness of `__adjust_heap`: starting from an array satisfying the
descend invariant with the hole at the root, the result is a heap on
`[0, len)` made of the input's elements plus `value`. -/
theorem adjustHeap_spec (a : List Event) (len : ℕ) (value : Event)
    (hlen : len ≤ a.length) (hlen1 : 1 ≤ len) (hinv : AdjustInv a 0 len) :
    IsHeap (adjustHeap a len value) len ∧
    (adjustHeap a len value).length = a.length ∧
    (∀ y ∈ adjustHeap a len value, y ∈ a ∨ y = value) := by
  obtain ⟨⟨hL, hM⟩, ⟨hse, hhl, hexit⟩, hinv2⟩ :=
    adjustLoop_spec len len a 0 0 (by omega) rfl hlen (by omega) hinv
  set r := adjustLoop len a 0 0 len with hrdef
  have hunf : adjustHeap a len value =
      if len % 2 = 0 ∧ 2 ≤ len ∧ r.2.2 = (len - 2) / 2 then
        pushHeapLoop len (r.1.set r.2.1 (r.1.getD (2 * (r.2.2 + 1) - 1) default))
          (2 * (r.2.2 + 1) - 1) 0 value
      else pushHeapLoop len r.1 r.2.1 0 value := rfl
  rw [hunf]
  split
  · rename_i hcase
    obtain ⟨he1, he2, he3⟩ := hcase
    have hch : 2 * (r.2.2 + 1) - 1 = len - 1 := by omega
    rw [hch]
    have hhne : r.2.1 ≠ len - 1 := by omega
    refine ⟨pushHeapLoop_isHeap value len len _ (len - 1) (by omega)
      (by simp [hL]; omega) (by omega) ?_ ?_ ?_, ?_, ?_⟩
    · intro j hj0 hjl hjne hjp
      by_cases hjh : j = r.2.1
      · subst hjh
        rw [egetD_set_ne _ _ _ _ (by omega), egetD_set_self _ _ _ (by omega)]
        exact hinv2.2 (len - 1) hj0 (by omega) (by omega) (by omega)
      · by_cases hpj : (j - 1) / 2 = r.2.1
        · exact absurd hjl (by omega)
        · rw [egetD_set_ne _ _ _ _ (by omega), egetD_set_ne _ _ _ _ (by omega)]
          exact hinv2.1 j hj0 hjl hjh hpj
    · intro c _ hc0 hcl hcp
      exact absurd hcl (by omega)
    · intro c hc0 hcl hcp
      exact absurd hcl (by omega)
    · rw [pushHeapLoop_length]
      simp [hL]
    · intro y hy
      rcases pushHeapLoop_mem len _ _ _ _ (by simp [hL]; omega) y hy with h | h
      · rcases List.mem_or_eq_of_mem_set h with h3 | h3
        · exact Or.inl (hM y h3)
        · rw [h3]
          exact Or.inl (hM _ (egetD_mem r.1 _ (by omega)))
      · exact Or.inr h
  · rename_i hcase
    refine ⟨pushHeapLoop_isHeap value len len r.1 r.2.1 (by omega)
      (by omega) hhl hinv2.1 hinv2.2 ?_, ?_, ?_⟩
    · intro c hc0 hcl hcp
      by_cases hev : len % 2 = 0
      · have hne2 : r.2.2 ≠ (len - 2) / 2 := fun hq => hcase ⟨hev, by omega, hq⟩
        exact absurd hcl (by omega)
      · exact absurd hcl (by omega)
    · rw [pushHeapLoop_length]
      exact hL
    · intro y hy
      rcases pushHeapLoop_mem len _ _ _ _ (by omega) y hy with h | h
      · exact Or.inl (hM y h)
      · exact Or.inr h

/-- `priority_queue::pop` on a heap: the returned event is the root, one
element is removed, the heap property is preserved, and no new elements
appear. -/
theorem heapPop_spec (arr : List Event) (hne : arr ≠ []) (hh : IsHeap arr arr.length) :
    (heapPop arr).1 = arr.getD 0 default ∧
    (heapPop arr).2.length = arr.length - 1 ∧
    IsHeap (heapPop arr).2 (arr.length - 1) ∧
    (∀ y ∈ (heapPop arr).2, y ∈ arr) := by
  have hlen1 : 1 ≤ arr.length := List.length_pos.mpr hne
  unfold heapPop
  dsimp only
  split
  · rename_i hle
    refine ⟨rfl, by simp; omega, ?_, by simp⟩
    intro j hj0 hjl
    exact absurd hjl (by omega)
  · rename_i hgt
    have h2 : 2 ≤ arr.length := by omega
    have hinv : AdjustInv (arr.set (arr.length - 1) (arr.getD 0 default)) 0
        (arr.length - 1) := by
      constructor
      · intro j hj0 hjl hjne hjp
        rw [egetD_set_ne _ _ _ _ (by omega), egetD_set_ne _ _ _ _ (by omega)]
        exact hh j hj0 (by omega)
      · intro c h0 _ _ _
        exact absurd h0 (by omega)
    obtain ⟨hH, hL, hM⟩ := adjustHeap_spec (arr.set (arr.length - 1) (arr.getD 0 default))
      (arr.length - 1) (arr.getD (arr.length - 1) default) (by simp) (by omega) hinv
    refine ⟨rfl, ?_, ?_, ?_⟩
    · simp only [List.length_take, hL, List.length_set]
      omega
    · intro j hj0 hjl
      rw [egetD_take_lt _ _ _ (by omega), egetD_take_lt _ _ _ (by omega)]
      exact hH j hj0 hjl
    · intro y hy
      have hy2 := List.mem_of_mem_take hy
      rcases hM y hy2 with h | h
      · rcases List.mem_or_eq_of_mem_set h with h3 | h3
        · exact h3
        · rw [h3]
          exact egetD_mem arr 0 (by omega)
      · rw [h]
        exact egetD_mem arr (arr.length - 1) (by omega)

/-- In a heap, the root has the minimum fire time (by index). -/
theorem isHeap_root_le (a : List Event) (len : ℕ) (hh : IsHeap a len) :
    ∀ i, i < len → (a.getD 0 default).ft ≤ (a.getD i default).ft := by
  intro i
  induction i using Nat.strong_induction_on with
  | _ i ih =>
    intro hi
    by_cases h0 : i = 0
    · subst h0
      exact le_refl _
    · have hp := ecomp_eq_false.mp (hh i (by omega) hi)
      have hgp := ih ((i - 1) / 2) (by omega) (by omega)
      linarith

/-- In a heap, the root has the minimum fire time (by membership). -/
theorem isHeap_root_le_mem (a : List Event) (hh : IsHeap a a.length) (z : Event)
    (hz : z ∈ a) : (a.getD 0 default).ft ≤ z.ft := by
  obtain ⟨i, hi, hzi⟩ := List.mem_iff_getElem.mp hz
  have := isHeap_root_le a a.length hh i hi
  rwa [List.getD_eq_getElem a default hi, hzi] at this

theorem heapPush_length (arr : List Event) (e : Event) :
    (heapPush arr e).length = arr.length + 1 := by
  unfold heapPush
  rw [pushHeapLoop_length]
  simp

theorem heapPush_mem (arr : List Event) (e : Event) :
    ∀ y ∈ heapPush arr e, y ∈ arr ∨ y = e := by
  intro y hy
  unfold heapPush at hy
  rcases pushHeapLoop_mem arr.length (arr ++ [e]) arr.length 0 e (by simp) y hy with h | h
  · rcases List.mem_append.mp h with h2 | h2
    · exact Or.inl h2
    · exact Or.inr (by simpa using h2)
  · exact Or.inr h

/-- `priority_queue::push` preserves the heap property. -/
theorem heapPush_isHeap (arr : List Event) (e : Event) (hh : IsHeap arr arr.length) :
    IsHeap (heapPush arr e) (arr.length + 1) := by
  unfold heapPush
  refine pushHeapLoop_isHeap e (arr.length + 1) arr.length (arr ++ [e]) arr.length
    (le_refl _) (by simp) (by omega) ?_ ?_ ?_
  · intro j hj0 hjl hjh hjp
    rw [egetD_append_lt _ _ _ (by omega), egetD_append_lt _ _ _ (by omega)]
    exact hh j hj0 (by omega)
  · intro c h0 hc0 hcl hcp
    exact absurd hcl (by omega)
  · intro c hc0 hcl hcp
    exact absurd hcl (by omega)

theorem foldl_heapPush_isHeap (es : List Event) :
    ∀ h : List Event, IsHeap h h.length →
      IsHeap (es.foldl heapPush h) (es.foldl heapPush h).length := by
  induction es with
  | nil => intro h hh; exact hh
  | cons e es ih =>
    intro h hh
    simp only [List.foldl_cons]
    exact ih (heapPush h e) (by rw [heapPush_length]; exact heapPush_isHeap h e hh)

theorem foldl_heapPush_mem (es : List Event) :
    ∀ (h : List Event) (y : Event), y ∈ es.foldl heapPush h → y ∈ h ∨ y ∈ es := by
  induction es with
  | nil => intro h y hy; exact Or.inl hy
  | cons e es ih =>
    intro h y hy
    simp only [List.foldl_cons] at hy
    rcases ih _ y hy with h1 | h1
    · rcases heapPush_mem h e y h1 with h2 | h2
      · exact Or.inl h2
      · exact Or.inr (by simp [h2])
    · exact Or.inr (List.mem_cons_of_mem _ h1)

/-- Every event fired from a heap whose events all have fire time at least `c`
has fire time at least `c`, provided handlers never schedule into the past. -/
theorem fireTrace_lb (handler : Event → List Event)
    (hsched : ∀ e e', e' ∈ handler e → e.ft ≤ e'.ft) (c : ℚ) :
    ∀ (fuel : ℕ) (heap : List Event), IsHeap heap heap.length → (∀ z ∈ heap, c ≤ z.ft) →
      ∀ y ∈ fireTrace handler fuel heap, c ≤ y.ft := by
  intro fuel
  induction fuel with
  | zero => intro heap _ _ y hy; simp [fireTrace] at hy
  | succ fuel ih =>
    intro heap hh hlb y hy
    rw [fireTrace] at hy
    split at hy
    · simp at hy
    · rename_i hne
      have hne' : heap ≠ [] := by
        intro h0
        rw [h0] at hne
        simp at hne
      have hlp : 1 ≤ heap.length := List.length_pos.mpr hne'
      obtain ⟨hfst, hlen2, hh2, hmem2⟩ := heapPop_spec heap hne' hh
      have htop : c ≤ (heapPop heap).1.ft := by
        rw [hfst]
        exact hlb _ (egetD_mem heap 0 hlp)
      rcases List.mem_cons.mp hy with rfl | hy2
      · exact htop
      · refine ih _ (foldl_heapPush_isHeap _ _ (by rw [hlen2]; exact hh2)) ?_ y hy2
        intro z hz
        rcases foldl_heapPush_mem _ _ z hz with h1 | h1
        · exact hlb z (hmem2 z h1)
        · have := hsched _ _ h1
          linarith

theorem fireTrace_sorted (handler : Event → List Event)
    (hsched : ∀ e e', e' ∈ handler e → e.ft ≤ e'.ft) :
    ∀ (fuel : ℕ) (heap : List Event), IsHeap heap heap.length →
      List.Chain' (fun x y => x.ft ≤ y.ft) (fireTrace handler fuel heap) := by
  intro fuel
  induction fuel with
  | zero => intro heap _; simp [fireTrace]
  | succ fuel ih =>
    intro heap hh
    rw [fireTrace]
    split
    · simp
    · rename_i hne
      have hne' : heap ≠ [] := by
        intro h0
        rw [h0] at hne
        simp at hne
      obtain ⟨hfst, hlen2, hh2, hmem2⟩ := heapPop_spec heap hne' hh
      have hh3 : IsHeap ((handler (heapPop heap).1).foldl heapPush (heapPop heap).2)
          ((handler (heapPop heap).1).foldl heapPush (heapPop heap).2).length :=
        foldl_heapPush_isHeap _ _ (by rw [hlen2]; exact hh2)
      refine List.chain'_cons'.mpr ⟨?_, ih _ hh3⟩
      intro y hy
      have hym := List.mem_of_mem_head? hy
      refine fireTrace_lb handler hsched ((heapPop heap).1.ft) fuel _ hh3 ?_ y hym
      intro z hz
      rcases foldl_heapPush_mem _ _ z hz with h1 | h1
      · rw [hfst]
        exact isHeap_root_le_mem heap hh z (hmem2 z h1)
      · exact hsched _ _ h1

/-- C6 (amended): within a replication, `simulator_t` fires events in
non-decreasing fire-time order — as long as the handlers only schedule events
whose fire time is at or after the fired event's time, every firing sequence
produced from a well-formed event queue has non-decreasing fire times.  The
second half of the original claim is false: among events with equal fire
times, the firing order is the binary-heap order of `std::priority_queue`,
not the insertion order (see `C6_fifo_tie_break_counterexample`). -/
theorem C6_nondecreasing_fire_times (handler : Event → List Event)
    (hsched : ∀ e e', e' ∈ handler e → e.ft ≤ e'.ft)
    (fuel : ℕ) (heap : List Event) (hh : IsHeap heap heap.length) :
    List.Chain' (fun x y => x.ft ≤ y.ft) (fireTrace handler fuel heap) :=
  fireTrace_sorted handler hsched fuel heap hh

/-- Witness for the amended C6 on a concrete two-event queue. -/
theorem C6_nondecreasing_fire_times_witness :
    List.Chain' (fun x y => x.ft ≤ y.ft)
      (fireTrace (fun _ => []) 2 [⟨1, 1⟩, ⟨2, 2⟩]) := by
  refine C6_nondecreasing_fire_times (fun _ => []) ?_ 2 [⟨1, 1⟩, ⟨2, 2⟩] ?_
  · intro e e' h
    simp at h
  · intro j hj0 hjl
    simp only [List.length_cons, List.length_nil] at hjl
    have hj : j = 1 := by omega
    subst hj
    decide

/-- C6 counterexample to the insertion-order tie-break: four events with the
same fire time are inserted with tags 1, 2, 3, 4 but fire in tag order
1, 3, 2, 4. -/
theorem C6_fifo_tie_break_counterexample :
    (fireTrace (fun _ => []) 4
      (([⟨1, 1⟩, ⟨1, 2⟩, ⟨1, 3⟩, ⟨1, 4⟩] : List Event).foldl heapPush [])).map Event.tag
      = [1, 3, 2, 4] ∧ [1, 3, 2, 4] ≠ [1, 2, 3, 4] := by
  constructor
  · decide
  · decide

/-! ### dcs/math/detail/float.hpp : extended doubles and tolerance-aware comparison

A machine double is modelled as an extended rational: a finite rational
value, one of the two infinities, or NaN.  Rounding is not modelled; the
special-value ladder of `definitely_greater` is translated verbatim. -/

inductive FReal where
  | val : ℚ → FReal
  | pinf : FReal
  | ninf : FReal
  | nan : FReal
deriving DecidableEq, Repr

def FReal.isnan : FReal → Bool
  | .nan => true
  | _ => false

def FReal.isinf : FReal → Bool
  | .pinf => true
  | .ninf => true
  | _ => false

def FReal.isfinite : FReal → Bool
  | .val _ => true
  | _ => false

/-- The IEEE `<=` used by the C++ `x <= y` test (false on NaN operands). -/
def fle : FReal → FReal → Bool
  | .nan, _ => false
  | _, .nan => false
  | .ninf, _ => true
  | _, .pinf => true
  | .val a, .val b => decide (a ≤ b)
  | _, _ => false

/-- IEEE `+` for the extended values. -/
def fadd : FReal → FReal → FReal
  | .nan, _ => .nan
  | _, .nan => .nan
  | .pinf, .ninf => .nan
  | .ninf, .pinf => .nan
  | .pinf, _ => .pinf
  | _, .pinf => .pinf
  | .ninf, _ => .ninf
  | _, .ninf => .ninf
  | .val a, .val b => .val (a + b)

/-- `float_traits<double>::tolerance = 100 * numeric_limits<double>::epsilon()`. -/
def tolerance : ℚ := 100 * (1 / 2 ^ 52)

/-- `std::numeric_limits<double>::min() = 2^-1022` (smallest positive normal). -/
def dbl_min : ℚ := 1 / 2 ^ 1022

/-- `dcs::math::detail::definitely_greater(x, y, tol)`:
`if (x <= y) return false; if (isnan...) return false;
if (isinf x && isfinite y) return true; if (isfinite x && isinf y) return false;
return (x - y) > max(|x|, |y|) * tol;`.  The only non-finite pair that reaches
the last line is `(+inf, -inf)`, for which the C++ arithmetic gives
`inf > inf = false`; the catch-all arm renders that. -/
def definitely_greater (x y : FReal) (tol : ℚ) : Bool :=
  if fle x y then false
  else if x.isnan || y.isnan then false
  else if x.isinf && y.isfinite then true
  else if x.isfinite && y.isinf then false
  else
    match x, y with
    | .val a, .val b => decide (max |a| |b| * tol < a - b)
    | _, _ => false

/-! ### gtpack coalition ids

gtpack is an external dependency (not part of this repository's src/).
Modelled from the spec: a coalition id is the canonical bitmask with bit `p`
set exactly for the players `p` in the coalition. -/

/-- `gtpack::make_coalition_id` over a range of players. -/
def make_coalition_id (fps : List ℕ) : ℕ := fps.foldl (fun acc p => acc ||| 2 ^ p) 0

/-- The players of the coalition with id `v`, in increasing order (bit
position `p` is set only if `2^p ≤ v`, hence `p < v` bounds the scan). -/
def decodeList (v : ℕ) : List ℕ := (List.range v).filter (fun i => v.testBit i)

theorem mem_decodeList {v i : ℕ} : i ∈ decodeList v ↔ v.testBit i = true := by
  constructor
  · intro h
    exact (List.mem_filter.mp h).2
  · intro h
    refine List.mem_filter.mpr ⟨List.mem_range.mpr ?_, h⟩
    have h1 := Nat.testBit_implies_ge h
    have h2 := Nat.lt_two_pow i
    omega

theorem foldl_lor_testBit (l : List ℕ) :
    ∀ (acc i : ℕ), (l.foldl (fun a p => a ||| 2 ^ p) acc).testBit i
      = (acc.testBit i || decide (i ∈ l)) := by
  induction l with
  | nil => intro acc i; simp
  | cons p l ih =>
    intro acc i
    simp only [List.foldl_cons, ih, Nat.testBit_or, Nat.testBit_two_pow, List.mem_cons]
    by_cases h : p = i
    · subst h
      simp
    · have h2 : ¬ i = p := fun hh => h hh.symm
      simp [h, h2]

theorem make_coalition_id_decodeList (v : ℕ) : make_coalition_id (decodeList v) = v := by
  refine Nat.eq_of_testBit_eq (fun i => ?_)
  rw [make_coalition_id, foldl_lor_testBit, Nat.zero_testBit, Bool.false_or]
  rcases Bool.eq_false_or_eq_true (v.testBit i) with ht | hf
  · rw [ht]
    exact decide_eq_true (mem_decodeList.mpr ht)
  · rw [hf]
    refine decide_eq_false (fun hmem => ?_)
    rw [mem_decodeList.mp hmem] at hf
    exact absurd hf (by simp)

theorem decodeList_nil_iff (v : ℕ) : decodeList v = [] ↔ v = 0 := by
  constructor
  · intro h
    refine Nat.eq_of_testBit_eq (fun i => ?_)
    rw [Nat.zero_testBit]
    rcases Bool.eq_false_or_eq_true (v.testBit i) with h2 | h2
    · have := mem_decodeList.mpr h2
      rw [h] at this
      simp at this
    · exact h2
  · intro h
    subst h
    rfl

theorem decodeList_mem_lt {v i n : ℕ} (hv : v < 2 ^ n) (hi : i ∈ decodeList v) : i < n := by
  have h1 := Nat.testBit_implies_ge (mem_decodeList.mp hi)
  by_contra h
  have h2 : 2 ^ n ≤ 2 ^ i := Nat.pow_le_pow_right (by omega) (by omega)
  omega

theorem lor_ne_zero_left {a b : ℕ} (ha : a ≠ 0) : a ||| b ≠ 0 := by
  intro h
  refine ha (Nat.eq_of_testBit_eq (fun i => ?_))
  have h2 : (a ||| b).testBit i = false := by
    rw [h]
    exact Nat.zero_testBit i
  rw [Nat.testBit_or] at h2
  simp only [Bool.or_eq_false_iff] at h2
  rw [h2.1, Nat.zero_testBit]

/-! ### dcs/fgt/experiment.hpp : analyze_coalitions

The structures mirror `vm_allocation_t` (vm_allocation.hpp) and
`coalition_info_t` / `partition_info_t` (coalition_formation/commons.hpp);
`std::map` becomes an association list ordered by insertion (the keys are
inserted in increasing order in every flow below).

The enumeration loop of `analyze_coalitions` (experiment.hpp:1627-1811) walks
`lexicographic_subset(num_fps, false)` while `has_next()`; each iteration
reads the current subset, computes its cid, calls the VM-placement optimizer,
and fills the coalition's entry of `visited_coalitions` and the game value.
The embedding is parametric in the pieces that are external to this loop: the
optimizer (`opt_solver`), gtpack's `find_core` / `belongs_to_core` /
`shapley_value` results, and the game's initial values `v0`; statistics
collection, logging and tracing side effects are omitted. -/

structure VmAllocation where
  solved : Bool
  objective_value : ℚ
deriving DecidableEq, Repr

/-- `coalition_info_t` with its default constructor values
(`value = NaN`, `core_empty = true`, `payoffs` empty, `payoffs_in_core =
false`); the never-assigned `cid` member is omitted. -/
structure CoalitionInfo where
  vm_allocation : VmAllocation
  value : FReal
  core_empty : Bool
  payoffs : List (ℕ × ℚ)
  payoffs_in_core : Bool
deriving DecidableEq, Repr

structure AnalyzeParams where
  num_fps : ℕ
  svc_fps : List ℕ
  svc_categories : List ℕ
  fp_svc_revenues : ℕ → ℕ → ℚ
  fp_coalition_costs : ℕ → ℚ
  coalition_duration : ℚ
  solver : List ℕ → VmAllocation
  v0 : ℕ → FReal
  coreEmptyO : ℕ → Bool
  inCoreO : ℕ → Bool
  shapleyO : ℕ → List (ℕ × ℚ)

/-- The services of the coalition (experiment.hpp:1647-1675): for each
coalition member in order, the services it owns. -/
def coal_svcsFor (P : AnalyzeParams) (coal_fps : List ℕ) : List ℕ :=
  coal_fps.flatMap (fun fp =>
    (List.range P.svc_fps.length).filter (fun svc => P.svc_fps.getD svc 0 = fp))

/-- The coalition profit of a solved coalition (experiment.hpp:1702-1727):
`revenue = Σ_{svc} fp_svc_revenues[svc_fps[svc]][svc_categories[svc]]`,
`cost = objective - (coalition costs when more than one member)`,
`profit = (revenue - cost) * coalition_duration`. -/
def coalProfit (P : AnalyzeParams) (cid : ℕ) : ℚ :=
  let coal_fps := decodeList cid
  let vm_alloc := P.solver coal_fps
  let revenue := ((coal_svcsFor P coal_fps).map (fun svc =>
    P.fp_svc_revenues (P.svc_fps.getD svc 0) (P.svc_categories.getD svc 0))).sum
  let cost := if 1 < coal_fps.length then
      coal_fps.foldl (fun c fp => c - P.fp_coalition_costs fp) vm_alloc.objective_value
    else vm_alloc.objective_value
  (revenue - cost) * P.coalition_duration

/-- The `visited_coalitions[cid]` entry produced by one loop iteration:
solved branch (experiment.hpp:1702-1793) versus unsolved branch (1795-1810). -/
def coalInfoFor (P : AnalyzeParams) (cid : ℕ) : CoalitionInfo :=
  let vm_alloc := P.solver (decodeList cid)
  if vm_alloc.solved then
    let core_empty := P.coreEmptyO cid
    { vm_allocation := vm_alloc
    , value := FReal.val (coalProfit P cid)
    , core_empty := core_empty
    , payoffs := P.shapleyO cid
    , payoffs_in_core := if core_empty then false else P.inCoreO cid }
  else
    { vm_allocation := vm_alloc
    , value := FReal.nan
    , core_empty := true
    , payoffs := []
    , payoffs_in_core := false }

/-- The game value stored for `cid` by one loop iteration: the profit when
solved (experiment.hpp:1729), and `-std::numeric_limits<RealT>::min()` — the
negated smallest positive normal double, not `-infinity` — when unsolved
(experiment.hpp:1802). -/
def gameValueFor (P : AnalyzeParams) (cid : ℕ) : FReal :=
  if (P.solver (decodeList cid)).solved then FReal.val (coalProfit P cid)
  else FReal.val (-dbl_min)

/-- The subset-enumeration loop of `analyze_coalitions`
(experiment.hpp:1629-1811), with enough fuel to exhaust the iterator. -/
def analyzeLoop (P : AnalyzeParams) :
    ℕ → lexicographic_subset → (ℕ → FReal) → List (ℕ × CoalitionInfo) →
      (ℕ → FReal) × List (ℕ × CoalitionInfo)
  | 0, _, game, visited => (game, visited)
  | fuel + 1, s, game, visited =>
    if s.has_next then
      let cid := make_coalition_id (decodeList s.bits)
      analyzeLoop P fuel s.incCore
        (fun c => if c = cid then gameValueFor P cid else game c)
        (visited ++ [(cid, coalInfoFor P cid)])
    else (game, visited)

def analyze_coalitions (P : AnalyzeParams) : (ℕ → FReal) × List (ℕ × CoalitionInfo) :=
  analyzeLoop P (2 ^ P.num_fps) (lexicographic_subset.init P.num_fps false) P.v0 []

/-- The enumeration loop visits exactly the bitmasks `b, b+1, …, 2^n - 1`
from a live state holding `b`, appending one `visited_coalitions` entry per
coalition id and setting its game value. -/
theorem analyzeLoop_spec (P : AnalyzeParams) (n : ℕ) (hn : 1 ≤ n) :
    ∀ (fuel : ℕ) (s : lexicographic_subset) (game : ℕ → FReal)
      (visited : List (ℕ × CoalitionInfo)) (b : ℕ),
      s.n = n → s.bits = b → s.has_next = true → 1 ≤ b → b < 2 ^ n →
      2 ^ n - b < fuel →
      (analyzeLoop P fuel s game visited).2
          = visited ++ (List.range' b (2 ^ n - b)).map
              (fun cid => (cid, coalInfoFor P cid)) ∧
      (∀ c, (analyzeLoop P fuel s game visited).1 c
          = if b ≤ c ∧ c < 2 ^ n then gameValueFor P c else game c) := by
  intro fuel
  induction fuel with
  | zero =>
    intro s game visited b _ _ _ _ _ hfuel
    omega
  | succ fuel ih =>
    intro s game visited b hsn hsb hsnext hb1 hb2 hfuel
    rw [analyzeLoop]
    rw [hsnext]
    simp only [if_true, hsb, make_coalition_id_decodeList]
    by_cases hlast : b = 2 ^ n - 1
    · -- the final subset: the successor state is dead and the loop stops
      have hcount : bitCount n b = n := by
        rw [hlast]
        exact (bitCount_eq_iff n (2 ^ n - 1) (by omega)).mpr rfl
      have hnext : s.incCore.has_next = false := by
        simp only [lexicographic_subset.incCore, hsn, hsb, hcount]
        simp
      have hstop : ∀ g v, analyzeLoop P fuel s.incCore g v = (g, v) := by
        intro g v
        cases fuel with
        | zero => rfl
        | succ fuel2 =>
          rw [analyzeLoop, hnext]
          simp
      rw [hstop]
      constructor
      · rw [hlast]
        simp only
        have : 2 ^ n - (2 ^ n - 1) = 1 := by omega
        rw [this]
        rfl
      · intro c
        simp only
        by_cases hc : c = b
        · subst hc
          rw [if_pos rfl, if_pos (by omega)]
        · rw [if_neg hc, if_neg (by omega)]
    · -- advance to b + 1
      have hcount : bitCount n b < n := bitCount_lt n b hb2 hlast
      have hfields : s.incCore.n = n ∧ s.incCore.bits = b + 1 ∧
          s.incCore.has_next = true := by
        simp only [lexicographic_subset.incCore, hsn, hsb]
        rw [decide_eq_true hcount]
        simp
      obtain ⟨hf1, hf2, hf3⟩ := hfields
      obtain ⟨ihv, ihg⟩ := ih s.incCore
        (fun c => if c = b then gameValueFor P b else game c)
        (visited ++ [(b, coalInfoFor P b)]) (b + 1) hf1 hf2 hf3 (by omega)
        (by omega) (by omega)
      constructor
      · rw [ihv]
        have hrange : List.range' b (2 ^ n - b) = b :: List.range' (b + 1) (2 ^ n - (b + 1)) := by
          have h1 : 2 ^ n - b = (2 ^ n - (b + 1)) + 1 := by omega
          rw [h1, List.range'_succ]
        rw [hrange]
        simp
      · intro c
        rw [ihg c]
        by_cases hc1 : b + 1 ≤ c ∧ c < 2 ^ n
        · rw [if_pos hc1, if_pos (by omega)]
        · rw [if_neg hc1]
          by_cases hc2 : c = b
          · subst hc2
            rw [if_pos rfl, if_pos (by omega)]
          · rw [if_neg hc2, if_neg (by omega)]

/-! ### dcs/fgt/coalition_formation/nash_stable.hpp : the Nash-stable selector

`std::map::at` throws `std::out_of_range` on a missing key; the embedding
returns `Except MapErr` and distinguishes a miss in `visited_coalitions`
(`atVisited`) from a miss in a coalition's `payoffs` map (`atPayoff`).
`operator[]` reads with a default and `count` probes are `List.lookup`. -/

inductive MapErr where
  | atVisited : MapErr
  | atPayoff : MapErr
deriving DecidableEq, Repr

instance instDecEqExcept {ε α : Type} [DecidableEq ε] [DecidableEq α] :
    DecidableEq (Except ε α) := fun a b =>
  match a, b with
  | Except.error e1, Except.error e2 =>
    if h : e1 = e2 then isTrue (by rw [h])
    else isFalse (fun hh => h (by injection hh))
  | Except.error _, Except.ok _ => isFalse (fun hh => Except.noConfusion hh)
  | Except.ok _, Except.error _ => isFalse (fun hh => Except.noConfusion hh)
  | Except.ok a1, Except.ok a2 =>
    if h : a1 = a2 then isTrue (by rw [h])
    else isFalse (fun hh => h (by injection hh))

/-- `visited_coalitions.at(cid)`. -/
def mapAt (m : List (ℕ × CoalitionInfo)) (k : ℕ) : Except MapErr CoalitionInfo :=
  match m.lookup k with
  | some v => Except.ok v
  | none => Except.error MapErr.atVisited

/-- `info.payoffs.at(pid)`. -/
def payoffAtE (info : CoalitionInfo) (pid : ℕ) : Except MapErr ℚ :=
  match info.payoffs.lookup pid with
  | some v => Except.ok v
  | none => Except.error MapErr.atPayoff

/-- A `for (...; cond && ...)` loop that keeps a boolean and exits early on
`false` (the `nash_stable` flag pattern of `check_nash_stability`). -/
def allE {α : Type} (f : α → Except MapErr Bool) : List α → Except MapErr Bool
  | [] => Except.ok true
  | x :: xs =>
    match f x with
    | Except.error e => Except.error e
    | Except.ok true => allE f xs
    | Except.ok false => Except.ok false

/-- One alternative-coalition test of `check_nash_stability`
(nash_stable.hpp:292-306): augment `cid2` with player `pid`; the partition is
not Nash stable if the augmented coalition has no payoff entry for `pid` or
its payoff for `pid` is definitely greater than the payoff in `cid1`; the
second comparison operand `visited_coalitions.at(cid1).payoffs.at(pid)` can
throw. -/
def checkDeviation (visited : List (ℕ × CoalitionInfo)) (cid1 pid cid2 : ℕ) :
    Except MapErr Bool :=
  match mapAt visited (make_coalition_id (decodeList cid2 ++ [pid])) with
  | Except.error e => Except.error e
  | Except.ok i2 =>
    match i2.payoffs.lookup pid with
    | none => Except.ok false
    | some p2 =>
      match mapAt visited cid1 with
      | Except.error e => Except.error e
      | Except.ok i1 =>
        match payoffAtE i1 pid with
        | Except.error e => Except.error e
        | Except.ok p1 =>
          Except.ok (!definitely_greater (FReal.val p2) (FReal.val p1) tolerance)

/-- The singleton-deviation test of `check_nash_stability`
(nash_stable.hpp:309-325). -/
def checkSingleton (visited : List (ℕ × CoalitionInfo)) (cid1 pid : ℕ) :
    Except MapErr Bool :=
  match mapAt visited (make_coalition_id [pid]) with
  | Except.error e => Except.error e
  | Except.ok i2 =>
    match i2.payoffs.lookup pid with
    | none => Except.ok false
    | some p2 =>
      match mapAt visited cid1 with
      | Except.error e => Except.error e
      | Except.ok i1 =>
        match payoffAtE i1 pid with
        | Except.error e => Except.error e
        | Except.ok p1 =>
          Except.ok (!definitely_greater (FReal.val p2) (FReal.val p1) tolerance)

/-- `nash_stable_partition_selector_t::check_nash_stability`
(nash_stable.hpp:246-331): for every coalition of the partition, for every
player of that coalition, no deviation to another block of the partition nor
to the singleton coalition is profitable; all loops exit early once
`nash_stable` turns false. -/
def check_nash_stability (game : ℕ → FReal) (visited : List (ℕ × CoalitionInfo))
    (partition : List ℕ) : Except MapErr Bool :=
  allE (fun cid1 =>
      allE (fun pid =>
          match allE (fun cid2 =>
              if cid2 = cid1 then Except.ok true
              else checkDeviation visited cid1 pid cid2) partition with
          | Except.error e => Except.error e
          | Except.ok true => checkSingleton visited cid1 pid
          | Except.ok false => Except.ok false)
        (decodeList cid1))
    partition

/-- `partition_info_t` (commons.hpp): `std::set` of cids as a sorted list,
`std::map` of payoffs as a sorted association list. -/
structure PartitionInfo where
  value : FReal
  coalitions : List ℕ
  payoffs : List (ℕ × FReal)
deriving DecidableEq, Repr

/-- `std::set<cid>::insert`. -/
def insertSorted (x : ℕ) : List ℕ → List ℕ
  | [] => [x]
  | y :: ys =>
    if x < y then x :: y :: ys else if x = y then y :: ys else y :: insertSorted x ys

/-- `std::map<pid, RealT>::operator[] = v` (insert or assign). -/
def mapInsert (m : List (ℕ × FReal)) (k : ℕ) (v : FReal) : List (ℕ × FReal) :=
  match m with
  | [] => [(k, v)]
  | (k0, v0) :: rest =>
    if k < k0 then (k, v) :: (k0, v0) :: rest
    else if k = k0 then (k, v) :: rest
    else (k0, v0) :: mapInsert rest k v

/-- One block of the candidate-partition construction
(nash_stable.hpp:203-228): skip blocks whose cid was never visited; otherwise
add the game value, insert the cid, and record each member's payoff (NaN when
the visited coalition has none). -/
def candStep (game : ℕ → FReal) (visited : List (ℕ × CoalitionInfo))
    (acc : PartitionInfo) (subset : List ℕ) : PartitionInfo :=
  let cid := make_coalition_id subset
  match visited.lookup cid with
  | none => acc
  | some info =>
    { value := fadd acc.value (game cid)
    , coalitions := insertSorted cid acc.coalitions
    , payoffs := subset.foldl (fun m pid =>
        mapInsert m pid (match info.payoffs.lookup pid with
          | some p => FReal.val p
          | none => FReal.nan)) acc.payoffs }

/-- `alg::next_partition`'s block decomposition of a restricted-growth string
(partition.hpp:196-210): block `b` holds the players `i` with
`kappa[i] = b`, blocks indexed `0 … max kappa`. -/
def subsetsOfKappa (kappa : List ℕ) : List (List ℕ) :=
  (List.range (kappa.foldl max 0 + 1)).map (fun b =>
    (List.range kappa.length).filter (fun i => kappa.getD i 0 = b))

/-- The candidate partition built for one enumerated partition
(nash_stable.hpp:200-228); `value` starts from the explicit `0` assignment of
line 202, overriding the `-inf` default of `partition_info_t`. -/
def buildCandidate (game : ℕ → FReal) (visited : List (ℕ × CoalitionInfo))
    (kappa : List ℕ) : PartitionInfo :=
  (subsetsOfKappa kappa).foldl (candStep game visited)
    { value := FReal.val 0, coalitions := [], payoffs := [] }

/-- The partition-enumeration loop of
`nash_stable_partition_selector_t::operator()` (nash_stable.hpp:193-241). -/
def selLoop (game : ℕ → FReal) (visited : List (ℕ × CoalitionInfo)) :
    List (List ℕ) → Except MapErr (List PartitionInfo)
  | [] => Except.ok []
  | kappa :: rest =>
    match check_nash_stability game visited (buildCandidate game visited kappa).coalitions with
    | Except.error e => Except.error e
    | Except.ok ok =>
      match selLoop game visited rest with
      | Except.error e => Except.error e
      | Except.ok tail =>
        Except.ok (if ok then buildCandidate game visited kappa :: tail else tail)

/-- `nash_stable_partition_selector_t::operator()` (nash_stable.hpp:179-244):
enumerate all partitions of the `np` players with `lexicographic_partition`
and keep the Nash-stable candidates. -/
def nash_stable_partition_selector (game : ℕ → FReal)
    (visited : List (ℕ × CoalitionInfo)) (np : ℕ) : Except MapErr (List PartitionInfo) :=
  selLoop game visited (enumPartitions np)

/-! ### Lemmas about the selector -/

/-- The payoff recorded in `visited_coalitions` for player `pid` in coalition
`cid`, when both lookups succeed. -/
def payoffAt (visited : List (ℕ × CoalitionInfo)) (cid pid : ℕ) : Option ℚ :=
  (visited.lookup cid).bind (fun i => i.payoffs.lookup pid)

theorem mapAt_ok {m : List (ℕ × CoalitionInfo)} {k : ℕ} {i : CoalitionInfo} :
    mapAt m k = Except.ok i ↔ m.lookup k = some i := by
  constructor
  · intro hm
    unfold mapAt at hm
    split at hm
    · rename_i v heq
      injection hm with h2
      rw [heq, h2]
    · simp at hm
  · intro hl
    unfold mapAt
    rw [hl]

theorem mapAt_error {m : List (ℕ × CoalitionInfo)} {k : ℕ} {e : MapErr}
    (h : mapAt m k = Except.error e) : m.lookup k = none ∧ e = MapErr.atVisited := by
  unfold mapAt at h
  split at h
  · simp at h
  · rename_i heq
    injection h with h2
    exact ⟨heq, h2.symm⟩

theorem payoffAtE_ok {i : CoalitionInfo} {pid : ℕ} {q : ℚ} :
    payoffAtE i pid = Except.ok q ↔ i.payoffs.lookup pid = some q := by
  constructor
  · intro hm
    unfold payoffAtE at hm
    split at hm
    · rename_i v heq
      injection hm with h2
      rw [heq, h2]
    · simp at hm
  · intro hl
    unfold payoffAtE
    rw [hl]

theorem payoffAtE_error {i : CoalitionInfo} {pid : ℕ} {e : MapErr}
    (h : payoffAtE i pid = Except.error e) :
    i.payoffs.lookup pid = none ∧ e = MapErr.atPayoff := by
  unfold payoffAtE at h
  split at h
  · simp at h
  · rename_i heq
    injection h with h2
    exact ⟨heq, h2.symm⟩

theorem allE_ok_true {α : Type} (f : α → Except MapErr Bool) :
    ∀ l : List α, allE f l = Except.ok true → ∀ x ∈ l, f x = Except.ok true := by
  intro l
  induction l with
  | nil =>
    intro _ x hx
    simp at hx
  | cons a l ih =>
    intro h x hx
    rw [allE] at h
    split at h
    · simp at h
    · rename_i heq
      rcases List.mem_cons.mp hx with rfl | hx2
      · exact heq
      · exact ih h x hx2
    · simp at h

theorem allE_error {α : Type} (f : α → Except MapErr Bool) :
    ∀ (l : List α) (e : MapErr), allE f l = Except.error e →
      ∃ x ∈ l, f x = Except.error e := by
  intro l
  induction l with
  | nil =>
    intro e h
    simp [allE] at h
  | cons a l ih =>
    intro e h
    rw [allE] at h
    split at h
    · rename_i e2 heq
      injection h with h2
      exact ⟨a, List.mem_cons_self a l, by rw [heq, h2]⟩
    · rename_i heq
      obtain ⟨x, hx, hfx⟩ := ih e h
      exact ⟨x, List.mem_cons_of_mem a hx, hfx⟩
    · simp at h

theorem checkDeviation_ok_true {visited : List (ℕ × CoalitionInfo)} {cid1 pid cid2 : ℕ}
    (h : checkDeviation visited cid1 pid cid2 = Except.ok true) :
    ∃ q2 q1,
      payoffAt visited (make_coalition_id (decodeList cid2 ++ [pid])) pid = some q2 ∧
      payoffAt visited cid1 pid = some q1 ∧
      definitely_greater (FReal.val q2) (FReal.val q1) tolerance = false := by
  unfold checkDeviation at h
  split at h
  · simp at h
  · rename_i i2 heq2
    split at h
    · simp at h
    · rename_i p2 hp2
      split at h
      · simp at h
      · rename_i i1 heq1
        split at h
        · simp at h
        · rename_i p1 hp1
          injection h with h2
          refine ⟨p2, p1, ?_, ?_, ?_⟩
          · rw [payoffAt, mapAt_ok.mp heq2]
            exact hp2
          · rw [payoffAt, mapAt_ok.mp heq1]
            exact payoffAtE_ok.mp hp1
          · rcases Bool.eq_false_or_eq_true
              (definitely_greater (FReal.val p2) (FReal.val p1) tolerance) with hg | hg
            · rw [hg] at h2
              simp at h2
            · exact hg

theorem checkSingleton_ok_true {visited : List (ℕ × CoalitionInfo)} {cid1 pid : ℕ}
    (h : checkSingleton visited cid1 pid = Except.ok true) :
    ∃ q2 q1,
      payoffAt visited (make_coalition_id [pid]) pid = some q2 ∧
      payoffAt visited cid1 pid = some q1 ∧
      definitely_greater (FReal.val q2) (FReal.val q1) tolerance = false := by
  unfold checkSingleton at h
  split at h
  · simp at h
  · rename_i i2 heq2
    split at h
    · simp at h
    · rename_i p2 hp2
      split at h
      · simp at h
      · rename_i i1 heq1
        split at h
        · simp at h
        · rename_i p1 hp1
          injection h with h2
          refine ⟨p2, p1, ?_, ?_, ?_⟩
          · rw [payoffAt, mapAt_ok.mp heq2]
            exact hp2
          · rw [payoffAt, mapAt_ok.mp heq1]
            exact payoffAtE_ok.mp hp1
          · rcases Bool.eq_false_or_eq_true
              (definitely_greater (FReal.val p2) (FReal.val p1) tolerance) with hg | hg
            · rw [hg] at h2
              simp at h2
            · exact hg

theorem checkDeviation_not_atVisited {visited : List (ℕ × CoalitionInfo)} {cid1 pid cid2 : ℕ}
    (h1 : (visited.lookup (make_coalition_id (decodeList cid2 ++ [pid]))).isSome)
    (h2 : (visited.lookup cid1).isSome) :
    checkDeviation visited cid1 pid cid2 ≠ Except.error MapErr.atVisited := by
  intro h
  unfold checkDeviation at h
  split at h
  · rename_i e heq
    rw [(mapAt_error heq).1] at h1
    simp at h1
  · rename_i i2 heq2
    split at h
    · simp at h
    · rename_i p2 hp2
      split at h
      · rename_i e heq
        rw [(mapAt_error heq).1] at h2
        simp at h2
      · rename_i i1 heq1
        split at h
        · rename_i e heq
          injection h with h3
          rw [(payoffAtE_error heq).2] at h3
          exact absurd h3 (by simp)
        · simp at h

theorem checkSingleton_not_atVisited {visited : List (ℕ × CoalitionInfo)} {cid1 pid : ℕ}
    (h1 : (visited.lookup (make_coalition_id [pid])).isSome)
    (h2 : (visited.lookup cid1).isSome) :
    checkSingleton visited cid1 pid ≠ Except.error MapErr.atVisited := by
  intro h
  unfold checkSingleton at h
  split at h
  · rename_i e heq
    rw [(mapAt_error heq).1] at h1
    simp at h1
  · rename_i i2 heq2
    split at h
    · simp at h
    · rename_i p2 hp2
      split at h
      · rename_i e heq
        rw [(mapAt_error heq).1] at h2
        simp at h2
      · rename_i i1 heq1
        split at h
        · rename_i e heq
          injection h with h3
          rw [(payoffAtE_error heq).2] at h3
          exact absurd h3 (by simp)
        · simp at h

theorem check_nash_stability_ok_true {game : ℕ → FReal}
    {visited : List (ℕ × CoalitionInfo)} {partition : List ℕ}
    (h : check_nash_stability game visited partition = Except.ok true) :
    ∀ cid1 ∈ partition, ∀ pid ∈ decodeList cid1,
      (∀ cid2 ∈ partition, cid2 ≠ cid1 →
        checkDeviation visited cid1 pid cid2 = Except.ok true) ∧
      checkSingleton visited cid1 pid = Except.ok true := by
  intro cid1 hc1 pid hpid
  have h1 := allE_ok_true _ partition h cid1 hc1
  have h2 := allE_ok_true _ (decodeList cid1) h1 pid hpid
  rcases hA : allE (fun cid2 =>
      if cid2 = cid1 then Except.ok true
      else checkDeviation visited cid1 pid cid2) partition with e | b
  · rw [hA] at h2
    simp at h2
  · rw [hA] at h2
    cases b with
    | false => simp at h2
    | true =>
      refine ⟨?_, h2⟩
      intro cid2 hc2 hne
      have h3 := allE_ok_true _ partition hA cid2 hc2
      rw [if_neg hne] at h3
      exact h3

theorem check_nash_stability_error {game : ℕ → FReal}
    {visited : List (ℕ × CoalitionInfo)} {partition : List ℕ} {e : MapErr}
    (h : check_nash_stability game visited partition = Except.error e) :
    ∃ cid1 ∈ partition, ∃ pid ∈ decodeList cid1,
      (∃ cid2 ∈ partition, cid2 ≠ cid1 ∧
        checkDeviation visited cid1 pid cid2 = Except.error e) ∨
      checkSingleton visited cid1 pid = Except.error e := by
  obtain ⟨cid1, hc1, h1⟩ := allE_error _ partition e h
  obtain ⟨pid, hpid, h2⟩ := allE_error _ (decodeList cid1) e h1
  rcases hA : allE (fun cid2 =>
      if cid2 = cid1 then Except.ok true
      else checkDeviation visited cid1 pid cid2) partition with e2 | b
  · rw [hA] at h2
    injection h2 with he
    obtain ⟨cid2, hc2, h3⟩ := allE_error _ partition e2 hA
    by_cases heq : cid2 = cid1
    · rw [if_pos heq] at h3
      simp at h3
    · rw [if_neg heq] at h3
      subst he
      exact ⟨cid1, hc1, pid, hpid, Or.inl ⟨cid2, hc2, heq, h3⟩⟩
  · rw [hA] at h2
    cases b with
    | false => simp at h2
    | true => exact ⟨cid1, hc1, pid, hpid, Or.inr h2⟩

theorem mem_insertSorted {x y : ℕ} :
    ∀ {l : List ℕ}, x ∈ insertSorted y l → x = y ∨ x ∈ l := by
  intro l
  induction l with
  | nil =>
    intro h
    rw [insertSorted] at h
    rcases List.mem_singleton.mp h with rfl
    exact Or.inl rfl
  | cons a l ih =>
    intro h
    rw [insertSorted] at h
    split at h
    · rcases List.mem_cons.mp h with rfl | h2
      · exact Or.inl rfl
      · exact Or.inr h2
    · split at h
      · exact Or.inr h
      · rcases List.mem_cons.mp h with rfl | h2
        · exact Or.inr (List.mem_cons_self _ _)
        · rcases ih h2 with h3 | h3
          · exact Or.inl h3
          · exact Or.inr (List.mem_cons_of_mem _ h3)

theorem buildCandidate_coalition_mem {game : ℕ → FReal}
    {visited : List (ℕ × CoalitionInfo)} :
    ∀ (subsets : List (List ℕ)) (acc : PartitionInfo) (cid : ℕ),
      cid ∈ (subsets.foldl (candStep game visited) acc).coalitions →
      cid ∈ acc.coalitions ∨ (visited.lookup cid).isSome := by
  intro subsets
  induction subsets with
  | nil =>
    intro acc cid h
    exact Or.inl h
  | cons s rest ih =>
    intro acc cid h
    simp only [List.foldl_cons] at h
    rcases ih _ cid h with h2 | h2
    · simp only [candStep] at h2
      rcases hl : List.lookup (make_coalition_id s) visited with _ | info
      · rw [hl] at h2
        exact Or.inl h2
      · rw [hl] at h2
        rcases mem_insertSorted h2 with rfl | h3
        · exact Or.inr (by rw [hl]; rfl)
        · exact Or.inl h3
    · exact Or.inr h2

theorem selLoop_ok_mem {game : ℕ → FReal} {visited : List (ℕ × CoalitionInfo)} :
    ∀ (ks : List (List ℕ)) (ps : List PartitionInfo),
      selLoop game visited ks = Except.ok ps →
      ∀ part ∈ ps,
        check_nash_stability game visited part.coalitions = Except.ok true ∧
        ∀ cid ∈ part.coalitions, (visited.lookup cid).isSome := by
  intro ks
  induction ks with
  | nil =>
    intro ps h part hp
    rw [selLoop] at h
    injection h with h2
    rw [← h2] at hp
    simp at hp
  | cons kappa rest ih =>
    intro ps h part hp
    rw [selLoop] at h
    split at h
    · simp at h
    · rename_i ok heq
      split at h
      · simp at h
      · rename_i tail heq2
        injection h with h2
        rw [← h2] at hp
        cases ok with
        | false =>
          rw [if_neg (by simp)] at hp
          exact ih tail heq2 part hp
        | true =>
          rw [if_pos rfl] at hp
          rcases List.mem_cons.mp hp with rfl | hp2
          · refine ⟨heq, ?_⟩
            intro cid hcid
            rcases buildCandidate_coalition_mem (subsetsOfKappa kappa) _ cid hcid with h3 | h3
            · simp at h3
            · exact h3
          · exact ih tail heq2 part hp2

theorem selLoop_error {game : ℕ → FReal} {visited : List (ℕ × CoalitionInfo)} :
    ∀ (ks : List (List ℕ)) (e : MapErr), selLoop game visited ks = Except.error e →
      ∃ kappa ∈ ks,
        check_nash_stability game visited (buildCandidate game visited kappa).coalitions
          = Except.error e := by
  intro ks
  induction ks with
  | nil =>
    intro e h
    rw [selLoop] at h
    simp at h
  | cons kappa rest ih =>
    intro e h
    rw [selLoop] at h
    split at h
    · rename_i e2 heq
      injection h with h2
      exact ⟨kappa, List.mem_cons_self _ _, by rw [heq, h2]⟩
    · rename_i ok heq
      split at h
      · rename_i e2 heq2
        injection h with h2
        obtain ⟨k2, hk2, h3⟩ := ih e2 heq2
        exact ⟨k2, List.mem_cons_of_mem _ hk2, by rw [h3, h2]⟩
      · simp at h

theorem lookup_isSome_iff {β : Type} (l : List (ℕ × β)) (k : ℕ) :
    (l.lookup k).isSome ↔ k ∈ l.map Prod.fst := by
  induction l with
  | nil => simp [List.lookup]
  | cons p l ih =>
    by_cases h : k = p.1
    · simp [List.lookup, h]
    · simp [List.lookup, h, beq_false_of_ne h, ih]

theorem lookup_map_range' (g : ℕ → CoalitionInfo) :
    ∀ (len a k : ℕ), a ≤ k → k < a + len →
      ((List.range' a len).map (fun c => (c, g c))).lookup k = some (g k) := by
  intro len
  induction len with
  | zero =>
    intro a k h1 h2
    omega
  | succ len ih =>
    intro a k h1 h2
    rw [List.range'_succ]
    simp only [List.map_cons, List.lookup]
    by_cases h : k = a
    · subst h
      simp
    · rw [beq_false_of_ne h]
      exact ih (a + 1) k (by omega) (by omega)

/-- Instantiation of the loop lemma to `analyze_coalitions` itself. -/
theorem analyze_coalitions_spec (P : AnalyzeParams) (hn : 1 ≤ P.num_fps) :
    (analyze_coalitions P).2
        = (List.range' 1 (2 ^ P.num_fps - 1)).map
            (fun cid => (cid, coalInfoFor P cid)) ∧
    (∀ c, (analyze_coalitions P).1 c
        = if 1 ≤ c ∧ c < 2 ^ P.num_fps then gameValueFor P c else P.v0 c) := by
  have h2 : 1 < 2 ^ P.num_fps := by
    have : 2 ^ 1 ≤ 2 ^ P.num_fps := Nat.pow_le_pow_right (by omega) hn
    omega
  obtain ⟨h1, hg⟩ := analyzeLoop_spec P P.num_fps hn (2 ^ P.num_fps)
    (lexicographic_subset.init P.num_fps false) P.v0 [] 1 rfl rfl
    (by simp [lexicographic_subset.init]; omega) (by omega) (by omega) (by omega)
  exact ⟨by simpa using h1, hg⟩

theorem make_coalition_id_append_single (l : List ℕ) (p : ℕ) :
    make_coalition_id (l ++ [p]) = make_coalition_id l ||| 2 ^ p := by
  simp [make_coalition_id, List.foldl_append]

theorem decodeList_nodup (v : ℕ) : (decodeList v).Nodup :=
  (List.nodup_range v).filter _

theorem foldl_sub_eq (f : ℕ → ℚ) :
    ∀ (l : List ℕ) (q : ℚ), l.foldl (fun c fp => c - f fp) q = q - (l.map f).sum := by
  intro l
  induction l with
  | nil => intro q; simp
  | cons x l ih =>
    intro q
    simp only [List.foldl_cons, List.map_cons, List.sum_cons]
    rw [ih]
    ring

theorem sum_filter_split (g : ℕ → ℚ) (f : ℕ → ℕ) (fp : ℕ) (fps : List ℕ)
    (hfp : fp ∉ fps) :
    ∀ l : List ℕ,
      ((l.filter (fun s => decide (f s = fp))).map g).sum
        + ((l.filter (fun s => decide (f s ∈ fps))).map g).sum
      = ((l.filter (fun s => decide (f s ∈ fp :: fps))).map g).sum := by
  intro l
  induction l with
  | nil => simp
  | cons a l ih =>
    simp only [List.filter_cons]
    by_cases h1 : f a = fp
    · have h2 : f a ∉ fps := by rw [h1]; exact hfp
      rw [if_pos (by simp [h1]), if_neg (by simp [h2]), if_pos (by simp [h1])]
      simp only [List.map_cons, List.sum_cons]
      rw [← ih]
      ring
    · by_cases h2 : f a ∈ fps
      · have h3 : f a ∈ fp :: fps := List.mem_cons_of_mem _ h2
        rw [if_neg (by simp [h1]), if_pos (by simp [h2]), if_pos (by simp [h3])]
        simp only [List.map_cons, List.sum_cons]
        rw [← ih]
        ring
      · have h3 : f a ∉ fp :: fps := by simp [h1, h2]
        rw [if_neg (by simp [h1]), if_neg (by simp [h2]), if_neg (by simp [h3])]
        exact ih

theorem sum_flatMap_filter (g : ℕ → ℚ) (f : ℕ → ℕ) (m : ℕ) :
    ∀ fps : List ℕ, fps.Nodup →
      ((fps.flatMap (fun fp => (List.range m).filter (fun s => decide (f s = fp)))).map g).sum
        = (((List.range m).filter (fun s => decide (f s ∈ fps))).map g).sum := by
  intro fps
  induction fps with
  | nil => simp
  | cons fp fps ih =>
    intro hnd
    simp only [List.flatMap_cons, List.map_append, List.sum_append]
    rw [ih (List.nodup_cons.mp hnd).2,
      sum_filter_split g f fp fps (List.nodup_cons.mp hnd).1]

/-! ### Claim theorems for analyze_coalitions and the selector -/

/-- A one-FP run whose only coalition is infeasible, for exhibiting the
unsolved-branch behaviour. -/
def analyzeParamsUnsolved : AnalyzeParams :=
  { num_fps := 1
  , svc_fps := []
  , svc_categories := []
  , fp_svc_revenues := fun _ _ => 0
  , fp_coalition_costs := fun _ => 0
  , coalition_duration := 1
  , solver := fun _ => { solved := false, objective_value := 0 }
  , v0 := fun _ => FReal.val 0
  , coreEmptyO := fun _ => false
  , inCoreO := fun _ => false
  , shapleyO := fun _ => [] }

/-- C1: the spec says an unsolved coalition gets the sentinel `v(S) = -∞` in
the game and in `visited_coalitions`, with an empty payoff map.  The code
instead stores `-std::numeric_limits<double>::min()` — the negated smallest
positive normal, about `-2.2e-308`, not `-infinity` — in the game
(experiment.hpp:1802), and never assigns `visited_coalitions[cid].value` in
the unsolved branch, leaving the constructor's NaN.  Only the empty payoff
map matches the spec. -/
theorem C1_unsolved_sentinel_divergence :
    (analyze_coalitions analyzeParamsUnsolved).1 1 = FReal.val (-dbl_min) ∧
    FReal.val (-dbl_min) ≠ FReal.ninf ∧
    ((analyze_coalitions analyzeParamsUnsolved).2.lookup 1).map CoalitionInfo.value
      = some FReal.nan ∧
    FReal.nan ≠ FReal.ninf ∧
    ((analyze_coalitions analyzeParamsUnsolved).2.lookup 1).map CoalitionInfo.payoffs
      = some [] := by
  obtain ⟨hv, hg⟩ := analyze_coalitions_spec analyzeParamsUnsolved (by decide)
  refine ⟨?_, ?_, ?_, ?_, ?_⟩
  · rw [hg 1, if_pos (by decide)]
    rfl
  · intro h
    exact FReal.noConfusion h
  · rw [hv]
    rfl
  · intro h
    exact FReal.noConfusion h
  · rw [hv]
    rfl

/-- C4: for every coalition whose optimizer call returned `solved = true`, the
value stored in `visited_coalitions` is `(revenue - cost) * Δt`, with
`revenue` the sum of `svc_revenue(fp(s), svc_cat(s))` over the services owned
by the members of the coalition, `cost` the optimizer objective minus the sum
of the members' coalition costs when the coalition has more than one member
(the unmodified objective otherwise), and `Δt` the coalition-formation
interval length. -/
theorem C4_solved_coalition_value (P : AnalyzeParams) (cid : ℕ) (hn : 1 ≤ P.num_fps)
    (h1 : 1 ≤ cid) (h2 : cid < 2 ^ P.num_fps)
    (hs : (P.solver (decodeList cid)).solved = true) :
    (analyze_coalitions P).2.lookup cid = some (coalInfoFor P cid) ∧
    (coalInfoFor P cid).value = FReal.val
      (((((List.range P.svc_fps.length).filter
            (fun svc => decide (P.svc_fps.getD svc 0 ∈ decodeList cid))).map
            (fun svc => P.fp_svc_revenues (P.svc_fps.getD svc 0)
              (P.svc_categories.getD svc 0))).sum
        - ((P.solver (decodeList cid)).objective_value
            - (if 1 < (decodeList cid).length
               then ((decodeList cid).map P.fp_coalition_costs).sum else 0)))
        * P.coalition_duration) := by
  constructor
  · rw [(analyze_coalitions_spec P hn).1]
    exact lookup_map_range' _ (2 ^ P.num_fps - 1) 1 cid h1 (by omega)
  · simp only [coalInfoFor]
    rw [if_pos hs]
    simp only [coalProfit, coal_svcsFor]
    have hsum := sum_flatMap_filter
      (fun svc => P.fp_svc_revenues (P.svc_fps.getD svc 0) (P.svc_categories.getD svc 0))
      (fun svc => P.svc_fps.getD svc 0) P.svc_fps.length
      (decodeList cid) (decodeList_nodup cid)
    simp only [] at hsum
    rw [hsum]
    by_cases hlen : 1 < (decodeList cid).length
    · rw [if_pos hlen, if_pos hlen, foldl_sub_eq]
    · rw [if_neg hlen, if_neg hlen]
      norm_num

/-- A one-FP run whose only coalition is solved, giving a normal
selector return for the witnesses. -/
def analyzeParamsSolved : AnalyzeParams :=
  { num_fps := 1
  , svc_fps := [0]
  , svc_categories := [0]
  , fp_svc_revenues := fun _ _ => 5
  , fp_coalition_costs := fun _ => 1
  , coalition_duration := 2
  , solver := fun _ => { solved := true, objective_value := 3 }
  , v0 := fun _ => FReal.val 0
  , coreEmptyO := fun _ => false
  , inCoreO := fun _ => true
  , shapleyO := fun cid => if cid = 1 then [(0, 4)] else [] }

/-- Witness for C4 on the concrete solved one-FP run. -/
theorem C4_solved_coalition_value_witness :
    (analyze_coalitions analyzeParamsSolved).2.lookup 1
        = some (coalInfoFor analyzeParamsSolved 1) ∧
    (coalInfoFor analyzeParamsSolved 1).value = FReal.val
      (((((List.range analyzeParamsSolved.svc_fps.length).filter
            (fun svc => decide (analyzeParamsSolved.svc_fps.getD svc 0 ∈ decodeList 1))).map
            (fun svc => analyzeParamsSolved.fp_svc_revenues
              (analyzeParamsSolved.svc_fps.getD svc 0)
              (analyzeParamsSolved.svc_categories.getD svc 0))).sum
        - ((analyzeParamsSolved.solver (decodeList 1)).objective_value
            - (if 1 < (decodeList 1).length
               then ((decodeList 1).map analyzeParamsSolved.fp_coalition_costs).sum else 0)))
        * analyzeParamsSolved.coalition_duration) :=
  C4_solved_coalition_value analyzeParamsSolved 1 (by decide) (by decide) (by decide) (by decide)

/-- C3: every partition returned by the Nash-stable selector is Nash stable:
each member `pid` of each block `cid1` has a recorded payoff `q1`, and neither
moving to another block of the partition nor to the singleton coalition gives
a payoff that is definitely greater (tolerance-aware) than `q1`. -/
theorem C3_returned_partitions_nash_stable (game : ℕ → FReal)
    (visited : List (ℕ × CoalitionInfo)) (np : ℕ) (ps : List PartitionInfo)
    (h : nash_stable_partition_selector game visited np = Except.ok ps) :
    ∀ part ∈ ps, ∀ cid1 ∈ part.coalitions, ∀ pid ∈ decodeList cid1,
      ∃ q1, payoffAt visited cid1 pid = some q1 ∧
        (∀ cid2 ∈ part.coalitions, cid2 ≠ cid1 →
          ∃ q2, payoffAt visited (make_coalition_id (decodeList cid2 ++ [pid])) pid
              = some q2 ∧
            definitely_greater (FReal.val q2) (FReal.val q1) tolerance = false) ∧
        (∃ q0, payoffAt visited (make_coalition_id [pid]) pid = some q0 ∧
          definitely_greater (FReal.val q0) (FReal.val q1) tolerance = false) := by
  intro part hp cid1 hc1 pid hpid
  obtain ⟨hcheck, _⟩ := selLoop_ok_mem (enumPartitions np) ps h part hp
  obtain ⟨hdev, hsing⟩ := check_nash_stability_ok_true hcheck cid1 hc1 pid hpid
  obtain ⟨q0, q1, hq0, hq1, hg⟩ := checkSingleton_ok_true hsing
  refine ⟨q1, hq1, ?_, ⟨q0, hq0, hg⟩⟩
  intro cid2 hc2 hne
  obtain ⟨q2, q1', hq2, hq1', hg2⟩ := checkDeviation_ok_true (hdev cid2 hc2 hne)
  have he : q1' = q1 := by
    have := hq1'.symm.trans hq1
    injection this
  exact ⟨q2, hq2, by rwa [he] at hg2⟩

theorem analyzeSolved_visited :
    (analyze_coalitions analyzeParamsSolved).2 = [(1, coalInfoFor analyzeParamsSolved 1)] := by
  rw [(analyze_coalitions_spec analyzeParamsSolved (by decide)).1]
  rfl

theorem analyzeSolved_game1 :
    (analyze_coalitions analyzeParamsSolved).1 1
      = FReal.val (coalProfit analyzeParamsSolved 1) := by
  rw [(analyze_coalitions_spec analyzeParamsSolved (by decide)).2 1, if_pos (by decide)]
  rfl

theorem coalProfit_solved_eval : coalProfit analyzeParamsSolved 1 = 4 := by
  have hd : decodeList 1 = [0] := by decide
  simp [coalProfit, coal_svcsFor, analyzeParamsSolved, hd]
  norm_num

theorem coalInfoFor_solved_eval :
    coalInfoFor analyzeParamsSolved 1 =
      { vm_allocation := { solved := true, objective_value := 3 }
      , value := FReal.val 4
      , core_empty := false
      , payoffs := [(0, 4)]
      , payoffs_in_core := true } := by
  simp only [coalInfoFor]
  rw [if_pos (show (analyzeParamsSolved.solver (decodeList 1)).solved = true from rfl),
    coalProfit_solved_eval]
  rfl

theorem selectorSolved_eval :
    nash_stable_partition_selector (analyze_coalitions analyzeParamsSolved).1
      (analyze_coalitions analyzeParamsSolved).2 1
      = Except.ok [⟨FReal.val 4, [1], [(0, FReal.val 4)]⟩] := by
  have hdg : definitely_greater (FReal.val 4) (FReal.val 4) tolerance = false := by
    simp [definitely_greater, fle]
  have hv := analyzeSolved_visited
  have henum : enumPartitions 1 = [[0]] := by decide
  have hsk : subsetsOfKappa [0] = [[0]] := by decide
  have hm1 : make_coalition_id [0] = 1 := by decide
  have hd1 : decodeList 1 = [0] := by decide
  have hcand : buildCandidate (analyze_coalitions analyzeParamsSolved).1
      (analyze_coalitions analyzeParamsSolved).2 [0]
      = ⟨FReal.val 4, [1], [(0, FReal.val 4)]⟩ := by
    rw [buildCandidate, hsk, hv]
    simp [candStep, hm1, coalInfoFor_solved_eval, List.lookup, analyzeSolved_game1,
      coalProfit_solved_eval, insertSorted, mapInsert, fadd]
  have hsing : checkSingleton (analyze_coalitions analyzeParamsSolved).2 1 0
      = Except.ok true := by
    rw [hv]
    simp [checkSingleton, mapAt, payoffAtE, hm1, coalInfoFor_solved_eval,
      List.lookup, hdg]
  have hcheck : check_nash_stability (analyze_coalitions analyzeParamsSolved).1
      (analyze_coalitions analyzeParamsSolved).2 [1] = Except.ok true := by
    simp [check_nash_stability, allE, hd1, hsing]
  rw [nash_stable_partition_selector, henum, selLoop, hcand, hcheck, selLoop]
  rfl

/-- Witness for C3 on the concrete solved one-FP run, at the returned
partition `{{0}}`, block `cid1 = 1`, player `pid = 0`. -/
theorem C3_returned_partitions_nash_stable_witness :
    ∃ q1, payoffAt (analyze_coalitions analyzeParamsSolved).2 1 0 = some q1 ∧
      (∀ cid2 ∈ (⟨FReal.val 4, [1], [(0, FReal.val 4)]⟩ : PartitionInfo).coalitions,
        cid2 ≠ 1 →
          ∃ q2, payoffAt (analyze_coalitions analyzeParamsSolved).2
              (make_coalition_id (decodeList cid2 ++ [0])) 0 = some q2 ∧
            definitely_greater (FReal.val q2) (FReal.val q1) tolerance = false) ∧
      (∃ q0, payoffAt (analyze_coalitions analyzeParamsSolved).2
          (make_coalition_id [0]) 0 = some q0 ∧
        definitely_greater (FReal.val q0) (FReal.val q1) tolerance = false) :=
  C3_returned_partitions_nash_stable (analyze_coalitions analyzeParamsSolved).1
    (analyze_coalitions analyzeParamsSolved).2 1
    [⟨FReal.val 4, [1], [(0, FReal.val 4)]⟩] selectorSolved_eval
    ⟨FReal.val 4, [1], [(0, FReal.val 4)]⟩ (List.mem_cons_self _ _)
    1 (List.mem_cons_self _ _) 0 (by decide)

/-- C2 (amended): when the selector returns normally, every coalition of
every returned partition was solved by the optimizer (its
`visited_coalitions` entry has `solved = true` and a non-empty payoff map) —
an unsolved coalition never belongs to a returned Nash-stable partition.  The
"no exception escapes the trigger" half of the original claim is false: see
`C2_exception_escapes_counterexample`. -/
theorem C2_returned_coalitions_solved (P : AnalyzeParams) (hn : 1 ≤ P.num_fps)
    (ps : List PartitionInfo)
    (h : nash_stable_partition_selector (analyze_coalitions P).1
        (analyze_coalitions P).2 P.num_fps = Except.ok ps) :
    ∀ part ∈ ps, ∀ cid ∈ part.coalitions,
      (analyze_coalitions P).2.lookup cid = some (coalInfoFor P cid) ∧
      (P.solver (decodeList cid)).solved = true ∧
      (coalInfoFor P cid).payoffs ≠ [] := by
  intro part hp cid hcid
  obtain ⟨hcheck, hmem⟩ := selLoop_ok_mem (enumPartitions P.num_fps) ps h part hp
  have hsome := hmem cid hcid
  have hkeys := (analyze_coalitions_spec P hn).1
  have hcidr : 1 ≤ cid ∧ cid < 2 ^ P.num_fps := by
    have hmem2 := (lookup_isSome_iff _ cid).mp hsome
    rw [hkeys] at hmem2
    simp only [List.map_map] at hmem2
    have hmem3 : cid ∈ List.range' 1 (2 ^ P.num_fps - 1) := by
      simpa using hmem2
    rw [List.mem_range'_1] at hmem3
    have h2 : 1 < 2 ^ P.num_fps := by
      have : 2 ^ 1 ≤ 2 ^ P.num_fps := Nat.pow_le_pow_right (by omega) hn
      omega
    omega
  have hlook : (analyze_coalitions P).2.lookup cid = some (coalInfoFor P cid) := by
    rw [hkeys]
    exact lookup_map_range' _ _ 1 cid hcidr.1 (by omega)
  have hdne : decodeList cid ≠ [] := by
    intro hnil
    exact absurd ((decodeList_nil_iff cid).mp hnil) (by omega)
  have hpid : ∃ pid, pid ∈ decodeList cid :=
    ⟨(decodeList cid).head hdne, List.head_mem hdne⟩
  obtain ⟨pid, hpidm⟩ := hpid
  obtain ⟨_, hsing⟩ := check_nash_stability_ok_true hcheck cid hcid pid hpidm
  obtain ⟨q0, q1, hq0, hq1, _⟩ := checkSingleton_ok_true hsing
  rw [payoffAt, hlook] at hq1
  simp only [Option.some_bind] at hq1
  have hne : (coalInfoFor P cid).payoffs ≠ [] := by
    intro hnil
    rw [hnil] at hq1
    simp [List.lookup] at hq1
  refine ⟨hlook, ?_, hne⟩
  rcases hsv : (P.solver (decodeList cid)).solved with _ | _
  · exfalso
    apply hne
    simp only [coalInfoFor]
    rw [if_neg (by simp [hsv])]
  · rfl

/-- Witness for the amended C2 on the concrete solved one-FP run, at the
returned partition `{{0}}` and its coalition `cid = 1`. -/
theorem C2_returned_coalitions_solved_witness :
    (analyze_coalitions analyzeParamsSolved).2.lookup 1
        = some (coalInfoFor analyzeParamsSolved 1) ∧
    (analyzeParamsSolved.solver (decodeList 1)).solved = true ∧
    (coalInfoFor analyzeParamsSolved 1).payoffs ≠ [] :=
  C2_returned_coalitions_solved analyzeParamsSolved (by decide)
    [⟨FReal.val 4, [1], [(0, FReal.val 4)]⟩] selectorSolved_eval
    ⟨FReal.val 4, [1], [(0, FReal.val 4)]⟩ (List.mem_cons_self _ _)
    1 (List.mem_cons_self _ _)

/-- A two-FP run where the lone coalition `{0}` is infeasible while `{0, 1}`
and `{1}` are solved: evaluating the partition `{{0}, {1}}` makes
`check_nash_stability` call `visited_coalitions.at(1).payoffs.at(0)` on the
empty payoff map of the unsolved coalition, which throws `std::out_of_range`;
the trigger handler (experiment.hpp:1514-1535, `analyze_coalitions` call
chain) has no handler for it. -/
def analyzeParamsThrow : AnalyzeParams :=
  { num_fps := 2
  , svc_fps := []
  , svc_categories := []
  , fp_svc_revenues := fun _ _ => 0
  , fp_coalition_costs := fun _ => 0
  , coalition_duration := 1
  , solver := fun fps =>
      if fps = [0] then { solved := false, objective_value := 0 }
      else { solved := true, objective_value := 0 }
  , v0 := fun _ => FReal.val 0
  , coreEmptyO := fun _ => false
  , inCoreO := fun _ => true
  , shapleyO := fun cid =>
      if cid = 3 then [(0, 1), (1, 1)] else if cid = 2 then [(1, 1)] else [] }

/-- C2 counterexample: with one unsolved coalition, the Nash-stability check
dereferences the unsolved coalition's empty payoff map with `.at` and the
resulting `std::out_of_range` escapes the selector (and hence the trigger,
which has no try/catch). -/
theorem C2_exception_escapes_counterexample :
    nash_stable_partition_selector (analyze_coalitions analyzeParamsThrow).1
      (analyze_coalitions analyzeParamsThrow).2 2 = Except.error MapErr.atPayoff := by
  decide

/-- C10: after the coalition-enumeration loop over `n ≥ 1` FPs,
`visited_coalitions` holds exactly the `2^n - 1` canonical ids of the
non-empty subsets of the players, every `.at`-style lookup for such an id
succeeds, and the selector never hits the out-of-range branch of
`visited_coalitions.at` (`atVisited`). -/
theorem C10_visited_coalitions_complete (P : AnalyzeParams) (hn : 1 ≤ P.num_fps) :
    ((analyze_coalitions P).2.map Prod.fst = List.range' 1 (2 ^ P.num_fps - 1)) ∧
    (∀ cid, 1 ≤ cid → cid < 2 ^ P.num_fps →
      ((analyze_coalitions P).2.lookup cid).isSome) ∧
    nash_stable_partition_selector (analyze_coalitions P).1 (analyze_coalitions P).2
      P.num_fps ≠ Except.error MapErr.atVisited := by
  have hkeys := (analyze_coalitions_spec P hn).1
  have h2n : 1 < 2 ^ P.num_fps := by
    have : 2 ^ 1 ≤ 2 ^ P.num_fps := Nat.pow_le_pow_right (by omega) hn
    omega
  have hkeysmap : (analyze_coalitions P).2.map Prod.fst
      = List.range' 1 (2 ^ P.num_fps - 1) := by
    rw [hkeys, List.map_map]
    exact List.map_id _
  have hsome : ∀ cid, 1 ≤ cid → cid < 2 ^ P.num_fps →
      ((analyze_coalitions P).2.lookup cid).isSome := by
    intro cid hc1 hc2
    rw [hkeys, lookup_map_range' _ _ 1 cid hc1 (by omega)]
    rfl
  have hrange : ∀ cid, ((analyze_coalitions P).2.lookup cid).isSome →
      1 ≤ cid ∧ cid < 2 ^ P.num_fps := by
    intro cid hs
    have hmem2 := (lookup_isSome_iff _ cid).mp hs
    rw [hkeysmap, List.mem_range'_1] at hmem2
    omega
  refine ⟨hkeysmap, hsome, ?_⟩
  intro herr
  obtain ⟨kappa, hk, hcheck⟩ := selLoop_error (enumPartitions P.num_fps) _ herr
  obtain ⟨cid1, hc1, pid, hpid, hbad⟩ := check_nash_stability_error hcheck
  have hc1some : ((analyze_coalitions P).2.lookup cid1).isSome := by
    rcases buildCandidate_coalition_mem (subsetsOfKappa kappa) _ cid1 hc1 with h3 | h3
    · simp at h3
    · exact h3
  have hc1r := hrange cid1 hc1some
  have hpidlt : pid < P.num_fps := decodeList_mem_lt hc1r.2 hpid
  rcases hbad with ⟨cid2, hc2, hne, hdev⟩ | hsing
  · have hc2some : ((analyze_coalitions P).2.lookup cid2).isSome := by
      rcases buildCandidate_coalition_mem (subsetsOfKappa kappa) _ cid2 hc2 with h3 | h3
      · simp at h3
      · exact h3
    have hc2r := hrange cid2 hc2some
    have hcid2' : make_coalition_id (decodeList cid2 ++ [pid]) = cid2 ||| 2 ^ pid := by
      rw [make_coalition_id_append_single, make_coalition_id_decodeList]
    refine checkDeviation_not_atVisited ?_ (hsome cid1 hc1r.1 hc1r.2) hdev
    rw [hcid2']
    refine hsome _ ?_ ?_
    · have hz : cid2 ||| 2 ^ pid ≠ 0 := lor_ne_zero_left (by omega)
      omega
    · exact Nat.or_lt_two_pow hc2r.2 (Nat.pow_lt_pow_right (by omega) hpidlt)
  · refine checkSingleton_not_atVisited ?_ (hsome cid1 hc1r.1 hc1r.2) hsing
    have hm : make_coalition_id [pid] = 2 ^ pid := by
      simp [make_coalition_id]
    rw [hm]
    refine hsome _ Nat.one_le_two_pow (Nat.pow_lt_pow_right (by omega) hpidlt)

/-! ### End-of-simulation condition (simulator.hpp / experiment.hpp) — C5

The per-FP confidence-interval estimators are kept in two vectors:
`fp_coal_profit_ci_stats_` and `fp_alone_profit_ci_stats_`.  Only their
`done()` / `unstable()` flags matter here (their estimator class lives
outside src/). -/

structure CiMeanEstimator where
  done : Bool
  unstable : Bool
deriving DecidableEq, Repr

/-- `experiment_t::check_stats` (experiment.hpp:1217-1231): scan the
estimators; the first one that is neither done nor unstable makes the answer
false. -/
def check_stats : List CiMeanEstimator → Bool
  | [] => true
  | s :: rest => if !s.done && !s.unstable then false else check_stats rest

/-- `experiment_t::do_check_end_of_simulation` (experiment.hpp:1430-1434):
only the coalition-profit estimators are consulted — the alone-profit
`check_stats` call is commented out in the source (line 1433). -/
def do_check_end_of_simulation (coal_stats alone_stats : List CiMeanEstimator) :
    Bool :=
  check_stats coal_stats

/-- `simulator_t::check_end_of_simulation` (simulator.hpp:258-261):
`done_ || num_rep_ >= max_num_rep_ || do_check_end_of_simulation()`. -/
def check_end_of_simulation (done_ : Bool) (num_rep max_num_rep : ℕ)
    (coal_stats alone_stats : List CiMeanEstimator) : Bool :=
  done_ || decide (max_num_rep ≤ num_rep)
    || do_check_end_of_simulation coal_stats alone_stats

theorem check_stats_eq_all (l : List CiMeanEstimator) :
    check_stats l = l.all (fun s => s.done || s.unstable) := by
  induction l with
  | nil => rfl
  | cons s rest ih =>
    rw [check_stats]
    cases hd : s.done <;> cases hu : s.unstable <;>
      simp [List.all_cons, hd, hu, ih]

/-- C5 (amended): the simulation-end test is `done_`, or the replication
budget being exhausted, or every **coalition-profit** CI estimator being done
or unstable; the alone-profit estimators are not consulted at all (the second
`check_stats` call is commented out), so the test is insensitive to them.
The original claim's "both estimator families" is refuted by
`C5_alone_estimators_ignored_counterexample`. -/
theorem C5_end_condition (done_ : Bool) (num_rep max_num_rep : ℕ)
    (coal_stats alone_stats alone_stats2 : List CiMeanEstimator) :
    (check_end_of_simulation done_ num_rep max_num_rep coal_stats alone_stats
      = (done_ || decide (max_num_rep ≤ num_rep)
          || coal_stats.all (fun s => s.done || s.unstable))) ∧
    check_end_of_simulation done_ num_rep max_num_rep coal_stats alone_stats
      = check_end_of_simulation done_ num_rep max_num_rep coal_stats alone_stats2 :=
  ⟨by rw [check_end_of_simulation, do_check_end_of_simulation, check_stats_eq_all],
   rfl⟩

/-- C5 counterexample: with the single coalition-profit estimator done but
the alone-profit estimator neither done nor unstable, the simulation ends
although the claim's condition (every estimator of both families done or
unstable, or the replication budget exhausted) does not hold. -/
theorem C5_alone_estimators_ignored_counterexample :
    check_end_of_simulation false 0 10 [⟨true, false⟩] [⟨false, false⟩] = true ∧
    ¬ ((([⟨true, false⟩] ++ [⟨false, false⟩] : List CiMeanEstimator)).all
        (fun s => s.done || s.unstable) = true ∨ (10 : ℕ) ≤ 0) := by
  decide

/-! ### make_scenario shape handling (experiment.hpp) — C7 -/

/-- The shape-relevant fields of `scenario_t`. -/
structure scenario_t where
  num_fps : ℕ
  num_fn_categories : ℕ
  num_svc_categories : ℕ
  num_vm_categories : ℕ
  svc_max_delays : List ℚ
  svc_vm_categories : List ℕ
  svc_vm_service_rates : List ℚ
  fp_num_svcs : List (List ℕ)
  fp_num_fns : List (List ℕ)
  fp_electricity_costs : List ℚ
  fp_fn_asleep_costs : List (List ℚ)
  fp_fn_awake_costs : List (List ℚ)
  fp_coalition_costs : List ℚ
  fp_svc_revenues : List (List ℚ)
  fp_svc_penalties : List (List ℚ)
  fn_min_powers : List ℚ
  fn_max_powers : List ℚ
  vm_cpu_requirements : List (List ℚ)
  vm_ram_requirements : List (List ℚ)
deriving DecidableEq, Repr

/-- Parsing of a `vm.cpu_requirements` / `vm.ram_requirements` line
(experiment.hpp:885-903, resp. 919-937): the outer vector is resized to
`num_fps` — not `num_vm_categories` — and only the rows `i <
num_vm_categories` are filled, each resized to `num_fn_categories`.  (For
`num_vm_categories > num_fps` the C++ indexes the vector out of bounds; the
embedding is faithful for `num_vm_categories ≤ num_fps`, which the exhibited
input satisfies.) -/
def vmRequirementsParse (num_fps num_vm_categories num_fn_categories : ℕ)
    (vals : ℕ → ℕ → ℚ) : List (List ℚ) :=
  (List.range num_vm_categories).foldl
    (fun t i => t.set i ((List.range num_fn_categories).map (vals i)))
    (List.replicate num_fps [])

/-- The post-parse consistency checks of `make_scenario`
(experiment.hpp:1002-1064), in source order; `make_scenario` returns the
scenario exactly when all of them hold.  No check mentions
`vm_cpu_requirements`, `vm_ram_requirements` or `svc_vm_service_rates`. -/
def make_scenario_checks (s : scenario_t) : Bool :=
  decide (0 < s.num_fps) &&
  decide (0 < s.num_fn_categories) &&
  decide (0 < s.num_svc_categories) &&
  decide (0 < s.num_vm_categories) &&
  decide (s.svc_max_delays.length = s.num_svc_categories) &&
  decide (s.svc_vm_categories.length = s.num_svc_categories) &&
  decide (s.fp_num_svcs.length = s.num_fps) &&
  s.fp_num_svcs.all (fun r => decide (r.length = s.num_svc_categories)) &&
  decide (s.fp_num_fns.length = s.num_fps) &&
  s.fp_num_fns.all (fun r => decide (r.length = s.num_fn_categories)) &&
  decide (s.fp_electricity_costs.length = s.num_fps) &&
  decide (s.fp_fn_asleep_costs.length = s.num_fps) &&
  s.fp_fn_asleep_costs.all (fun r => decide (r.length = s.num_fn_categories)) &&
  decide (s.fp_fn_awake_costs.length = s.num_fps) &&
  s.fp_fn_awake_costs.all (fun r => decide (r.length = s.num_fn_categories)) &&
  decide (s.fp_coalition_costs.length = s.num_fps) &&
  decide (s.fp_svc_revenues.length = s.num_fps) &&
  s.fp_svc_revenues.all (fun r => decide (r.length = s.num_svc_categories)) &&
  decide (s.fp_svc_penalties.length = s.num_fps) &&
  s.fp_svc_penalties.all (fun r => decide (r.length = s.num_svc_categories)) &&
  decide (s.fn_min_powers.length = s.num_fn_categories) &&
  decide (s.fn_max_powers.length = s.num_fn_categories)

/-- The scenario obtained from a file declaring `num_fps = 2` and
`num_vm_categories = num_fn_categories = num_svc_categories = 1`, with every
key present and every checked table having the declared shape, and the vm
requirement tables produced by the parsing code. -/
def scenarioVmBug : scenario_t :=
  { num_fps := 2
  , num_fn_categories := 1
  , num_svc_categories := 1
  , num_vm_categories := 1
  , svc_max_delays := [1]
  , svc_vm_categories := [0]
  , svc_vm_service_rates := [1]
  , fp_num_svcs := [[1], [1]]
  , fp_num_fns := [[1], [1]]
  , fp_electricity_costs := [1, 1]
  , fp_fn_asleep_costs := [[1], [1]]
  , fp_fn_awake_costs := [[1], [1]]
  , fp_coalition_costs := [1, 1]
  , fp_svc_revenues := [[1], [1]]
  , fp_svc_penalties := [[1], [1]]
  , fn_min_powers := [1]
  , fn_max_powers := [1]
  , vm_cpu_requirements := vmRequirementsParse 2 1 1 (fun _ _ => 1)
  , vm_ram_requirements := vmRequirementsParse 2 1 1 (fun _ _ => 1) }

/-- C7: `make_scenario` accepts a scenario whose vm requirement tables do
**not** have the shape the claim promises: the outer length is `num_fps = 2`
instead of `num_vm_categories = 1` (copy-paste `resize(s.num_fps)` at
experiment.hpp:885/919), the extra row is empty instead of having
`num_fn_categories` entries, and no post-parse check rejects this. -/
theorem C7_vm_table_shape_unchecked :
    make_scenario_checks scenarioVmBug = true ∧
    scenarioVmBug.vm_cpu_requirements.length ≠ scenarioVmBug.num_vm_categories ∧
    scenarioVmBug.vm_cpu_requirements.length = scenarioVmBug.num_fps ∧
    ∃ row ∈ scenarioVmBug.vm_cpu_requirements,
      row.length ≠ scenarioVmBug.num_fn_categories := by
  refine ⟨by decide, by decide, by decide, ⟨[], by decide, by decide⟩⟩

/-- Witness for C10 on the concrete solved one-FP run. -/
theorem C10_visited_coalitions_complete_witness :
    ((analyze_coalitions analyzeParamsSolved).2.map Prod.fst = List.range' 1 1) ∧
    (∀ cid, 1 ≤ cid → cid < 2 ^ analyzeParamsSolved.num_fps →
      ((analyze_coalitions analyzeParamsSolved).2.lookup cid).isSome) ∧
    nash_stable_partition_selector (analyze_coalitions analyzeParamsSolved).1
      (analyze_coalitions analyzeParamsSolved).2 analyzeParamsSolved.num_fps
      ≠ Except.error MapErr.atVisited :=
  C10_visited_coalitions_complete analyzeParamsSolved (by decide)

end FogGT
